import Mathlib

/-!
# Tsito search engine (hox_Client/tsito/Engine.cpp, Engine.h)

A shallow embedding of the search engine of the tsito Xiangqi engine and
theorems about it.

Conventions of the embedding.

* The C++ member variables of `Engine`, together with the file-scope
  `::priorityTable` used by the sort comparator, form the record `Engine`.  The
  file-scope pointer `::_board` is set to `board` at the entry of `search` and
  `quiescence`, so the comparator takes the board as an argument.  Every member
  function becomes a function that takes the record and returns the updated
  record together with its outputs.
* The classes `Board`, `Lawyer`, `Evaluator`, `TranspositionTable`,
  `OpeningBook` and `Timer` are declared outside `Engine.cpp`/`Engine.h`.  Their
  operations are the fields of the record `Collab`; the position type `B` and
  the table type `TT` are parameters.  The timer is polled, so its answers are
  indexed by the number of polls made so far (`Engine.clock`).  The value that
  the class `Options` holds for an option is an argument of `optionChanged`.
* `long` and `int` values are unbounded `Int`; the one conversion to `size_t`
  (in `setUpKillers` and `newKiller`) is modelled by `toSizeT`.
* The recursion search -> alphaBeta/negaScout/quiescence -> search is
  bounded by a fuel argument: `search c 0` is `none`, and `search c (n+1)`
  runs the body of `Engine::search` with `search c n` for the recursive calls.
  The loops of `mtd` and `think` carry a bound on their iterations in the same
  way.  Results about a returned score state that enough fuel gives it.
-/

namespace Tsito

/-! ## Data model -/

/-- Move: an origin and a destination square (`Move.h`). -/
structure Move where
  origin : Nat
  destination : Nat
deriving DecidableEq, Repr

/-- Modelled from the spec: the empty/null move built by the default constructor `Move()`
(`Move.h` is not part of the sources; `think` treats origin 0, destination 0 as no move). -/
def Move.empty : Move := ⟨0, 0⟩

/-- Cutoff kinds of `Engine.h`: `enum { NO_CUTOFF, HASH_CUTOFF, NULL_CUTOFF, MATE_CUTOFF, MISC_CUTOFF }`. -/
inductive Cutoff where
  | NO_CUTOFF | HASH_CUTOFF | NULL_CUTOFF | MATE_CUTOFF | MISC_CUTOFF
deriving DecidableEq, Repr

/-- The `struct PVEntry` of `Engine.h`. -/
structure PVEntry where
  move : Move
  cutoff : Cutoff
deriving DecidableEq, Repr

/-- Search methods: `enum { SEARCH_AB, SEARCH_PV, SEARCH_NS }`. -/
inductive SearchMethod where
  | SEARCH_AB | SEARCH_PV | SEARCH_NS
deriving DecidableEq, Repr

/-- Search states: `enum { SEARCHING, DONE_SEARCHING, BETWEEN_SEARCHES }`. -/
inductive SearchState where
  | SEARCHING | DONE_SEARCHING | BETWEEN_SEARCHES
deriving DecidableEq, Repr

/-- Abort reasons: `enum { NO_ABORT, ABORT_TIME, ABORT_READ }`. -/
inductive Abort where
  | NO_ABORT | ABORT_TIME | ABORT_READ
deriving DecidableEq, Repr

/-- The two sides; `search` computes the opponent as `sideToMove() == RED ? BLUE : RED`. -/
inductive Color where
  | RED | BLUE
deriving DecidableEq, Repr

/-- Flags of a transposition node (`Transposition.h`), as used by `tableSearch`/`tableSet`. -/
inductive Flag where
  | NOT_FOUND | EXACT_SCORE | UPPER_BOUND | LOWER_BOUND
deriving DecidableEq, Repr

/-- Piece codes returned by `Board::pieceAt`. -/
abbrev Piece := Int

/-- The `TNode` of `Transposition.h`: built from a board (`TNode storeNode(board)`), then filled
by the setters `move`, `score`, `depth`, `flag`. -/
structure TNode (B : Type) where
  pos : B
  move : Move
  score : Int
  depth : Int
  flag : Flag
deriving DecidableEq, Repr

/-- The macro `INFIN` of `Engine.h` (`#define INFIN 3000`). -/
def INFIN : Int := 3000

/-- The macro `CHECKMATE` of `Engine.h` (`#define CHECKMATE (-2000)`). -/
def CHECKMATE : Int := -2000

/-- The collaborators of the engine: every operation of `Board`, `Lawyer`, `Evaluator`,
`TranspositionTable`, `OpeningBook`, `Timer` and `std::list::sort` that `Engine.cpp` calls. -/
structure Collab (B TT : Type) where
  /-- Method `Board::makeMove(m)` -/
  makeMove : B → Move → B
  /-- Method `Board::unmakeMove()` -/
  unmakeMove : B → B
  /-- Method `Board::makeNullMove()` -/
  makeNullMove : B → B
  /-- Method `Board::pieceAt(square)` -/
  pieceAt : B → Nat → Piece
  /-- Method `Board::sideToMove()` -/
  sideToMove : B → Color
  /-- The piece code `JIANG` (the king). -/
  JIANG : Piece
  /-- The piece code `EMPTY`. -/
  EMPTY : Piece
  /-- Method `Lawyer::inCheck(color)` -/
  inCheck : B → Color → Bool
  /-- Method `Lawyer::inCheck()` called without an argument (in `filterOutNonCaptures`). -/
  inCheckMover : B → Bool
  /-- Method `Lawyer::generateMoves(list, legalonly)`: the moves put into the (empty) list. -/
  generateMoves : B → Bool → List Move
  /-- Method `Lawyer::legalMove(m)` -/
  legalMove : B → Move → Bool
  /-- Method `Evaluator::evaluatePosition(board, lawyer)` -/
  evaluatePosition : B → Int
  /-- Method `Evaluator::pieceValue(piece)` -/
  pieceValue : Piece → Int
  /-- Method `TranspositionTable::find(board, node)`: the node filled in (flag `NOT_FOUND` when absent). -/
  find : TT → B → TNode B
  /-- Method `TranspositionTable::store(node)` -/
  store : TT → TNode B → TT
  /-- Method `TranspositionTable::flush()` -/
  flush : TT → TT
  /-- Method `OpeningBook::valid()` -/
  bookValid : Bool
  /-- Method `OpeningBook::getMove(board)`, an `unsigned short`. -/
  bookGetMove : B → Nat
  /-- Method `Timer::haveTimeLeftForMove()` of the timer of a colour, at the given poll. -/
  haveTimeLeftForMove : Color → Nat → Bool
  /-- Method `std::list<Move>::sort(comp)` -/
  sort : (Move → Move → Bool) → List Move → List Move

/-- The member variables of `class Engine` and the file-scope `::priorityTable`. -/
structure Engine (B TT : Type) where
  board : B
  transposTable : TT
  hasOpeningBook : Bool
  principleVariation : List PVEntry
  searchState : SearchState
  maxPly : Int
  killer1 : List Move
  killer2 : List Move
  nullMoveReductionFactor : Int
  searchAborted : Abort
  myTimer : Color
  clock : Nat
  nodeCount : Int
  useOpeningBook : Bool
  displayThinking : Bool
  quiesc : Bool
  qnull : Bool
  qhash : Bool
  searchMethod : SearchMethod
  allowNull : Bool
  useMTDF : Bool
  useIterDeep : Bool
  verifyNull : Bool
  allowTableWindowAdjustments : Bool
  useTable : Bool
  priorityTable : List Move
deriving DecidableEq, Repr

variable {B TT : Type}

/-- Conversion of an `int` to `size_t` (64 bit): the value modulo `2^64`. -/
def toSizeT (x : Int) : Nat := (x % (2 ^ 64 : Int)).toNat

/-! ## Transposition table access -/

/-- The node built by `Engine::tableSet` (lines 809-819) before it is stored. -/
def tableSetNode (e : Engine B TT) (ply depth alpha beta : Int) (m : Move) (score : Int) :
    TNode B :=
  { pos := e.board
    move := m
    score := score
    depth := depth - ply
    flag := if score < alpha then Flag.UPPER_BOUND
            else if score < beta then Flag.EXACT_SCORE
            else Flag.LOWER_BOUND }

/-- Engine::tableSet (lines 806-822). -/
def tableSet (c : Collab B TT) (e : Engine B TT) (ply depth alpha beta : Int) (m : Move)
    (score : Int) : Engine B TT :=
  if !e.useTable then e
  else { e with transposTable := c.store e.transposTable (tableSetNode e ply depth alpha beta m score) }

/-- The outputs of `Engine::tableSearch`: the returned `bool` and the by-reference arguments. -/
structure TableSearchResult (B TT : Type) where
  cut : Bool
  alpha : Int
  beta : Int
  m : Move
  score : Int
  nullok : Bool
  eng : Engine B TT

/-- The window adjustment of `tableSearch` (lines 777-797): the new `alpha`, `beta` and
`nullok` for a found node with the given flag and score. -/
def tableWindow (adjust : Bool) (flag : Flag) (score1 alpha beta : Int) (nullok : Bool) :
    Int × Int × Bool :=
  if adjust then
    match flag with
    | Flag.UPPER_BOUND =>
      if beta > score1 ∧ score1 > alpha then (alpha, score1, false) else (alpha, beta, nullok)
    | Flag.LOWER_BOUND =>
      if alpha < score1 ∧ score1 < beta then (score1, beta, false) else (alpha, beta, nullok)
    | _ => (alpha, beta, nullok)
  else (alpha, beta, nullok)

/-- Engine::tableSearch (lines 767-804). -/
def tableSearch (c : Collab B TT) (e : Engine B TT) (ply depth alpha beta : Int) (m : Move)
    (score : Int) (nullok : Bool) : TableSearchResult B TT :=
  if !e.useTable then ⟨false, alpha, beta, m, score, nullok, e⟩
  else
    let searchNode := c.find e.transposTable e.board
    if searchNode.flag ≠ Flag.NOT_FOUND then
      let adj := tableWindow e.allowTableWindowAdjustments searchNode.flag searchNode.score
        alpha beta nullok
      ⟨decide (searchNode.depth > depth - ply
          ∧ (ply > 0 ∨ searchNode.flag = Flag.EXACT_SCORE)),
        adj.1, adj.2.1, searchNode.move, searchNode.score, adj.2.2,
        { e with priorityTable := e.priorityTable ++ [searchNode.move] }⟩
    else ⟨false, alpha, beta, m, score, nullok, e⟩

/-! ## Move ordering and killers -/

/-- The index loop of `compareMoves` (lines 80-85): the last index at which the move occurs in
the priority table, `-1` when it does not occur. -/
def priorityIndex (priorityTable : List Move) (m : Move) : Int :=
  (priorityTable.enum.foldl
    (fun (acc : Int) (p : Nat × Move) => if p.2 = m then (p.1 : Int) else acc) (-1))

/-- The comparator `compareMoves` (lines 77-115); the file-scope board pointer and priority table
are explicit arguments. -/
def compareMoves (c : Collab B TT) (board : B) (priorityTable : List Move) (m1 m2 : Move) :
    Bool :=
  let m1Index := priorityIndex priorityTable m1
  let m2Index := priorityIndex priorityTable m2
  if m1Index = -1 ∧ m2Index ≠ -1 then false
  else if m2Index = -1 ∧ m1Index ≠ -1 then true
  else if m1Index < m2Index then true
  else if m2Index < m1Index then false
  else if c.pieceAt board m1.origin = c.JIANG ∧ c.pieceAt board m2.origin ≠ c.JIANG then false
  else if c.pieceAt board m2.origin = c.JIANG ∧ c.pieceAt board m1.origin ≠ c.JIANG then true
  else if c.pieceValue (c.pieceAt board m1.destination)
      < c.pieceValue (c.pieceAt board m2.destination) then false
  else if c.pieceValue (c.pieceAt board m1.destination)
      > c.pieceValue (c.pieceAt board m2.destination) then true
  else if c.pieceValue (c.pieceAt board m1.origin)
      = c.pieceValue (c.pieceAt board m2.origin) then false
  else if c.pieceValue (c.pieceAt board m1.origin)
      < c.pieceValue (c.pieceAt board m2.origin) then
    (if c.pieceAt board m1.destination = c.EMPTY then false else true)
  else
    (if c.pieceAt board m1.destination = c.EMPTY then true else false)

/-- Engine::newKiller (lines 117-132). -/
def newKiller (e : Engine B TT) (theMove : Move) (ply : Int) : Engine B TT :=
  if e.killer1.length > toSizeT ply then
    let temp := e.killer1.getD (toSizeT ply) Move.empty
    let k1 := e.killer1.set (toSizeT ply) theMove
    if e.killer2.length > toSizeT ply then
      { e with killer1 := k1, killer2 := e.killer2.set (toSizeT ply) temp }
    else
      { e with killer1 := k1, killer2 := e.killer2 ++ [theMove] }
  else
    { e with killer1 := e.killer1 ++ [theMove] }

/-- Engine::setUpKillers (lines 757-763). -/
def setUpKillers (e : Engine B TT) (ply : Int) : Engine B TT :=
  let e1 :=
    if e.killer1.length > toSizeT (ply - 1) then
      { e with priorityTable := e.priorityTable ++ [e.killer1.getD (toSizeT (ply - 1)) Move.empty] }
    else e
  if e1.killer2.length > toSizeT (ply - 1) then
    { e1 with priorityTable := e1.priorityTable ++ [e1.killer2.getD (toSizeT (ply - 1)) Move.empty] }
  else e1

/-- Engine::filterOutNonCaptures (lines 376-396). -/
def filterOutNonCaptures (c : Collab B TT) (e : Engine B TT) (moveList : List Move) :
    List Move :=
  if c.inCheckMover e.board then moveList
  else moveList.takeWhile (fun m => decide (c.pieceAt e.board m.destination ≠ c.EMPTY))

/-- The last entry of a line gets the given cutoff: `pv[pv.size()-1].cutoff = k`, guarded in
the source by `!pv.empty()`. -/
def setLastCutoff : List PVEntry → Cutoff → List PVEntry
  | [], _ => []
  | [x], k => [{ x with cutoff := k }]
  | x :: y :: r, k => x :: setLastCutoff (y :: r) k

/-! ## The search -/

/-- The outputs of a search function: the returned score, the principal variation passed by
reference, and the engine afterwards. -/
structure SearchResult (B TT : Type) where
  value : Int
  pv : List PVEntry
  eng : Engine B TT

/-- The type of `Engine::search`: engine, pv, alpha, beta, ply, depth, legalonly, nullOk,
verify. -/
abbrev SearchFn (B TT : Type) :=
  Engine B TT → List PVEntry → Int → Int → Int → Int → Bool → Bool → Bool →
    Option (SearchResult B TT)

/-- The engine after `board->makeMove(m)`. -/
def doMove (c : Collab B TT) (e : Engine B TT) (m : Move) : Engine B TT :=
  { e with board := c.makeMove e.board m }

/-- The engine after `board->unmakeMove()`. -/
def undoMove (c : Collab B TT) (e : Engine B TT) : Engine B TT :=
  { e with board := c.unmakeMove e.board }

/-- The engine after `board->makeNullMove()`. -/
def doNullMove (c : Collab B TT) (e : Engine B TT) : Engine B TT :=
  { e with board := c.makeNullMove e.board }

/-- The state of the loop of `Engine::alphaBeta`. -/
structure ABState (B TT : Type) where
  alpha : Int
  best : Int
  myPV : List PVEntry
  eng : Engine B TT

/-- The window bound after `if (best > alpha) alpha = best;` (line 686). -/
def abAlpha (st : ABState B TT) : Int :=
  if st.best > st.alpha then st.best else st.alpha

/-- The loop state of `alphaBeta` after the child search returned `r` (lines 688-696):
`value = -search(...)`, the test `value > -INFIN && value > best`, and `unmakeMove`. -/
def abUpdate (c : Collab B TT) (st : ABState B TT) (r : SearchResult B TT) : ABState B TT :=
  if -r.value > -INFIN ∧ -r.value > st.best then
    ⟨abAlpha st, -r.value, r.pv, undoMove c r.eng⟩
  else ⟨abAlpha st, st.best, st.myPV, undoMove c r.eng⟩

/-- The `for` loop of `Engine::alphaBeta` (lines 676-697) over the remaining moves. -/
def alphaBetaLoop (c : Collab B TT) (srch : SearchFn B TT) (beta ply depth : Int)
    (verify : Bool) : List Move → ABState B TT → Option (ABState B TT)
  | [], st => some st
  | m :: rest, st =>
    if st.best < beta then
      match srch (doMove c st.eng m) [⟨m, Cutoff.NO_CUTOFF⟩] (-beta) (-abAlpha st) (ply + 1)
          depth false true verify with
      | none => none
      | some r => alphaBetaLoop c srch beta ply depth verify rest (abUpdate c st r)
    else some st

set_option linter.unusedVariables false in
/-- Engine::alphaBeta (lines 659-701). -/
def alphaBeta (c : Collab B TT) (srch : SearchFn B TT) (e : Engine B TT) (pv : List PVEntry)
    (moveList : List Move) (alpha beta ply depth : Int) (legalonly nullOk verify : Bool) :
    Option (SearchResult B TT) :=
  match alphaBetaLoop c srch beta ply depth verify moveList ⟨alpha, -INFIN, [], e⟩ with
  | none => none
  | some st =>
    if st.best = -INFIN then some ⟨CHECKMATE, pv, st.eng⟩
    else some ⟨st.best, pv ++ st.myPV, st.eng⟩

/-- The state of the loop of `Engine::negaScout`. -/
structure NSState (B TT : Type) where
  a : Int
  b : Int
  myPV : List PVEntry
  eng : Engine B TT

/-- The loop state of `negaScout` after a move whose probe returned `t` and was not searched
again (lines 745-751): `unmakeMove`, `if (t > a) { a = t; myPV = tempPV; }`, `b = a + 1`. -/
def nsUpdate (c : Collab B TT) (st : NSState B TT) (r : SearchResult B TT) : NSState B TT :=
  if -r.value > st.a then ⟨-r.value, -r.value + 1, r.pv, undoMove c r.eng⟩
  else ⟨st.a, st.a + 1, st.myPV, undoMove c r.eng⟩

/-- The loop state of `negaScout` after a move whose probe returned `t` and that was searched
again with result `r2` (lines 743-751): `a = -search(...)`, `unmakeMove`,
`if (t > a) { a = t; myPV = tempPV; }`, `b = a + 1`. -/
def nsUpdateResearch (c : Collab B TT) (st : NSState B TT) (t : Int)
    (r2 : SearchResult B TT) : NSState B TT :=
  if t > -r2.value then ⟨t, t + 1, r2.pv, undoMove c r2.eng⟩
  else ⟨-r2.value, -r2.value + 1, st.myPV, undoMove c r2.eng⟩

/-- The `for` loop of `Engine::negaScout` (lines 732-752) over the remaining moves; `first`
tells whether the iterator is at `moveList.begin()`. -/
def negaScoutLoop (c : Collab B TT) (srch : SearchFn B TT) (beta ply depth : Int)
    (verify : Bool) : List Move → Bool → NSState B TT → Option (NSState B TT)
  | [], _, st => some st
  | m :: rest, first, st =>
    if st.a < beta then
      match srch (doMove c st.eng m) [⟨m, Cutoff.NO_CUTOFF⟩] (-st.b) (-st.a) (ply + 1) depth
          false true verify with
      | none => none
      | some r =>
        if -r.value > st.a ∧ -r.value < beta ∧ first = false ∧ ply < depth - 1 then
          match srch r.eng [⟨m, Cutoff.NO_CUTOFF⟩] (-beta) (- -r.value) (ply + 1) depth
              false true verify with
          | none => none
          | some r2 =>
            negaScoutLoop c srch beta ply depth verify rest false
              (nsUpdateResearch c st (-r.value) r2)
        else negaScoutLoop c srch beta ply depth verify rest false (nsUpdate c st r)
    else some st

set_option linter.unusedVariables false in
/-- Engine::negaScout (lines 711-755). -/
def negaScout (c : Collab B TT) (srch : SearchFn B TT) (e : Engine B TT) (pv : List PVEntry)
    (moveList : List Move) (alpha beta ply depth : Int) (legalonly nullOk verify : Bool) :
    Option (SearchResult B TT) :=
  match negaScoutLoop c srch beta ply depth verify moveList true ⟨alpha, beta, [], e⟩ with
  | none => none
  | some st => some ⟨st.a, pv ++ st.myPV, st.eng⟩

/-- The `switch (searchMethod)` of `search` (lines 527-539) and of `quiescence` (lines 635-647),
called with an empty local line `myPV`; `value` is the current content of the local variable,
which the empty case `SEARCH_PV` leaves as it is. -/
def dispatch (c : Collab B TT) (srch : SearchFn B TT) (e : Engine B TT) (moveList : List Move)
    (alpha beta ply depth : Int) (legalonly nullOk verify : Bool) (value : Int) :
    Option (SearchResult B TT) :=
  match e.searchMethod with
  | SearchMethod.SEARCH_AB =>
    alphaBeta c srch e [] moveList alpha beta ply depth legalonly nullOk verify
  | SearchMethod.SEARCH_PV => some ⟨value, [], e⟩
  | SearchMethod.SEARCH_NS =>
    negaScout c srch e [] moveList alpha beta ply depth legalonly nullOk verify

/-- The engine after a poll of the timer that reported no time left (lines 447-451 and
587-591): the abort reason is set to `ABORT_TIME`. -/
def timedOut (e : Engine B TT) : Engine B TT :=
  { e with clock := e.clock + 1, searchAborted := Abort.ABORT_TIME }

/-- The engine after a poll of the timer that reported time left, in `quiescence`. -/
def timerPolled (e : Engine B TT) : Engine B TT :=
  { e with clock := e.clock + 1 }

/-- The engine after the entry of `search` (lines 447-455) when the timer reported time left:
the priority table is cleared and the node counter incremented. -/
def nodeEntered (e : Engine B TT) : Engine B TT :=
  { e with clock := e.clock + 1, priorityTable := [], nodeCount := e.nodeCount + 1 }

/-- The colour `search` and `quiescence` pass to `inCheck`: the side not to move
(`board->sideToMove() == RED ? BLUE : RED`). -/
def sideNotToMove (c : Collab B TT) (b : B) : Color :=
  if c.sideToMove b = Color.RED then Color.BLUE else Color.RED

/-- The end of `Engine::search` after the last dispatch when no abort is flagged
(lines 558-565): killer, table entry, and the local line appended to `pv`. -/
def searchPost (c : Collab B TT) (e : Engine B TT) (pv myPV : List PVEntry)
    (alpha beta ply depth value : Int) : SearchResult B TT :=
  match myPV with
  | [] => ⟨value, pv ++ myPV, e⟩
  | x :: _ =>
    ⟨value, pv ++ myPV,
      tableSet c (if value > beta then newKiller e x.move ply else e) ply depth alpha beta
        x.move value⟩

/-- The part of `Engine::search` from the label `research` on (lines 526-565): dispatch, abort
test, the one verified null-move retry (`goto research` with `failHigh` reset), post-processing. -/
def searchTail (c : Collab B TT) (srch : SearchFn B TT) (e : Engine B TT) (pv : List PVEntry)
    (moveList : List Move) (alpha beta ply depth : Int) (legalonly nullOk verify failHigh : Bool)
    (value : Int) : Option (SearchResult B TT) :=
  match dispatch c srch e moveList alpha beta ply depth legalonly nullOk verify value with
  | none => none
  | some r =>
    if r.eng.searchAborted ≠ Abort.NO_ABORT then some ⟨r.value, pv ++ r.pv, r.eng⟩
    else if failHigh = true ∧ r.value < beta then
      match dispatch c srch r.eng moveList alpha beta ply (depth + 1) legalonly nullOk true
          r.value with
      | none => none
      | some r2 =>
        if r2.eng.searchAborted ≠ Abort.NO_ABORT then some ⟨r2.value, pv ++ r2.pv, r2.eng⟩
        else some (searchPost c r2.eng pv r2.pv alpha beta ply (depth + 1) r2.value)
    else some (searchPost c r.eng pv r.pv alpha beta ply depth r.value)

/-- The part of `Engine::search` from `setUpKillers` on (lines 514-565): killers, move
generation, the empty-list return, sorting, and the tail. -/
def searchMoves (c : Collab B TT) (srch : SearchFn B TT) (e : Engine B TT) (pv : List PVEntry)
    (alpha beta ply depth : Int) (legalonly nullOk verify failHigh : Bool) (value : Int) :
    Option (SearchResult B TT) :=
  if c.generateMoves (setUpKillers e ply).board legalonly = [] then
    some ⟨CHECKMATE + ply, setLastCutoff pv Cutoff.MATE_CUTOFF, setUpKillers e ply⟩
  else
    searchTail c srch (setUpKillers e ply) pv
      (c.sort (compareMoves c (setUpKillers e ply).board (setUpKillers e ply).priorityTable)
        (c.generateMoves (setUpKillers e ply).board legalonly))
      alpha beta ply depth legalonly nullOk verify failHigh value

/-- The end of `Engine::quiescence` after the dispatch when no abort is flagged
(lines 649-653): killer and table entry. -/
def quiescencePost (c : Collab B TT) (e : Engine B TT) (myPV : List PVEntry)
    (alpha beta ply depth value : Int) : Engine B TT :=
  match myPV with
  | [] => e
  | x :: _ =>
    if (if value > beta then newKiller e x.move ply else e).qhash then
      tableSet c (if value > beta then newKiller e x.move ply else e) ply depth alpha beta
        x.move value
    else (if value > beta then newKiller e x.move ply else e)

/-- The part of `Engine::quiescence` from move generation on (lines 623-655). -/
def quiescenceMoves (c : Collab B TT) (srch : SearchFn B TT) (e : Engine B TT)
    (alpha beta ply depth : Int) (nullOk : Bool) (value : Int) : Option (Int × Engine B TT) :=
  if c.generateMoves e.board false = [] then some (CHECKMATE, e)
  else if filterOutNonCaptures c (setUpKillers e ply)
      (c.sort (compareMoves c (setUpKillers e ply).board (setUpKillers e ply).priorityTable)
        (c.generateMoves e.board false)) = [] then
    some (c.evaluatePosition (setUpKillers e ply).board, setUpKillers e ply)
  else
    match dispatch c srch (setUpKillers e ply)
        (filterOutNonCaptures c (setUpKillers e ply)
          (c.sort (compareMoves c (setUpKillers e ply).board (setUpKillers e ply).priorityTable)
            (c.generateMoves e.board false)))
        alpha beta ply depth false nullOk false value with
    | none => none
    | some r =>
      if r.eng.searchAborted ≠ Abort.NO_ABORT then some (r.value, r.eng)
      else some (r.value, quiescencePost c r.eng r.pv alpha beta ply depth r.value)

/-- The table probe of `quiescence` (line 603): `qhash && tableSearch(...)`, with the
by-reference arguments as the probe leaves them. -/
def quiescenceProbe (c : Collab B TT) (e : Engine B TT) (ply depth alpha beta : Int)
    (nullOk : Bool) : TableSearchResult B TT :=
  if e.qhash then tableSearch c e ply depth alpha beta Move.empty 0 nullOk
  else ⟨false, alpha, beta, Move.empty, 0, nullOk, e⟩

/-- The part of `Engine::quiescence` after a probe `ts` without cutoff (lines 608-655): the
null-move probe `search(ignore, -beta, 1-beta, 0, 1, false, false, verify)` made with
`quiesc` switched off, then the moves; `legalonly` and `verify` are the constant `false`. -/
def quiescenceNull (c : Collab B TT) (srch : SearchFn B TT) (ts : TableSearchResult B TT)
    (ply depth : Int) : Option (Int × Engine B TT) :=
  if ts.nullok && ts.eng.qnull then
    match srch { doNullMove c ts.eng with quiesc := false } [] (-ts.beta) (1 - ts.beta) 0 1
        false false false with
    | none => none
    | some r =>
      if -r.value ≥ ts.beta then
        some (c.evaluatePosition (undoMove c { r.eng with quiesc := true }).board,
          undoMove c { r.eng with quiesc := true })
      else
        quiescenceMoves c srch (undoMove c { r.eng with quiesc := true }) ts.alpha ts.beta ply
          depth ts.nullok (-r.value)
  else quiescenceMoves c srch ts.eng ts.alpha ts.beta ply depth ts.nullok 0

/-- Engine::quiescence (lines 569-656). -/
def quiescence (c : Collab B TT) (srch : SearchFn B TT) (e : Engine B TT)
    (alpha beta ply depth : Int) (nullOk : Bool) : Option (Int × Engine B TT) :=
  if !(c.haveTimeLeftForMove e.myTimer e.clock) then some (-INFIN, timedOut e)
  else if c.inCheck (timerPolled e).board (sideNotToMove c (timerPolled e).board) then
    some (INFIN, timerPolled e)
  else if (quiescenceProbe c (timerPolled e) ply depth alpha beta nullOk).cut then
    some ((quiescenceProbe c (timerPolled e) ply depth alpha beta nullOk).score,
      (quiescenceProbe c (timerPolled e) ply depth alpha beta nullOk).eng)
  else
    quiescenceNull c srch (quiescenceProbe c (timerPolled e) ply depth alpha beta nullOk) ply
      depth

/-- The part of `Engine::search` after a probe `ts` without cutoff (lines 483-565):
`verify = verify && verifyNull`, `nullOk = allowNull && nullOk`, the null-move probe, then
the moves. -/
def searchNull (c : Collab B TT) (srch : SearchFn B TT) (ts : TableSearchResult B TT)
    (pv : List PVEntry) (ply depth : Int) (legalonly verify : Bool) :
    Option (SearchResult B TT) :=
  if ply > 0 ∧ legalonly = false ∧ (ts.eng.allowNull && ts.nullok) = true
      ∧ ((verify && ts.eng.verifyNull) = false ∨ depth - ply > 2) then
    match srch (doNullMove c ts.eng) [] (-ts.beta) (1 - ts.beta) (ply + 1)
        (depth - ts.eng.nullMoveReductionFactor) false false (verify && ts.eng.verifyNull) with
    | none => none
    | some r =>
      if -r.value > ts.beta then
        if (verify && ts.eng.verifyNull) = true then
          searchMoves c srch (undoMove c r.eng) pv ts.alpha ts.beta ply (depth - 2) legalonly
            false false true (-r.value)
        else some ⟨-r.value, setLastCutoff pv Cutoff.NULL_CUTOFF, undoMove c r.eng⟩
      else
        searchMoves c srch (undoMove c r.eng) pv ts.alpha ts.beta ply depth legalonly
          (ts.eng.allowNull && ts.nullok) (verify && ts.eng.verifyNull) false (-r.value)
  else
    searchMoves c srch ts.eng pv ts.alpha ts.beta ply depth legalonly
      (ts.eng.allowNull && ts.nullok) (verify && ts.eng.verifyNull) false 0

/-- The body of `Engine::search` (lines 425-566), with `srch` for its recursive calls. -/
def searchBody (c : Collab B TT) (srch : SearchFn B TT) : SearchFn B TT :=
  fun e pv alpha beta ply depth legalonly nullOk verify =>
  if e.searchAborted ≠ Abort.NO_ABORT then some ⟨0, pv, e⟩
  else if !(c.haveTimeLeftForMove e.myTimer e.clock) then some ⟨-INFIN, pv, timedOut e⟩
  else if c.inCheck (nodeEntered e).board (sideNotToMove c (nodeEntered e).board) then
    some ⟨INFIN, setLastCutoff pv Cutoff.MISC_CUTOFF, nodeEntered e⟩
  else if ply ≥ depth then
    if (nodeEntered e).quiesc then
      match quiescence c srch (nodeEntered e) alpha beta ply depth nullOk with
      | none => none
      | some (v, e1) => some ⟨v, pv, e1⟩
    else some ⟨c.evaluatePosition (nodeEntered e).board - ply, pv, nodeEntered e⟩
  else if (tableSearch c (nodeEntered e) ply depth alpha beta Move.empty 0 nullOk).cut then
    some ⟨(tableSearch c (nodeEntered e) ply depth alpha beta Move.empty 0 nullOk).score,
      pv ++ [⟨(tableSearch c (nodeEntered e) ply depth alpha beta Move.empty 0 nullOk).m,
        Cutoff.HASH_CUTOFF⟩],
      (tableSearch c (nodeEntered e) ply depth alpha beta Move.empty 0 nullOk).eng⟩
  else
    searchNull c srch (tableSearch c (nodeEntered e) ply depth alpha beta Move.empty 0 nullOk)
      pv ply depth legalonly verify

/-- Engine::search with a bound on the nesting of recursive calls. -/
def search (c : Collab B TT) : Nat → SearchFn B TT
  | 0 => fun _ _ _ _ _ _ _ _ _ => none
  | fuel + 1 => searchBody c (search c fuel)

/-! ## MTD(f) and the iterative-deepening driver -/

/-- The window of an iteration of `mtd` (lines 153-154): `beta = g + 1` if `g == lowerbound`,
else `beta = g`. -/
def mtdBeta (g lowerbound : Int) : Int := if g = lowerbound then g + 1 else g

/-- The upper bound after an iteration of `mtd` that returned `r` (line 160). -/
def mtdUpper (g upperbound lowerbound r : Int) : Int :=
  if r < mtdBeta g lowerbound then r else upperbound

/-- The lower bound after an iteration of `mtd` that returned `r` (line 161). -/
def mtdLower (g lowerbound r : Int) : Int :=
  if r < mtdBeta g lowerbound then lowerbound else r

/-- The `do ... while` loop of `Engine::mtd` (lines 148-163); `n` bounds the number of
iterations. -/
def mtdLoop (c : Collab B TT) (fuel : Nat) (depth : Int) :
    Nat → Engine B TT → (g upperbound lowerbound : Int) → Option (SearchResult B TT)
  | 0, _, _, _, _ => none
  | n + 1, e, g, upperbound, lowerbound =>
    match search c fuel e [] (mtdBeta g lowerbound - 1) (mtdBeta g lowerbound) 0 depth false
        true true with
    | none => none
    | some r =>
      if mtdLower g lowerbound r.value < mtdUpper g upperbound lowerbound r.value then
        mtdLoop c fuel depth n r.eng r.value (mtdUpper g upperbound lowerbound r.value)
          (mtdLower g lowerbound r.value)
      else some r

set_option linter.unusedVariables false in
/-- Engine::mtd (lines 135-168); the argument `pv` is cleared at the start of every iteration. -/
def mtd (c : Collab B TT) (fuel : Nat) (e : Engine B TT) (pv : List PVEntry) (guess depth : Int) :
    Option (SearchResult B TT) :=
  mtdLoop c fuel depth fuel e guess INFIN (-INFIN)

/-- One iteration of the loop of `Engine::think` (lines 227-233; the display is omitted). -/
def thinkIter (c : Collab B TT) (fuel : Nat) (e : Engine B TT) (result i : Int) :
    Option (Int × Engine B TT) :=
  let pvArg : List PVEntry := if e.useIterDeep then [] else e.principleVariation
  let run :=
    if e.useMTDF then mtd c fuel e pvArg result i
    else search c fuel e pvArg (-INFIN) INFIN 0 i false true true
  match run with
  | none => none
  | some r =>
    if r.eng.useIterDeep then
      if r.eng.searchAborted = Abort.NO_ABORT then
        some (r.value, { r.eng with principleVariation := r.pv })
      else some (r.value, r.eng)
    else some (r.value, { r.eng with principleVariation := r.pv })

/-- The `for` loop of `Engine::think` (lines 222-244); `n` bounds the number of iterations. -/
def thinkLoop (c : Collab B TT) (fuel : Nat) :
    Nat → Engine B TT → (result i : Int) → Option (Int × Engine B TT)
  | 0, e, result, i =>
    if i ≤ e.maxPly ∧ e.searchAborted = Abort.NO_ABORT then none else some (result, e)
  | n + 1, e, result, i =>
    if i ≤ e.maxPly ∧ e.searchAborted = Abort.NO_ABORT then
      match thinkIter c fuel e result i with
      | none => none
      | some (result1, e1) => thinkLoop c fuel n e1 result1 (i + 1)
    else some (result, e)

/-- The entry of `Engine::think` (lines 183-195): the timer of the side to move is selected,
and in the state BETWEEN_SEARCHES the state becomes SEARCHING, the principal variation is
cleared, the transposition table flushed, both killer tables cleared and the node counter set
to 0. -/
def thinkEnter (c : Collab B TT) (e : Engine B TT) : Engine B TT :=
  if e.searchState = SearchState.BETWEEN_SEARCHES then
    { e with
      myTimer := c.sideToMove e.board
      searchState := SearchState.SEARCHING
      principleVariation := []
      transposTable := c.flush e.transposTable
      killer1 := []
      killer2 := []
      nodeCount := 0 }
  else { e with myTimer := c.sideToMove e.board }

/-- The opening-book test of `Engine::think` (lines 199-206): the book move for the position,
when there is a valid book, its move number is not 0, the move is not the empty move 0-0 and
it is legal. -/
def bookMove (c : Collab B TT) (e : Engine B TT) : Option Move :=
  if e.hasOpeningBook ∧ c.bookValid = true ∧ c.bookGetMove e.board ≠ 0
      ∧ ¬ (c.bookGetMove e.board / 256 = 0 ∧ c.bookGetMove e.board % 256 = 0)
      ∧ c.legalMove e.board ⟨c.bookGetMove e.board / 256, c.bookGetMove e.board % 256⟩ = true
  then some ⟨c.bookGetMove e.board / 256, c.bookGetMove e.board % 256⟩
  else none

/-- The end of `Engine::think` (lines 247-251): unless the abort reason is ABORT_READ the
state becomes DONE_SEARCHING. -/
def thinkFinish (e : Engine B TT) : Engine B TT :=
  if e.searchAborted ≠ Abort.ABORT_READ then
    { e with searchState := SearchState.DONE_SEARCHING }
  else e

/-- The part of `Engine::think` after its entry (lines 197-254): the opening book, the static
evaluation as first estimate, the reset of the abort flag, the loop over the depths (it makes
at most `maxPly + 1 - i` iterations from its first depth `i`) and the end. -/
def thinkRun (c : Collab B TT) (fuel : Nat) (e : Engine B TT) : Option (Int × Engine B TT) :=
  match bookMove c e with
  | some m =>
    some (c.evaluatePosition e.board,
      { e with
        principleVariation := e.principleVariation ++ [⟨m, Cutoff.NO_CUTOFF⟩]
        searchState := SearchState.DONE_SEARCHING })
  | none =>
    match thinkLoop c fuel
        (e.maxPly + 1 - (if e.useIterDeep then (e.principleVariation.length : Int) + 1
          else e.maxPly)).toNat
        { e with searchAborted := Abort.NO_ABORT } (c.evaluatePosition e.board)
        (if e.useIterDeep then (e.principleVariation.length : Int) + 1 else e.maxPly) with
    | none => none
    | some (result, e1) => some (result, thinkFinish e1)

/-- Engine::think (lines 174-254). -/
def think (c : Collab B TT) (fuel : Nat) (e : Engine B TT) : Option (Int × Engine B TT) :=
  if e.searchState = SearchState.DONE_SEARCHING then some (0, e)
  else thinkRun c fuel (thinkEnter c e)

/-- Engine::getMove (lines 256-263). -/
def getMove (e : Engine B TT) : Move × Engine B TT :=
  let e1 := { e with searchState := SearchState.BETWEEN_SEARCHES }
  match e1.principleVariation with
  | x :: _ => (x.move, e1)
  | [] => (Move.empty, e1)

/-! ## A small concrete instance

Positions are the lists of moves made so far (newest first), the transposition table is a
list of nodes searched front to back, and the move generator, the evaluator, the
king-capture test and the timer are given as functions.  It is used to run the definitions
above on concrete inputs. -/

/-- Stable insertion of a move into a list ordered by `lt`. -/
def insertMove (lt : Move → Move → Bool) (m : Move) : List Move → List Move
  | [] => [m]
  | x :: r => if lt m x then m :: x :: r else x :: insertMove lt m r

/-- Stable insertion sort of a move list. -/
def insertionSort (lt : Move → Move → Bool) : List Move → List Move
  | [] => []
  | x :: r => insertMove lt x (insertionSort lt r)

/-- Positions of the concrete instance: the moves made so far, newest first. -/
abbrev Pos := List Move

/-- Transposition table of the concrete instance: the nodes stored so far, newest first. -/
abbrev Table := List (TNode Pos)

/-- Lookup in the concrete table: the newest node for the position, else a `NOT_FOUND` node. -/
def tableFind : Table → Pos → TNode Pos
  | [], b => ⟨b, Move.empty, 0, 0, Flag.NOT_FOUND⟩
  | n :: r, b => if n.pos = b then n else tableFind r b

/-- The concrete collaborators, for a move generator `gen`, an evaluator `ev`, a king-capture
test `chk` (is the side not to move in check) and timer answers `time`. -/
def toy (gen : Pos → List Move) (ev : Pos → Int) (chk : Pos → Bool) (time : Nat → Bool) :
    Collab Pos Table :=
  { makeMove := fun b m => m :: b
    unmakeMove := fun b => b.tail
    makeNullMove := fun b => Move.empty :: b
    pieceAt := fun _ sq => sq
    sideToMove := fun b => if b.length % 2 = 0 then Color.RED else Color.BLUE
    JIANG := 1
    EMPTY := 0
    inCheck := fun b _ => chk b
    inCheckMover := fun _ => false
    generateMoves := fun b _ => gen b
    legalMove := fun _ _ => true
    evaluatePosition := ev
    pieceValue := fun p => p
    find := tableFind
    store := fun t n => n :: t
    flush := fun _ => []
    bookValid := false
    bookGetMove := fun _ => 0
    haveTimeLeftForMove := fun _ n => time n
    sort := insertionSort }

/-- The engine as the constructor `Engine::Engine` leaves it (lines 28-49), on the empty
position with an empty table. -/
def engine0 : Engine Pos Table :=
  { board := []
    transposTable := []
    hasOpeningBook := false
    principleVariation := []
    searchState := SearchState.BETWEEN_SEARCHES
    maxPly := 2
    killer1 := []
    killer2 := []
    nullMoveReductionFactor := 3
    searchAborted := Abort.NO_ABORT
    myTimer := Color.RED
    clock := 0
    nodeCount := 0
    useOpeningBook := false
    displayThinking := false
    quiesc := false
    qnull := false
    qhash := true
    searchMethod := SearchMethod.SEARCH_AB
    allowNull := true
    useMTDF := true
    useIterDeep := true
    verifyNull := true
    allowTableWindowAdjustments := false
    useTable := true
    priorityTable := [] }

/-- A concrete collaborator in which every position has the two moves 1-2 and 3-4, the
evaluation is the sum of the origins of the moves made, no king can be captured and the
timer never runs out. -/
def toyPlain : Collab Pos Table :=
  toy (fun _ => [⟨1, 2⟩, ⟨3, 4⟩]) (fun b => (b.map (fun m => (m.origin : Int))).sum)
    (fun _ => false) (fun _ => true)

/-- An engine whose table holds, for the empty position, an EXACT_SCORE entry of remaining
depth 5 with move 1-2 and score 777. -/
def engineStored5 : Engine Pos Table :=
  { engine0 with transposTable := [⟨[], ⟨1, 2⟩, 777, 5, Flag.EXACT_SCORE⟩] }

/-- An engine whose table holds, for the empty position, an UPPER_BOUND entry of remaining
depth 5 with move 1-2 and score 777. -/
def engineUpper5 : Engine Pos Table :=
  { engine0 with transposTable := [⟨[], ⟨1, 2⟩, 777, 5, Flag.UPPER_BOUND⟩] }

/-- A concrete collaborator like `toyPlain` in which the side not to move is in check in
every position. -/
def toyKingCapturable : Collab Pos Table :=
  toy (fun _ => [⟨1, 2⟩, ⟨3, 4⟩]) (fun b => (b.map (fun m => (m.origin : Int))).sum)
    (fun _ => true) (fun _ => true)

/-- A concrete collaborator like `toyPlain` whose timer has no time left at any poll. -/
def toyNoTime : Collab Pos Table :=
  toy (fun _ => [⟨1, 2⟩, ⟨3, 4⟩]) (fun b => (b.map (fun m => (m.origin : Int))).sum)
    (fun _ => false) (fun _ => false)

/-- A concrete collaborator like `toyPlain` whose timer has time left at the first poll only. -/
def toyOnePoll : Collab Pos Table :=
  toy (fun _ => [⟨1, 2⟩, ⟨3, 4⟩]) (fun b => (b.map (fun m => (m.origin : Int))).sum)
    (fun _ => false) (fun n => decide (n = 0))

/-- The members that no search function assigns: the opening-book pointer, the principal
variation of the engine, the search state, the timer pointer and every option except `quiesc`
(which `quiescence` toggles around its null-move probe). -/
def Engine.settings (e : Engine B TT) :
    Bool × List PVEntry × SearchState × Int × Int × Color × Bool × Bool × Bool × Bool
      × SearchMethod × Bool × Bool × Bool × Bool × Bool × Bool :=
  (e.hasOpeningBook, e.principleVariation, e.searchState, e.maxPly, e.nullMoveReductionFactor,
    e.myTimer, e.useOpeningBook, e.displayThinking, e.qnull, e.qhash, e.searchMethod,
    e.allowNull, e.useMTDF, e.useIterDeep, e.verifyNull, e.allowTableWindowAdjustments,
    e.useTable)

/-- A search function that leaves the settings as they are. -/
def KeepsSettings (srch : SearchFn B TT) : Prop :=
  ∀ (e : Engine B TT) (pv : List PVEntry) (alpha beta ply depth : Int)
    (legalonly nullOk verify : Bool) (r : SearchResult B TT),
    srch e pv alpha beta ply depth legalonly nullOk verify = some r →
    r.eng.settings = e.settings

/-- The engine `engine0` with iterative deepening switched off (option `iterative`). -/
def engineNoDeepening : Engine Pos Table :=
  { engine0 with useIterDeep := false }

/-- The engine `engine0` in the middle of an episode: searching, with a line 1-2 from a
completed first iteration as its principal variation. -/
def engineAfterFirstIteration : Engine Pos Table :=
  { engine0 with searchState := SearchState.SEARCHING,
                 principleVariation := [⟨⟨1, 2⟩, Cutoff.NO_CUTOFF⟩] }

/-- A concrete collaborator in which every position has the one pseudo-legal move 1-2 and
every position reached after two moves is one where the king of the side that just moved can
be captured. -/
def toyAllIllegal : Collab Pos Table :=
  toy (fun _ => [⟨1, 2⟩]) (fun _ => 0) (fun b => decide (b.length = 2)) (fun _ => true)

/-- A concrete collaborator in which no position has a move. -/
def toyNoMoves : Collab Pos Table :=
  toy (fun _ => []) (fun _ => 0) (fun _ => false) (fun _ => true)

/-- The engine `engine0` on the position reached by the move 5-6. -/
def engineAfterMove : Engine Pos Table :=
  { engine0 with board := [⟨5, 6⟩] }

/-- A concrete collaborator in which every position has the one move 1-2, a position reached
by a null move evaluates to -50 and any other position to ten times the number of moves
made; no king can be captured and the timer never runs out. -/
def toyPath : Collab Pos Table :=
  toy (fun _ => [⟨1, 2⟩])
    (fun b => if b.head? = some Move.empty then -50 else 10 * (b.length : Int))
    (fun _ => false) (fun _ => true)

/-- The engine `engine0` with null-move verification switched off as the option `verifynull`
does it (lines 321-325): `verifyNull = false`, `nullMoveReductionFactor = 2`. -/
def engineUnverified : Engine Pos Table :=
  { engine0 with verifyNull := false, nullMoveReductionFactor := 2 }

/-! ## Reference values

The game-tree value that MTD(f) and the full-window search are compared with.  These
definitions are not taken from `Engine.cpp`; they state what "the minimax score" of a position
is, with the conventions of the engine for leaves, mates and king captures. -/

/-- Reference definition: the largest of the values of the moves, or `-INFIN` when there is
none above it. -/
def maxValue (vals : List Int) : Int := vals.foldl max (-INFIN)

/-- Reference definition: the value of a node from the values of its moves: their maximum,
or `CHECKMATE` when no move has a value above `-INFIN` (every move allows the capture of the
king). -/
def nodeValue (vals : List Int) : Int :=
  if maxValue vals = -INFIN then CHECKMATE else maxValue vals

/-- Reference definition: the negamax value of the position `b` at ply `ply` with `n` plies
still to search.  A position in which the king of the side not to move can be captured is
worth `INFIN`; at the horizon the value is the static evaluation minus the ply; a position
without moves is worth `CHECKMATE + ply`; otherwise the value is the node value of the
negated values of the children. -/
def negamax (c : Collab B TT) : Nat → B → Int → Int
  | 0, b, ply =>
    if c.inCheck b (sideNotToMove c b) then INFIN else c.evaluatePosition b - ply
  | n + 1, b, ply =>
    if c.inCheck b (sideNotToMove c b) then INFIN
    else if c.generateMoves b false = [] then CHECKMATE + ply
    else nodeValue ((c.generateMoves b false).map
      (fun m => -negamax c n (c.makeMove b m) (ply + 1)))

/-- The assumptions on the collaborators under which the search is compared with the negamax
value: the timer always has time left, `unmakeMove` undoes `makeMove`, the sort returns a
permutation of its input, and every static evaluation lies between `CHECKMATE + depth` and
`-CHECKMATE`, so that no evaluation at a ply up to `depth` reaches a mate score. -/
structure Regular (c : Collab B TT) (depth : Int) : Prop where
  time : ∀ (col : Color) (n : Nat), c.haveTimeLeftForMove col n = true
  undo : ∀ (b : B) (m : Move), c.unmakeMove (c.makeMove b m) = b
  perm : ∀ (lt : Move → Move → Bool) (l : List Move), (c.sort lt l).Perm l
  evalLow : ∀ b : B, CHECKMATE + depth ≤ c.evaluatePosition b
  evalHigh : ∀ b : B, c.evaluatePosition b ≤ -CHECKMATE

/-- The configuration in which the search is compared with the negamax value: transposition
table, null move and quiescence off, and no abort flagged. -/
structure Plain (e : Engine B TT) : Prop where
  noTable : e.useTable = false
  noNull : e.allowNull = false
  noQuiesc : e.quiesc = false
  noAbort : e.searchAborted = Abort.NO_ABORT

/-- The relation between the value `v` of a node and the score `r` a fail-soft search of it
returns for the window `(alpha, beta)`: for a node with a capturable king both are `INFIN`;
otherwise both lie between `CHECKMATE` and `-CHECKMATE`, a score at or below `alpha` is an upper
bound of the value, a score at or above `beta` a lower bound, and a score strictly inside the
window is the value. -/
def Sound (alpha beta v r : Int) : Prop :=
  (v = INFIN ∧ r = INFIN)
    ∨ (CHECKMATE ≤ v ∧ v ≤ -CHECKMATE ∧ CHECKMATE ≤ r ∧ r ≤ -CHECKMATE
        ∧ (r ≤ alpha → v ≤ r) ∧ (beta ≤ r → r ≤ v) ∧ (alpha < r → r < beta → v = r))

/-- The invariant of the loop of `alphaBeta`, for the original window `(alpha0, beta)`, the
running `best` and the largest value `M` of the moves searched so far (`-INFIN` when none is
above it): while `best` is still `-INFIN` no move seen has a value above `-INFIN` (or the loop
cannot run at all because `beta <= best`); afterwards `best` is a score in the sense of
`Sound` for the value `M`. -/
def ABInv (alpha0 beta best M : Int) : Prop :=
  -INFIN ≤ M
    ∧ ((best = -INFIN ∧ (M = -INFIN ∨ beta ≤ best))
      ∨ (CHECKMATE ≤ best ∧ best ≤ -CHECKMATE
          ∧ (best ≤ alpha0 → M ≤ best) ∧ (alpha0 < best → best < beta → M = best)
          ∧ (beta ≤ best → best ≤ M)))

/-- A search function that, in the plain configuration with AlphaBeta, returns for every node
with `n` plies to go a score sound for the negamax value, with fuel to spare, and leaves the
board, the settings and the plain configuration as they were. -/
def SoundAt (c : Collab B TT) (srch : SearchFn B TT) (depth : Int) (n : Nat) : Prop :=
  ∀ (e : Engine B TT) (pv : List PVEntry) (alpha beta ply : Int) (nullOk verify : Bool),
    Plain e → e.searchMethod = SearchMethod.SEARCH_AB → alpha < beta → 0 ≤ ply → ply ≤ depth →
    (depth - ply).toNat = n →
    ∃ r : SearchResult B TT,
      srch e pv alpha beta ply depth false nullOk verify = some r
        ∧ Plain r.eng ∧ r.eng.settings = e.settings ∧ r.eng.board = e.board
        ∧ Sound alpha beta (negamax c n e.board ply) r.value

/-- A concrete collaborator with bounded evaluations: every position has the two moves 1-2
and 3-4, the evaluation is the sum of the origins of the moves made modulo 7, no king can be
captured and the timer never runs out. -/
def toyBounded : Collab Pos Table :=
  toy (fun _ => [⟨1, 2⟩, ⟨3, 4⟩]) (fun b => (b.map (fun m => (m.origin : Int))).sum % 7)
    (fun _ => false) (fun _ => true)

/-- The engine `engine0` in the plain configuration: transposition table and null move
switched off (options `hash` and `nullmove`). -/
def enginePlain : Engine Pos Table :=
  { engine0 with useTable := false, allowNull := false }

/-- The identity of a position of the cyclic instance: the sum of the origins of the moves
made, modulo 4.  Different move orders lead to the same position. -/
def keyOf (b : Pos) : Nat := (b.map (fun m => m.origin)).sum % 4

/-- Lookup in the table of the cyclic instance: the newest node stored for the same
position. -/
def tableFindKey : Table → Pos → TNode Pos
  | [], b => ⟨b, Move.empty, 0, 0, Flag.NOT_FOUND⟩
  | n :: r, b => if keyOf n.pos = keyOf b then n else tableFindKey r b

/-- A concrete collaborator with transpositions: every position has the two moves 1-2 and
3-4, the positions are identified by `keyOf`, the evaluation is -1 in the positions 0 and 3
and -7 in the positions 1 and 2, and the table is addressed by the position. -/
def toyCycle : Collab Pos Table :=
  { toy (fun _ => [⟨1, 2⟩, ⟨3, 4⟩]) (fun b => if keyOf b = 0 ∨ keyOf b = 3 then -1 else -7)
      (fun _ => false) (fun _ => true) with
    find := tableFindKey }

/-- No position is a mate by king capture: a position in which the king of the side not to
move cannot be captured and which has moves has a move after which the mover's king cannot be
captured. -/
def NoMate (c : Collab B TT) : Prop :=
  ∀ b : B, c.inCheck b (sideNotToMove c b) = false → c.generateMoves b false ≠ [] →
    ∃ m ∈ c.generateMoves b false,
      c.inCheck (c.makeMove b m) (sideNotToMove c (c.makeMove b m)) = false

/-- The relation between the value `v` of a node and the score `r` that the NegaScout search
of it returns for the window `(alpha, beta)`: as `Sound`, except that the score of a node whose
king is safe is only known to be below `INFIN` (NegaScout returns `alpha` itself when no move
exceeds it). -/
def SoundNS (alpha beta v r : Int) : Prop :=
  (v = INFIN ∧ r = INFIN)
    ∨ (CHECKMATE ≤ v ∧ v ≤ -CHECKMATE ∧ r < INFIN
        ∧ (r ≤ alpha → v ≤ r) ∧ (beta ≤ r → r ≤ v) ∧ (alpha < r → r < beta → v = r))

/-- The invariant of the loop of `negaScout`, for the original window `(alpha, beta)`, the
running bound `a` and the largest value `M` of the moves searched so far. -/
def NSInv (alpha beta a M : Int) : Prop :=
  -INFIN ≤ M ∧ alpha ≤ a
    ∧ (a = alpha → M ≤ a) ∧ (alpha < a → a < beta → M = a) ∧ (beta ≤ a → a ≤ M)

/-- A search function that, in the plain configuration with NegaScout, returns for every node
with `n` plies to go and every window inside `[-INFIN, INFIN]` a score sound for the negamax
value - the value itself at the horizon - and leaves the board, the settings and the plain
configuration as they were. -/
def SoundAtNS (c : Collab B TT) (srch : SearchFn B TT) (depth : Int) (n : Nat) : Prop :=
  ∀ (e : Engine B TT) (pv : List PVEntry) (alpha beta ply : Int) (nullOk verify : Bool),
    Plain e → e.searchMethod = SearchMethod.SEARCH_NS → alpha < beta → -INFIN ≤ alpha →
    beta ≤ INFIN → 0 ≤ ply → ply ≤ depth → (depth - ply).toNat = n →
    ∃ r : SearchResult B TT,
      srch e pv alpha beta ply depth false nullOk verify = some r
        ∧ Plain r.eng ∧ r.eng.settings = e.settings ∧ r.eng.board = e.board
        ∧ SoundNS alpha beta (negamax c n e.board ply) r.value
        ∧ (n = 0 → r.value = negamax c n e.board ply)

/-- The engine `enginePlain` with NegaScout selected (option `search` = `negascout` also
switches MTD(f) off). -/
def enginePlainNS : Engine Pos Table :=
  { enginePlain with searchMethod := SearchMethod.SEARCH_NS, useMTDF := false }


/-! ## Further concrete instances -/

/-- A concrete collaborator like `toyPlain` whose evaluator gives the king (piece 1) the
piece value 0, the value of an empty square. -/
def toyKingWorthless : Collab Pos Table :=
  { toyPlain with pieceValue := fun p => if p = 1 then 0 else p }

/-- The engine `engine0` with the quiescence search switched on (option `quiescence`). -/
def engineQuiescence : Engine Pos Table :=
  { engine0 with quiesc := true }

/-- A concrete collaborator in which every position has the one quiet move 2-0, the side to
move is in check in the starting position only, and the evaluation is ten times the number of
moves made. -/
def toyInCheck : Collab Pos Table :=
  { toy (fun _ => [⟨2, 0⟩]) (fun b => 10 * (b.length : Int)) (fun _ => false) (fun _ => true) with
    inCheckMover := fun b => decide (b = []) }

/-- A concrete collaborator in which every position has two moves, the capture 1x5 by the
king (piece 1) and the quiet move 3-0, and the evaluation is ten times the number of moves
made. -/
def toyKingCapture : Collab Pos Table :=
  toy (fun _ => [⟨1, 5⟩, ⟨3, 0⟩]) (fun b => 10 * (b.length : Int)) (fun _ => false)
    (fun _ => true)

/-- A concrete collaborator like `toyPlain` whose two moves, 2-0 and 3-0, are quiet. -/
def toyQuiet : Collab Pos Table :=
  toy (fun _ => [⟨2, 0⟩, ⟨3, 0⟩]) (fun b => (b.map (fun m => (m.origin : Int))).sum)
    (fun _ => false) (fun _ => true)

/-! ## Relations kept by every step of the search -/

/-- A relation between the engine before and the engine after that holds across every
assignment the search functions make: the polls of the timer (an abort only when the timer
reports no time left), the entry of a node, a move or a null move made before and unmade
after a run that keeps the relation, the toggling of `quiesc` around the null-move probe of
`quiescence`, the pushes to the priority table, `newKiller`, and the stores into the
transposition table. -/
structure StepClosed (c : Collab B TT) (R : Engine B TT → Engine B TT → Prop) : Prop where
  refl : ∀ e : Engine B TT, R e e
  trans : ∀ e1 e2 e3 : Engine B TT, R e1 e2 → R e2 e3 → R e1 e3
  timedOut : ∀ e : Engine B TT, c.haveTimeLeftForMove e.myTimer e.clock = false →
    R e (timedOut e)
  timerPolled : ∀ e : Engine B TT, R e (timerPolled e)
  nodeEntered : ∀ e : Engine B TT, R e (nodeEntered e)
  move : ∀ (e : Engine B TT) (m : Move) (r : Engine B TT),
    R (doMove c e m) r → R e (undoMove c r)
  nullMove : ∀ e r : Engine B TT, R (doNullMove c e) r → R e (undoMove c r)
  quiesc : ∀ (e : Engine B TT) (q : Bool), R e { e with quiesc := q }
  priority : ∀ (e : Engine B TT) (pt : List Move), R e { e with priorityTable := pt }
  newKiller : ∀ (e : Engine B TT) (m : Move) (ply : Int), R e (newKiller e m ply)
  store : ∀ (e : Engine B TT) (n : TNode B),
    R e { e with transposTable := c.store e.transposTable n }

/-- A search function whose returned engine is related to the engine it was called with. -/
def Respects (R : Engine B TT → Engine B TT → Prop) (srch : SearchFn B TT) : Prop :=
  ∀ (e : Engine B TT) (pv : List PVEntry) (alpha beta ply depth : Int)
    (legalonly nullOk verify : Bool) (r : SearchResult B TT),
    srch e pv alpha beta ply depth legalonly nullOk verify = some r → R e r.eng

/-- The transposition table `t1` is the table `t` after some stores, and nothing else. -/
def OnlyStores (c : Collab B TT) (t t1 : TT) : Prop :=
  ∃ nodes : List (TNode B), t1 = nodes.foldl c.store t

/-- Between the engine `e` and the later engine `e1` the transposition table was not flushed
and the killer tables were not cleared: the table of `e1` is that of `e` after some stores,
and neither killer table has become shorter. -/
def TablesKept (c : Collab B TT) (e e1 : Engine B TT) : Prop :=
  OnlyStores c e.transposTable e1.transposTable
    ∧ e.killer1.length ≤ e1.killer1.length ∧ e.killer2.length ≤ e1.killer2.length

/-- The abort flag of the later engine is the one of the earlier engine. -/
def AbortKept (e e1 : Engine B TT) : Prop := e1.searchAborted = e.searchAborted

/-! ## The depth schedule of think, as the specification words it -/

/-- Reference definition: the depths of the iterations of `think`, in order.  With iterative
deepening they run from the length of the current principal variation plus one up to
`maxPly`; without it there is the one depth `maxPly`. -/
def scheduleDepths (useIterDeep : Bool) (pvLength : Nat) (maxPly : Int) : List Int :=
  if useIterDeep then
    (List.range (maxPly - pvLength).toNat).map (fun (k : Nat) => (pvLength : Int) + 1 + (k : Int))
  else [maxPly]

/-- Reference definition: one iteration of `think` per depth of the list, in order, each with
the score of the one before as its estimate; no iteration starts once the abort flag is
set. -/
def runSchedule (c : Collab B TT) (fuel : Nat) :
    List Int → Engine B TT → Int → Option (Int × Engine B TT)
  | [], e, result => some (result, e)
  | d :: ds, e, result =>
    if e.searchAborted = Abort.NO_ABORT then
      match thinkIter c fuel e result d with
      | none => none
      | some (result1, e1) => runSchedule c fuel ds e1 result1
    else some (result, e)

/-- Reference definition: one iteration of `think` per depth of the list, in order, each with
the score of the one before as its estimate. -/
def runAll (c : Collab B TT) (fuel : Nat) :
    List Int → Engine B TT → Int → Option (Int × Engine B TT)
  | [], e, result => some (result, e)
  | d :: ds, e, result =>
    match thinkIter c fuel e result d with
    | none => none
    | some (result1, e1) => runAll c fuel ds e1 result1

/-- An engine between two searches that still holds what the last search left: a table entry,
a killer in each table, a line and a node count. -/
def engineUsed : Engine Pos Table :=
  { engine0 with
    transposTable := [⟨[], ⟨1, 2⟩, 777, 5, Flag.EXACT_SCORE⟩]
    killer1 := [⟨1, 2⟩]
    killer2 := [⟨3, 4⟩]
    principleVariation := [⟨⟨3, 4⟩, Cutoff.NO_CUTOFF⟩]
    nodeCount := 7 }

/-! ## Options -/

/-- Engine::optionChanged (lines 265-373).  The class `Options` is declared outside
`Engine.cpp`/`Engine.h`: `value` stands for what `Options::defaultOptions()->getValue(whatOption)`
returns, and `readInt value old` for the content of `maxPly` after `strm >> maxPly` on a
stream over `value` when it held `old` before. -/
def optionChanged (readInt : String → Int → Int) (e : Engine B TT) (whatOption value : String) :
    Engine B TT :=
  if whatOption = "searchPly" then { e with maxPly := readInt value e.maxPly }
  else if whatOption = "quiescence" then
    (if value = "on" then { e with quiesc := true } else { e with quiesc := false })
  else if whatOption = "useOpeningBook" then
    (if value = "n" then { e with useOpeningBook := false }
      else { e with useOpeningBook := true })
  else if whatOption = "search" then
    (if value = "mtd" then
        { e with useMTDF := true, searchMethod := SearchMethod.SEARCH_AB }
      else if value = "alphabeta" then
        { e with useMTDF := false, searchMethod := SearchMethod.SEARCH_AB }
      else if value = "negascout" then
        { e with useMTDF := false, searchMethod := SearchMethod.SEARCH_NS }
      else e)
  else if whatOption = "nullmove" then
    (if value = "on" then { e with allowNull := true } else { e with allowNull := false })
  else if whatOption = "verifynull" then
    (if value = "on" then
        { e with allowNull := true, verifyNull := true, nullMoveReductionFactor := 3 }
      else { e with verifyNull := false, nullMoveReductionFactor := 2 })
  else if whatOption = "hash" then
    (if value = "on" then { e with useTable := true } else { e with useTable := false })
  else if whatOption = "hashadjust" then
    (if value = "on" then { e with allowTableWindowAdjustments := true }
      else { e with allowTableWindowAdjustments := false })
  else if whatOption = "iterative" then
    (if value = "on" then
        { e with useIterDeep := true, searchState := SearchState.BETWEEN_SEARCHES }
      else { e with useIterDeep := false, searchState := SearchState.BETWEEN_SEARCHES })
  else if whatOption = "post" then
    (if value = "on" then { e with displayThinking := true }
      else { e with displayThinking := false })
  else if whatOption = "qnull" then
    (if value = "on" then { e with qnull := true } else { e with qnull := false })
  else if whatOption = "qhash" then
    (if value = "on" then { e with qhash := true } else { e with qhash := false })
  else if whatOption = "computerColor" then
    { e with searchState := SearchState.BETWEEN_SEARCHES }
  else e

/-- The option names that `optionChanged` tests for. -/
def recognizedOptions : List String :=
  ["searchPly", "quiescence", "useOpeningBook", "search", "nullmove", "verifynull", "hash",
    "hashadjust", "iterative", "post", "qnull", "qhash", "computerColor"]

/-- The flag that an on/off option of `optionChanged` sets, for the nine on/off options of
the claim; `none` for any other name. -/
def optionFlag (e : Engine B TT) (whatOption : String) : Option Bool :=
  if whatOption = "quiescence" then some e.quiesc
  else if whatOption = "nullmove" then some e.allowNull
  else if whatOption = "verifynull" then some e.verifyNull
  else if whatOption = "hash" then some e.useTable
  else if whatOption = "hashadjust" then some e.allowTableWindowAdjustments
  else if whatOption = "iterative" then some e.useIterDeep
  else if whatOption = "post" then some e.displayThinking
  else if whatOption = "qnull" then some e.qnull
  else if whatOption = "qhash" then some e.qhash
  else none

/-- The on/off options of `optionChanged` that the claim lists. -/
def onOffOptions : List String :=
  ["quiescence", "nullmove", "verifynull", "hash", "hashadjust", "iterative", "post", "qnull",
    "qhash"]

/-- An integer reader for the concrete instance: the length of the string (any function will
do; the engine only stores what the stream extraction leaves). -/
def toyReadInt (value : String) (old : Int) : Int :=
  if value.length = 0 then old else (value.length : Int)

/-- The engine `engine0` after the option `search` was set to `negascout`. -/
def engineNegaScout : Engine Pos Table :=
  optionChanged toyReadInt engine0 "search" "negascout"

/-! ## AlphaBeta as the specification words it -/

/-- Reference definition: the scan of the ordered moves in the words of the specification.
`best` is the running maximum of the negated child scores (`-INFIN` before the first move) and
`line` the line of the first move that attained it.  The scan stops once `best >= beta`;
otherwise the next move is made, its child searched with the window
`(-beta, -max(alpha, best))`, and the move unmade. -/
def negamaxScan (c : Collab B TT) (srch : SearchFn B TT) (alpha beta ply depth : Int)
    (verify : Bool) :
    List Move → Int → List PVEntry → Engine B TT → Option (Int × List PVEntry × Engine B TT)
  | [], best, line, e => some (best, line, e)
  | m :: rest, best, line, e =>
    if beta ≤ best then some (best, line, e)
    else
      match srch (doMove c e m) [⟨m, Cutoff.NO_CUTOFF⟩] (-beta) (-(max alpha best)) (ply + 1)
          depth false true verify with
      | none => none
      | some r =>
        negamaxScan c srch alpha beta ply depth verify rest (max best (-r.value))
          (if -r.value > best then r.pv else line) (undoMove c r.eng)

/-- Reference definition: fail-soft negamax over the ordered list.  The result is the maximum
found by the scan with the line of the first move attaining it appended to `pv`, or
`CHECKMATE` with `pv` unchanged when no child score is above `-INFIN`. -/
def failSoftNegamax (c : Collab B TT) (srch : SearchFn B TT) (e : Engine B TT)
    (pv : List PVEntry) (moveList : List Move) (alpha beta ply depth : Int) (verify : Bool) :
    Option (SearchResult B TT) :=
  match negamaxScan c srch alpha beta ply depth verify moveList (-INFIN) [] e with
  | none => none
  | some (best, line, e1) =>
    if best = -INFIN then some ⟨CHECKMATE, pv, e1⟩ else some ⟨best, pv ++ line, e1⟩

/-! ## The label `research` of search as a loop -/

/-- The part of `Engine::search` from the label `research` on (lines 526-565) with the
`goto research` as a loop: a pass dispatches to the selected algorithm; with the abort flag
set it returns; with `failHigh` set and a value below beta it increments `depth`, resets
`failHigh`, sets `verify` and goes through the label again; otherwise it does the
post-processing.  The first argument bounds the number of passes through the label. -/
def researchLoop (c : Collab B TT) (srch : SearchFn B TT) (pv : List PVEntry)
    (moveList : List Move) (alpha beta ply : Int) (legalonly nullOk : Bool) :
    Nat → Engine B TT → (depth : Int) → (verify failHigh : Bool) → (value : Int) →
      Option (SearchResult B TT)
  | 0, _, _, _, _, _ => none
  | n + 1, e, depth, verify, failHigh, value =>
    match dispatch c srch e moveList alpha beta ply depth legalonly nullOk verify value with
    | none => none
    | some r =>
      if r.eng.searchAborted ≠ Abort.NO_ABORT then some ⟨r.value, pv ++ r.pv, r.eng⟩
      else if failHigh = true ∧ r.value < beta then
        researchLoop c srch pv moveList alpha beta ply legalonly nullOk n r.eng (depth + 1)
          true false r.value
      else some (searchPost c r.eng pv r.pv alpha beta ply depth r.value)

/-! ## What a run of think shows -/

/-- The score and the engine that a run returns, with the file-scope priority table left
out of the comparison. -/
def observed (r : Int × Engine B TT) : Int × Engine B TT :=
  (r.1, { r.2 with priorityTable := [] })

/-- The score, the line and the engine that a search returns, with the file-scope priority
table left out of the comparison. -/
def observedSearch (r : SearchResult B TT) : Int × List PVEntry × Engine B TT :=
  (r.value, r.pv, { r.eng with priorityTable := [] })

/-! ## Board discipline and windows -/

/-- The board of the later engine is the board of the earlier one. -/
def BoardKept (e e1 : Engine B TT) : Prop := e1.board = e.board

/-- Two search functions that return the same for every call with a non-empty window
`alpha < beta`. -/
def AgreeOnWindows (s1 s2 : SearchFn B TT) : Prop :=
  ∀ (e : Engine B TT) (pv : List PVEntry) (alpha beta ply depth : Int)
    (legalonly nullOk verify : Bool), alpha < beta →
    s1 e pv alpha beta ply depth legalonly nullOk verify
      = s2 e pv alpha beta ply depth legalonly nullOk verify

/-- A search function with a check at its entry: a call with `alpha >= beta` gives no
result. -/
def windowChecked (srch : SearchFn B TT) : SearchFn B TT :=
  fun e pv alpha beta ply depth legalonly nullOk verify =>
    if alpha < beta then srch e pv alpha beta ply depth legalonly nullOk verify else none

/-- The search `search` with the window check at the entry of every call, the recursive ones
included. -/
def searchChecked (c : Collab B TT) : Nat → SearchFn B TT
  | 0 => fun _ _ _ _ _ _ _ _ _ => none
  | fuel + 1 => windowChecked (searchBody c (searchChecked c fuel))

/-- The engine `engine0` on the position reached by the move 1-2, with a table entry for this
position: move 1-2, score 5, remaining depth 1, exact. -/
def engineHashed : Engine Pos Table :=
  { engine0 with
    board := [⟨1, 2⟩]
    transposTable := [⟨[⟨1, 2⟩], ⟨1, 2⟩, 5, 1, Flag.EXACT_SCORE⟩] }

/-- The `do ... while` loop of `Engine::mtd` (lines 148-163) with a function `srch` in the
place of `Engine::search`, so that the scores returned to the loop can be any integers; `n`
bounds the number of iterations. -/
def mtdLoopOn (srch : SearchFn B TT) (depth : Int) :
    Nat → Engine B TT → (g upperbound lowerbound : Int) → Option (SearchResult B TT)
  | 0, _, _, _, _ => none
  | n + 1, e, g, upperbound, lowerbound =>
    match srch e [] (mtdBeta g lowerbound - 1) (mtdBeta g lowerbound) 0 depth false true true with
    | none => none
    | some r =>
      if mtdLower g lowerbound r.value < mtdUpper g upperbound lowerbound r.value then
        mtdLoopOn srch depth n r.eng r.value (mtdUpper g upperbound lowerbound r.value)
          (mtdLower g lowerbound r.value)
      else some r

/-- A search function whose score does not depend on the window: it returns the node counter
of the engine as the score and counts the call. -/
def countingSearch : SearchFn Pos Table :=
  fun e pv _ _ _ _ _ _ _ => some ⟨e.nodeCount, pv, { e with nodeCount := e.nodeCount + 1 }⟩

/-- A concrete collaborator like `toyPlain` whose timer has time left at the first six polls
only. -/
def toySixPolls : Collab Pos Table :=
  toy (fun _ => [⟨1, 2⟩, ⟨3, 4⟩]) (fun b => (b.map (fun m => (m.origin : Int))).sum)
    (fun _ => false) (fun n => decide (n < 6))
/-! ## Theorems -/

/-! ### C1: the entry stored by tableSet -/

/-- C1. When hashing is enabled, `tableSet` stores exactly one node (every other field of the
engine is untouched), and the node stored has: bound kind UPPER_BOUND if score < alpha;
EXACT_SCORE if alpha <= score < beta; LOWER_BOUND if score >= beta (for a window with
alpha <= beta, and more generally whenever also score >= alpha); kind EXACT_SCORE iff
alpha <= score < beta; remaining depth `depth - ply`; and the move, score and position passed
in. -/
theorem tableSet_stores_classified_entry (c : Collab B TT) (e : Engine B TT)
    (ply depth alpha beta : Int) (m : Move) (score : Int) (hash : e.useTable = true) :
    tableSet c e ply depth alpha beta m score
        = { e with transposTable :=
              c.store e.transposTable (tableSetNode e ply depth alpha beta m score) }
      ∧ (score < alpha →
          (tableSetNode e ply depth alpha beta m score).flag = Flag.UPPER_BOUND)
      ∧ (alpha ≤ score → score < beta →
          (tableSetNode e ply depth alpha beta m score).flag = Flag.EXACT_SCORE)
      ∧ (alpha ≤ beta → beta ≤ score →
          (tableSetNode e ply depth alpha beta m score).flag = Flag.LOWER_BOUND)
      ∧ (alpha ≤ score → beta ≤ score →
          (tableSetNode e ply depth alpha beta m score).flag = Flag.LOWER_BOUND)
      ∧ ((tableSetNode e ply depth alpha beta m score).flag = Flag.EXACT_SCORE
          ↔ alpha ≤ score ∧ score < beta)
      ∧ (tableSetNode e ply depth alpha beta m score).depth = depth - ply
      ∧ (tableSetNode e ply depth alpha beta m score).move = m
      ∧ (tableSetNode e ply depth alpha beta m score).score = score
      ∧ (tableSetNode e ply depth alpha beta m score).pos = e.board := by
  refine ⟨?_, ?_, ?_, ?_, ?_, ?_, rfl, rfl, rfl, rfl⟩
  · simp [tableSet, hash]
  · intro h
    simp [tableSetNode, h]
  · intro h1 h2
    simp [tableSetNode, not_lt.mpr h1, h2]
  · intro h1 h2
    simp [tableSetNode, not_lt.mpr (le_trans h1 h2), not_lt.mpr h2]
  · intro h1 h2
    simp [tableSetNode, not_lt.mpr h1, not_lt.mpr h2]
  · unfold tableSetNode
    by_cases h1 : score < alpha
    · simp [h1]
    · by_cases h2 : score < beta
      · simp [h1, h2, not_lt.mp h1]
      · simp [h1, h2]

/-- C1 on a concrete input: with the window (-5, 5), the score 0 found at ply 1 of a depth-6
search is stored as an EXACT_SCORE node of remaining depth 5, newest in the table. -/
theorem tableSet_stores_classified_entry_witness :
    engine0.useTable = true
      ∧ (tableSet toyPlain engine0 1 6 (-5) 5 ⟨1, 2⟩ 0).transposTable
          = [⟨[], ⟨1, 2⟩, 0, 5, Flag.EXACT_SCORE⟩] := by
  refine ⟨rfl, ?_⟩
  rw [(tableSet_stores_classified_entry toyPlain engine0 1 6 (-5) 5 ⟨1, 2⟩ 0 rfl).1]
  decide

/-! ### Shared lemmas on the table probe and the entry of search -/

theorem search_succ (c : Collab B TT) (fuel : Nat) :
    search c (fuel + 1) = searchBody c (search c fuel) := rfl

/-- What `tableSearch` returns when hashing is on and the position is found. -/
theorem tableSearch_found (c : Collab B TT) (e : Engine B TT) (ply depth alpha beta : Int)
    (m : Move) (score : Int) (nullok : Bool) (hu : e.useTable = true)
    (hf : (c.find e.transposTable e.board).flag ≠ Flag.NOT_FOUND) :
    (tableSearch c e ply depth alpha beta m score nullok).cut
        = decide ((c.find e.transposTable e.board).depth > depth - ply
            ∧ (ply > 0 ∨ (c.find e.transposTable e.board).flag = Flag.EXACT_SCORE))
      ∧ (tableSearch c e ply depth alpha beta m score nullok).m
          = (c.find e.transposTable e.board).move
      ∧ (tableSearch c e ply depth alpha beta m score nullok).score
          = (c.find e.transposTable e.board).score
      ∧ (tableSearch c e ply depth alpha beta m score nullok).eng
          = { e with priorityTable :=
                e.priorityTable ++ [(c.find e.transposTable e.board).move] } := by
  unfold tableSearch
  simp only [hu, Bool.not_true, Bool.false_eq_true, if_false, hf, ne_eq, not_false_eq_true,
    if_true, and_self]

/-! ### C2: reuse of an exact entry -/

/-- C2 as stated fails at equal depths: the EXACT_SCORE entry of remaining depth 5 is found
at the root of a search that needs remaining depth exactly 5 (ply 0, depth 5), yet
`tableSearch` reports no cutoff, and `search` goes on to search the position (32 nodes)
and returns -4 with a five-move line instead of the stored score 777 tagged HASH_CUTOFF. -/
theorem exact_entry_equal_depth_not_reused :
    engineStored5.useTable = true
      ∧ (toyPlain.find engineStored5.transposTable engineStored5.board).flag = Flag.EXACT_SCORE
      ∧ (toyPlain.find engineStored5.transposTable engineStored5.board).depth ≥ 5 - 0
      ∧ (tableSearch toyPlain engineStored5 0 5 (-INFIN) INFIN Move.empty 0 true).cut = false
      ∧ (search toyPlain 10 engineStored5 [] (-INFIN) INFIN 0 5 false true true).map
            (fun r => (r.value, r.pv.map (fun x => x.cutoff), r.eng.nodeCount))
          = some (-4, [Cutoff.NO_CUTOFF, Cutoff.NO_CUTOFF, Cutoff.NO_CUTOFF, Cutoff.NO_CUTOFF,
              Cutoff.NO_CUTOFF], 32) := by
  decide!

/-- C2, amended. If the position is found in the table with an EXACT_SCORE entry whose stored
remaining depth is strictly greater than the remaining depth still needed (`depth - ply`),
then `tableSearch` reports a cutoff with the stored move and score, and a call of `search`
that reaches the probe (no abort flagged, time left, no king capture, `ply < depth`) returns
the stored score with a HASH_CUTOFF entry for the stored move appended to `pv`. -/
theorem search_reuses_deeper_exact_entry (c : Collab B TT) (fuel : Nat) (e : Engine B TT)
    (pv : List PVEntry) (alpha beta ply depth : Int) (legalonly nullOk verify : Bool)
    (hab : e.searchAborted = Abort.NO_ABORT)
    (htime : c.haveTimeLeftForMove e.myTimer e.clock = true)
    (hchk : c.inCheck e.board (sideNotToMove c e.board) = false)
    (hply : ply < depth) (hu : e.useTable = true)
    (hflag : (c.find e.transposTable e.board).flag = Flag.EXACT_SCORE)
    (hdepth : (c.find e.transposTable e.board).depth > depth - ply) :
    (∀ (m0 : Move) (s0 : Int),
        (tableSearch c e ply depth alpha beta m0 s0 nullOk).cut = true
          ∧ (tableSearch c e ply depth alpha beta m0 s0 nullOk).m
              = (c.find e.transposTable e.board).move
          ∧ (tableSearch c e ply depth alpha beta m0 s0 nullOk).score
              = (c.find e.transposTable e.board).score)
      ∧ search c (fuel + 1) e pv alpha beta ply depth legalonly nullOk verify
          = some ⟨(c.find e.transposTable e.board).score,
              pv ++ [⟨(c.find e.transposTable e.board).move, Cutoff.HASH_CUTOFF⟩],
              { nodeEntered e with
                  priorityTable := [(c.find e.transposTable e.board).move] }⟩ := by
  have hnf : (c.find e.transposTable e.board).flag ≠ Flag.NOT_FOUND := by
    rw [hflag]; decide
  constructor
  · intro m0 s0
    obtain ⟨h1, h2, h3, _⟩ := tableSearch_found c e ply depth alpha beta m0 s0 nullOk hu hnf
    refine ⟨?_, h2, h3⟩
    rw [h1]
    simp [hdepth, hflag]
  · obtain ⟨h1, h2, h3, h4⟩ :=
      tableSearch_found c (nodeEntered e) ply depth alpha beta Move.empty 0 nullOk hu hnf
    have hcut : (tableSearch c (nodeEntered e) ply depth alpha beta Move.empty 0 nullOk).cut
        = true := by
      rw [h1]
      simp only [decide_eq_true_eq]
      exact ⟨hdepth, Or.inr hflag⟩
    have hchk0 : c.inCheck (nodeEntered e).board (sideNotToMove c (nodeEntered e).board)
        = false := hchk
    rw [search_succ]
    unfold searchBody
    rw [if_neg (by simp [hab]), if_neg (by simp [htime])]
    simp only [hchk0, Bool.false_eq_true, if_false, ge_iff_le, not_le.mpr hply, hcut, if_true,
      h2, h3, h4]
    rfl

/-- C2 amended, on a concrete input: the entry stored at remaining depth 5 is reused by a
search that needs remaining depth 4 (ply 0, depth 4): it returns the stored score 777 and
the line consisting of the stored move tagged HASH_CUTOFF. -/
theorem search_reuses_deeper_exact_entry_witness :
    (search toyPlain 1 engineStored5 [] (-INFIN) INFIN 0 4 false true true).map
        (fun r => (r.value, r.pv))
      = some (777, [⟨⟨1, 2⟩, Cutoff.HASH_CUTOFF⟩]) := by
  rw [(search_reuses_deeper_exact_entry toyPlain 0 engineStored5 [] (-INFIN) INFIN 0 4 false
    true true rfl rfl rfl (by decide) rfl rfl (by decide)).2]
  rfl

/-! ### C3: which entries cut off -/

/-- C3 as stated fails in both directions: with the UPPER_BOUND entry of remaining depth 5,
the probe at ply 1 of a depth-3 search (needing remaining depth 2) does cut off, and the probe
at the root (ply 0) of the same search does not. -/
theorem inexact_entry_cuts_off_below_root_only :
    (toyPlain.find engineUpper5.transposTable engineUpper5.board).flag = Flag.UPPER_BOUND
      ∧ (toyPlain.find engineUpper5.transposTable engineUpper5.board).depth > 3 - 0
      ∧ (tableSearch toyPlain engineUpper5 1 3 (-INFIN) INFIN Move.empty 0 true).cut = true
      ∧ (tableSearch toyPlain engineUpper5 0 3 (-INFIN) INFIN Move.empty 0 true).cut = false := by
  decide!

/-- C3, amended. For a found entry (hashing on), `tableSearch` reports a cutoff exactly when
the stored remaining depth exceeds `depth - ply` and the node is below the root (`ply > 0`) or
the entry is EXACT_SCORE.  So an inexact entry never cuts off at the root (`ply = 0`), and at
every `ply > 0` an entry of sufficient depth cuts off whatever its bound kind is. -/
theorem tableSearch_cutoff_iff (c : Collab B TT) (e : Engine B TT) (ply depth alpha beta : Int)
    (m : Move) (score : Int) (nullok : Bool) (hu : e.useTable = true)
    (hf : (c.find e.transposTable e.board).flag ≠ Flag.NOT_FOUND) :
    ((tableSearch c e ply depth alpha beta m score nullok).cut = true
        ↔ (c.find e.transposTable e.board).depth > depth - ply
            ∧ (ply > 0 ∨ (c.find e.transposTable e.board).flag = Flag.EXACT_SCORE))
      ∧ (ply = 0 → (c.find e.transposTable e.board).flag ≠ Flag.EXACT_SCORE →
          (tableSearch c e ply depth alpha beta m score nullok).cut = false)
      ∧ (ply > 0 → (c.find e.transposTable e.board).depth > depth - ply →
          (tableSearch c e ply depth alpha beta m score nullok).cut = true) := by
  obtain ⟨h1, -⟩ := tableSearch_found c e ply depth alpha beta m score nullok hu hf
  rw [h1]
  refine ⟨by simp, ?_, ?_⟩
  · intro h0 hne
    simp [h0, hne]
  · intro hp hd
    simp [hp, hd]

/-- C3 amended, on a concrete input: the UPPER_BOUND entry of remaining depth 5 cuts off at
ply 1 of a depth-3 search and not at its root. -/
theorem tableSearch_cutoff_iff_witness :
    (tableSearch toyPlain engineUpper5 1 3 (-INFIN) INFIN Move.empty 0 true).cut = true
      ∧ (tableSearch toyPlain engineUpper5 0 3 (-INFIN) INFIN Move.empty 0 true).cut = false :=
  ⟨(tableSearch_cutoff_iff toyPlain engineUpper5 1 3 (-INFIN) INFIN Move.empty 0 true rfl
      (by decide)).2.2 (by decide) (by decide),
   (tableSearch_cutoff_iff toyPlain engineUpper5 0 3 (-INFIN) INFIN Move.empty 0 true rfl
      (by decide)).2.1 rfl (by decide)⟩

/-! ### Shared lemmas on setLastCutoff -/

theorem setLastCutoff_length (pv : List PVEntry) (k : Cutoff) :
    (setLastCutoff pv k).length = pv.length := by
  induction pv with
  | nil => rfl
  | cons x r ih =>
    cases r with
    | nil => rfl
    | cons y r2 => simp only [setLastCutoff, List.length_cons] at ih ⊢; rw [ih]

theorem setLastCutoff_moves (pv : List PVEntry) (k : Cutoff) :
    (setLastCutoff pv k).map (fun x => x.move) = pv.map (fun x => x.move) := by
  induction pv with
  | nil => rfl
  | cons x r ih =>
    cases r with
    | nil => rfl
    | cons y r2 => simp only [setLastCutoff, List.map_cons] at ih ⊢; rw [ih]

theorem setLastCutoff_last (pv : List PVEntry) (k : Cutoff) (h : pv ≠ []) :
    ((setLastCutoff pv k).getLast?).map (fun x => x.cutoff) = some k := by
  induction pv with
  | nil => exact absurd rfl h
  | cons x r ih =>
    cases r with
    | nil => rfl
    | cons y r2 =>
      have h2 := ih (by simp)
      cases hs : setLastCutoff (y :: r2) k with
      | nil =>
        have := setLastCutoff_length (y :: r2) k
        rw [hs] at this
        simp at this
      | cons z r3 =>
        rw [hs] at h2
        simp only [setLastCutoff, hs]
        rw [List.getLast?_cons_cons]
        exact h2

/-! ### C9: a node whose opponent king can be captured -/

/-- C9. At a node where no abort is flagged, the timer has time left and the side not to move
is in check, `search` returns INFIN = 3000; the caller's line keeps its length and its moves
and, when non-empty, its last entry is tagged MISC_CUTOFF; the engine changes only by the
timer poll, the cleared priority table and the node counter, so nothing is stored in the
transposition table; and the result is the same whatever the move generator and the sort
are, so no move is generated. -/
theorem search_king_capturable (c : Collab B TT) (fuel : Nat) (e : Engine B TT)
    (pv : List PVEntry) (alpha beta ply depth : Int) (legalonly nullOk verify : Bool)
    (hab : e.searchAborted = Abort.NO_ABORT)
    (htime : c.haveTimeLeftForMove e.myTimer e.clock = true)
    (hchk : c.inCheck e.board (sideNotToMove c e.board) = true) :
    search c (fuel + 1) e pv alpha beta ply depth legalonly nullOk verify
        = some ⟨INFIN, setLastCutoff pv Cutoff.MISC_CUTOFF, nodeEntered e⟩
      ∧ INFIN = 3000
      ∧ (setLastCutoff pv Cutoff.MISC_CUTOFF).length = pv.length
      ∧ (setLastCutoff pv Cutoff.MISC_CUTOFF).map (fun x => x.move) = pv.map (fun x => x.move)
      ∧ (pv ≠ [] →
          ((setLastCutoff pv Cutoff.MISC_CUTOFF).getLast?).map (fun x => x.cutoff)
            = some Cutoff.MISC_CUTOFF)
      ∧ (nodeEntered e).transposTable = e.transposTable
      ∧ (nodeEntered e).killer1 = e.killer1 ∧ (nodeEntered e).killer2 = e.killer2
      ∧ (nodeEntered e).board = e.board
      ∧ (∀ (gen : B → Bool → List Move) (srt : (Move → Move → Bool) → List Move → List Move),
          search { c with generateMoves := gen, sort := srt } (fuel + 1) e pv alpha beta ply
              depth legalonly nullOk verify
            = search c (fuel + 1) e pv alpha beta ply depth legalonly nullOk verify) := by
  have key : ∀ (c1 : Collab B TT), c1.haveTimeLeftForMove e.myTimer e.clock = true →
      c1.inCheck e.board (sideNotToMove c1 e.board) = true →
      search c1 (fuel + 1) e pv alpha beta ply depth legalonly nullOk verify
        = some ⟨INFIN, setLastCutoff pv Cutoff.MISC_CUTOFF, nodeEntered e⟩ := by
    intro c1 ht hc
    have hc0 : c1.inCheck (nodeEntered e).board (sideNotToMove c1 (nodeEntered e).board)
        = true := hc
    rw [search_succ]
    unfold searchBody
    rw [if_neg (by simp [hab]), if_neg (by simp [ht])]
    simp only [hc0, if_true]
  refine ⟨key c htime hchk, rfl, setLastCutoff_length _ _, setLastCutoff_moves _ _,
    setLastCutoff_last _ _, rfl, rfl, rfl, rfl, ?_⟩
  intro gen srt
  rw [key c htime hchk]
  exact key { c with generateMoves := gen, sort := srt } htime hchk

/-- C9 on a concrete input: after the move 1-2 into a position where the king can be captured,
the search of that position returns 3000 and tags the caller's entry MISC_CUTOFF, with one
node counted and an empty table. -/
theorem search_king_capturable_witness :
    (search toyKingCapturable 1 engine0 [⟨⟨1, 2⟩, Cutoff.NO_CUTOFF⟩] (-INFIN) INFIN 1 2 false
        true true).map (fun r => (r.value, r.pv, r.eng.nodeCount, r.eng.transposTable))
      = some (3000, [⟨⟨1, 2⟩, Cutoff.MISC_CUTOFF⟩], 1, []) := by
  rw [(search_king_capturable toyKingCapturable 0 engine0 [⟨⟨1, 2⟩, Cutoff.NO_CUTOFF⟩] (-INFIN)
    INFIN 1 2 false true true rfl rfl rfl).1]
  rfl

/-! ### C5: a search that observes the abort flag -/

/-- C5. (1) If the abort flag is set on entry, `search` returns 0 with `pv` and the whole
engine (table, killers, node counter, priority table, board) unchanged.  (2) If the flag is
clear and the timer reports no time left, `search` returns -INFIN with `pv` unchanged and the
engine changed only by the timer poll and the abort reason ABORT_TIME.  (3) In `search`, if
the flag is set when the dispatched alphaBeta/negaScout returns - at the first dispatch or at
the verified-null-move retry - the result is the dispatched value, `pv` extended by the local
line, and the engine exactly as the dispatch left it: neither `tableSet` nor `newKiller`
runs.  (4) Likewise in `quiescence`: the value and the engine as the dispatch left it. -/
theorem search_abort_writes_nothing (c : Collab B TT) :
    (∀ (fuel : Nat) (e : Engine B TT) (pv : List PVEntry) (alpha beta ply depth : Int)
        (legalonly nullOk verify : Bool), e.searchAborted ≠ Abort.NO_ABORT →
        search c (fuel + 1) e pv alpha beta ply depth legalonly nullOk verify = some ⟨0, pv, e⟩)
      ∧ (∀ (fuel : Nat) (e : Engine B TT) (pv : List PVEntry) (alpha beta ply depth : Int)
          (legalonly nullOk verify : Bool), e.searchAborted = Abort.NO_ABORT →
          c.haveTimeLeftForMove e.myTimer e.clock = false →
          search c (fuel + 1) e pv alpha beta ply depth legalonly nullOk verify
              = some ⟨-INFIN, pv, timedOut e⟩
            ∧ (timedOut e).searchAborted = Abort.ABORT_TIME
            ∧ (timedOut e).transposTable = e.transposTable
            ∧ (timedOut e).killer1 = e.killer1 ∧ (timedOut e).killer2 = e.killer2
            ∧ (timedOut e).nodeCount = e.nodeCount
            ∧ (timedOut e).priorityTable = e.priorityTable
            ∧ (timedOut e).board = e.board)
      ∧ (∀ (srch : SearchFn B TT) (e : Engine B TT) (pv : List PVEntry) (moveList : List Move)
          (alpha beta ply depth : Int) (legalonly nullOk verify failHigh : Bool) (value : Int)
          (r : SearchResult B TT),
          dispatch c srch e moveList alpha beta ply depth legalonly nullOk verify value = some r →
          r.eng.searchAborted ≠ Abort.NO_ABORT →
          searchTail c srch e pv moveList alpha beta ply depth legalonly nullOk verify failHigh
              value = some ⟨r.value, pv ++ r.pv, r.eng⟩)
      ∧ (∀ (srch : SearchFn B TT) (e : Engine B TT) (pv : List PVEntry) (moveList : List Move)
          (alpha beta ply depth : Int) (legalonly nullOk verify : Bool) (value : Int)
          (r r2 : SearchResult B TT),
          dispatch c srch e moveList alpha beta ply depth legalonly nullOk verify value = some r →
          r.eng.searchAborted = Abort.NO_ABORT → r.value < beta →
          dispatch c srch r.eng moveList alpha beta ply (depth + 1) legalonly nullOk true r.value
            = some r2 →
          r2.eng.searchAborted ≠ Abort.NO_ABORT →
          searchTail c srch e pv moveList alpha beta ply depth legalonly nullOk verify true
              value = some ⟨r2.value, pv ++ r2.pv, r2.eng⟩)
      ∧ (∀ (srch : SearchFn B TT) (e : Engine B TT) (alpha beta ply depth : Int)
          (nullOk : Bool) (value : Int) (r : SearchResult B TT),
          c.generateMoves e.board false ≠ [] →
          filterOutNonCaptures c (setUpKillers e ply)
              (c.sort (compareMoves c (setUpKillers e ply).board
                (setUpKillers e ply).priorityTable) (c.generateMoves e.board false)) ≠ [] →
          dispatch c srch (setUpKillers e ply)
              (filterOutNonCaptures c (setUpKillers e ply)
                (c.sort (compareMoves c (setUpKillers e ply).board
                  (setUpKillers e ply).priorityTable) (c.generateMoves e.board false)))
              alpha beta ply depth false nullOk false value = some r →
          r.eng.searchAborted ≠ Abort.NO_ABORT →
          quiescenceMoves c srch e alpha beta ply depth nullOk value = some (r.value, r.eng)) := by
  refine ⟨?_, ?_, ?_, ?_, ?_⟩
  · intro fuel e pv alpha beta ply depth legalonly nullOk verify hab
    rw [search_succ]
    unfold searchBody
    rw [if_pos hab]
  · intro fuel e pv alpha beta ply depth legalonly nullOk verify hab htime
    refine ⟨?_, rfl, rfl, rfl, rfl, rfl, rfl, rfl⟩
    rw [search_succ]
    unfold searchBody
    rw [if_neg (by simp [hab]), if_pos (by simp [htime])]
  · intro srch e pv moveList alpha beta ply depth legalonly nullOk verify failHigh value r hd hab
    unfold searchTail
    rw [hd]
    simp only [hab, ne_eq, not_false_eq_true, if_true]
  · intro srch e pv moveList alpha beta ply depth legalonly nullOk verify value r r2 hd hab hv
      hd2 hab2
    unfold searchTail
    rw [hd]
    simp only [hab, ne_eq, not_true_eq_false, if_false, hv, and_self, if_true, hd2, hab2,
      not_false_eq_true]
  · intro srch e alpha beta ply depth nullOk value r hgen hcap hd hab
    unfold quiescenceMoves
    simp only [hgen, if_false, hcap, hd, hab, ne_eq, not_false_eq_true, if_true]

/-- C5 on concrete inputs: with the flag already set the search returns 0 and the engine as it
was; with a timer that has no time left it returns -3000 and sets ABORT_TIME, the table and
the node counter unchanged. -/
theorem search_abort_writes_nothing_witness :
    (search toyPlain 1 { engine0 with searchAborted := Abort.ABORT_READ } [] (-INFIN) INFIN 0 2
        false true true).map (fun r => (r.value, r.pv, r.eng))
      = some (0, [], { engine0 with searchAborted := Abort.ABORT_READ })
    ∧ (search toyNoTime 1 engine0 [] (-INFIN) INFIN 0 2 false true true).map
        (fun r => (r.value, r.pv, r.eng.searchAborted, r.eng.transposTable, r.eng.nodeCount))
      = some (-3000, [], Abort.ABORT_TIME, [], 0) := by
  constructor
  · rw [(search_abort_writes_nothing toyPlain).1 0
      { engine0 with searchAborted := Abort.ABORT_READ } [] (-INFIN) INFIN 0 2 false true true
      (by decide)]
    rfl
  · rw [((search_abort_writes_nothing toyNoTime).2.1 0 engine0 [] (-INFIN) INFIN 0 2 false true
      true rfl rfl).1]
    rfl

/-! ### Frame lemmas: what the search functions never assign -/

@[simp] theorem settings_nodeEntered (e : Engine B TT) :
    (nodeEntered e).settings = e.settings := rfl

@[simp] theorem settings_timedOut (e : Engine B TT) :
    (timedOut e).settings = e.settings := rfl

@[simp] theorem settings_timerPolled (e : Engine B TT) :
    (timerPolled e).settings = e.settings := rfl

@[simp] theorem settings_newKiller (e : Engine B TT) (m : Move) (ply : Int) :
    (newKiller e m ply).settings = e.settings := by
  unfold newKiller
  split
  · split <;> rfl
  · rfl

@[simp] theorem settings_setUpKillers (e : Engine B TT) (ply : Int) :
    (setUpKillers e ply).settings = e.settings := by
  unfold setUpKillers
  dsimp only
  split <;> split <;> rfl

@[simp] theorem settings_tableSet (c : Collab B TT) (e : Engine B TT)
    (ply depth alpha beta : Int) (m : Move) (score : Int) :
    (tableSet c e ply depth alpha beta m score).settings = e.settings := by
  unfold tableSet
  split <;> rfl

@[simp] theorem settings_tableSearch (c : Collab B TT) (e : Engine B TT)
    (ply depth alpha beta : Int) (m : Move) (score : Int) (nullok : Bool) :
    (tableSearch c e ply depth alpha beta m score nullok).eng.settings = e.settings := by
  unfold tableSearch
  split
  · rfl
  · dsimp only
    split <;> rfl

@[simp] theorem settings_doMove (c : Collab B TT) (e : Engine B TT) (m : Move) :
    (doMove c e m).settings = e.settings := rfl

@[simp] theorem settings_undoMove (c : Collab B TT) (e : Engine B TT) :
    (undoMove c e).settings = e.settings := rfl

@[simp] theorem settings_doNullMove (c : Collab B TT) (e : Engine B TT) :
    (doNullMove c e).settings = e.settings := rfl

theorem abUpdate_eng (c : Collab B TT) (st : ABState B TT) (r : SearchResult B TT) :
    (abUpdate c st r).eng = undoMove c r.eng := by
  unfold abUpdate
  split <;> rfl

theorem nsUpdate_eng (c : Collab B TT) (st : NSState B TT) (r : SearchResult B TT) :
    (nsUpdate c st r).eng = undoMove c r.eng := by
  unfold nsUpdate
  split <;> rfl

theorem nsUpdateResearch_eng (c : Collab B TT) (st : NSState B TT) (t : Int)
    (r2 : SearchResult B TT) : (nsUpdateResearch c st t r2).eng = undoMove c r2.eng := by
  unfold nsUpdateResearch
  split <;> rfl

theorem alphaBetaLoop_settings (c : Collab B TT) (srch : SearchFn B TT)
    (hs : KeepsSettings srch) (beta ply depth : Int) (verify : Bool) :
    ∀ (moves : List Move) (st st1 : ABState B TT),
      alphaBetaLoop c srch beta ply depth verify moves st = some st1 →
      st1.eng.settings = st.eng.settings := by
  intro moves
  induction moves with
  | nil =>
    intro st st1 h
    simp only [alphaBetaLoop, Option.some.injEq] at h
    rw [← h]
  | cons m rest ih =>
    intro st st1 h
    rw [alphaBetaLoop] at h
    by_cases hb : st.best < beta
    · simp only [hb, if_true] at h
      cases hr : srch (doMove c st.eng m) [⟨m, Cutoff.NO_CUTOFF⟩] (-beta) (-abAlpha st)
          (ply + 1) depth false true verify with
      | none => simp [hr] at h
      | some r =>
        simp only [hr] at h
        rw [ih _ _ h, abUpdate_eng, settings_undoMove, hs _ _ _ _ _ _ _ _ _ _ hr,
          settings_doMove]
    · simp only [hb, if_false, Option.some.injEq] at h
      rw [← h]

theorem alphaBeta_settings (c : Collab B TT) (srch : SearchFn B TT) (hs : KeepsSettings srch)
    (e : Engine B TT) (pv : List PVEntry) (moveList : List Move) (alpha beta ply depth : Int)
    (legalonly nullOk verify : Bool) (r : SearchResult B TT)
    (h : alphaBeta c srch e pv moveList alpha beta ply depth legalonly nullOk verify = some r) :
    r.eng.settings = e.settings := by
  unfold alphaBeta at h
  split at h
  · exact absurd h (by simp)
  · rename_i st hst
    have h1 := alphaBetaLoop_settings c srch hs beta ply depth verify _ _ _ hst
    split at h <;> (simp only [Option.some.injEq] at h; rw [← h]; exact h1)

theorem negaScoutLoop_settings (c : Collab B TT) (srch : SearchFn B TT)
    (hs : KeepsSettings srch) (beta ply depth : Int) (verify : Bool) :
    ∀ (moves : List Move) (first : Bool) (st st1 : NSState B TT),
      negaScoutLoop c srch beta ply depth verify moves first st = some st1 →
      st1.eng.settings = st.eng.settings := by
  intro moves
  induction moves with
  | nil =>
    intro first st st1 h
    simp only [negaScoutLoop, Option.some.injEq] at h
    rw [← h]
  | cons m rest ih =>
    intro first st st1 h
    rw [negaScoutLoop] at h
    by_cases hb : st.a < beta
    · simp only [hb, if_true] at h
      cases hr : srch (doMove c st.eng m) [⟨m, Cutoff.NO_CUTOFF⟩] (-st.b) (-st.a) (ply + 1)
          depth false true verify with
      | none => simp [hr] at h
      | some r =>
        simp only [hr] at h
        have h1 : r.eng.settings = st.eng.settings := by
          rw [hs _ _ _ _ _ _ _ _ _ _ hr, settings_doMove]
        by_cases hre : -r.value > st.a ∧ -r.value < beta ∧ first = false ∧ ply < depth - 1
        · simp only [hre, and_self, if_true, neg_neg] at h
          cases hr2 : srch r.eng [⟨m, Cutoff.NO_CUTOFF⟩] (-beta) r.value (ply + 1) depth
              false true verify with
          | none => simp [hr2] at h
          | some r2 =>
            simp only [hr2] at h
            rw [ih _ _ _ h, nsUpdateResearch_eng, settings_undoMove,
              hs _ _ _ _ _ _ _ _ _ _ hr2, h1]
        · simp only [hre, if_false] at h
          rw [ih _ _ _ h, nsUpdate_eng, settings_undoMove, h1]
    · simp only [hb, if_false, Option.some.injEq] at h
      rw [← h]

theorem negaScout_settings (c : Collab B TT) (srch : SearchFn B TT) (hs : KeepsSettings srch)
    (e : Engine B TT) (pv : List PVEntry) (moveList : List Move) (alpha beta ply depth : Int)
    (legalonly nullOk verify : Bool) (r : SearchResult B TT)
    (h : negaScout c srch e pv moveList alpha beta ply depth legalonly nullOk verify = some r) :
    r.eng.settings = e.settings := by
  unfold negaScout at h
  split at h
  · exact absurd h (by simp)
  · rename_i st hst
    have h1 := negaScoutLoop_settings c srch hs beta ply depth verify _ _ _ _ hst
    simp only [Option.some.injEq] at h
    rw [← h]
    exact h1

theorem dispatch_settings (c : Collab B TT) (srch : SearchFn B TT) (hs : KeepsSettings srch)
    (e : Engine B TT) (moveList : List Move) (alpha beta ply depth : Int)
    (legalonly nullOk verify : Bool) (value : Int) (r : SearchResult B TT)
    (h : dispatch c srch e moveList alpha beta ply depth legalonly nullOk verify value
      = some r) :
    r.eng.settings = e.settings := by
  unfold dispatch at h
  split at h
  · exact alphaBeta_settings c srch hs _ _ _ _ _ _ _ _ _ _ _ h
  · simp only [Option.some.injEq] at h
    rw [← h]
  · exact negaScout_settings c srch hs _ _ _ _ _ _ _ _ _ _ _ h

theorem searchPost_settings (c : Collab B TT) (e : Engine B TT) (pv myPV : List PVEntry)
    (alpha beta ply depth value : Int) :
    (searchPost c e pv myPV alpha beta ply depth value).eng.settings = e.settings := by
  unfold searchPost
  split
  · rfl
  · simp only [settings_tableSet]
    split
    · exact settings_newKiller _ _ _
    · rfl

theorem quiescencePost_settings (c : Collab B TT) (e : Engine B TT) (myPV : List PVEntry)
    (alpha beta ply depth value : Int) :
    (quiescencePost c e myPV alpha beta ply depth value).settings = e.settings := by
  unfold quiescencePost
  split
  · rfl
  · split
    · split
      · rw [settings_tableSet]; exact settings_newKiller _ _ _
      · exact settings_newKiller _ _ _
    · split
      · exact settings_tableSet _ _ _ _ _ _ _ _
      · rfl

theorem searchTail_settings (c : Collab B TT) (srch : SearchFn B TT) (hs : KeepsSettings srch)
    (e : Engine B TT) (pv : List PVEntry) (moveList : List Move) (alpha beta ply depth : Int)
    (legalonly nullOk verify failHigh : Bool) (value : Int) (r : SearchResult B TT)
    (h : searchTail c srch e pv moveList alpha beta ply depth legalonly nullOk verify failHigh
      value = some r) :
    r.eng.settings = e.settings := by
  unfold searchTail at h
  split at h
  · exact absurd h (by simp)
  · rename_i r1 hr1
    have h1 := dispatch_settings c srch hs _ _ _ _ _ _ _ _ _ _ _ hr1
    split at h
    · simp only [Option.some.injEq] at h
      rw [← h]; exact h1
    · split at h
      · split at h
        · exact absurd h (by simp)
        · rename_i r2 hr2
          have h2 := dispatch_settings c srch hs _ _ _ _ _ _ _ _ _ _ _ hr2
          split at h
          · simp only [Option.some.injEq] at h
            rw [← h]; exact h2.trans h1
          · simp only [Option.some.injEq] at h
            rw [← h, searchPost_settings]; exact h2.trans h1
      · simp only [Option.some.injEq] at h
        rw [← h, searchPost_settings]; exact h1

theorem searchMoves_settings (c : Collab B TT) (srch : SearchFn B TT) (hs : KeepsSettings srch)
    (e : Engine B TT) (pv : List PVEntry) (alpha beta ply depth : Int)
    (legalonly nullOk verify failHigh : Bool) (value : Int) (r : SearchResult B TT)
    (h : searchMoves c srch e pv alpha beta ply depth legalonly nullOk verify failHigh value
      = some r) :
    r.eng.settings = e.settings := by
  unfold searchMoves at h
  split at h
  · simp only [Option.some.injEq] at h
    rw [← h]; exact settings_setUpKillers _ _
  · rw [searchTail_settings c srch hs _ _ _ _ _ _ _ _ _ _ _ _ _ h]
    exact settings_setUpKillers _ _

theorem quiescenceMoves_settings (c : Collab B TT) (srch : SearchFn B TT)
    (hs : KeepsSettings srch) (e : Engine B TT) (alpha beta ply depth : Int) (nullOk : Bool)
    (value : Int) (v : Int) (e1 : Engine B TT)
    (h : quiescenceMoves c srch e alpha beta ply depth nullOk value = some (v, e1)) :
    e1.settings = e.settings := by
  unfold quiescenceMoves at h
  split at h
  · simp only [Option.some.injEq, Prod.mk.injEq] at h
    rw [← h.2]
  · split at h
    · simp only [Option.some.injEq, Prod.mk.injEq] at h
      rw [← h.2]; exact settings_setUpKillers _ _
    · split at h
      · exact absurd h (by simp)
      · rename_i r hr
        have h1 := (dispatch_settings c srch hs _ _ _ _ _ _ _ _ _ _ _ hr).trans
          (settings_setUpKillers e ply)
        split at h
        · simp only [Option.some.injEq, Prod.mk.injEq] at h
          rw [← h.2]; exact h1
        · simp only [Option.some.injEq, Prod.mk.injEq] at h
          rw [← h.2, quiescencePost_settings]; exact h1

theorem settings_quiescenceProbe (c : Collab B TT) (e : Engine B TT)
    (ply depth alpha beta : Int) (nullOk : Bool) :
    (quiescenceProbe c e ply depth alpha beta nullOk).eng.settings = e.settings := by
  unfold quiescenceProbe
  split
  · exact settings_tableSearch _ _ _ _ _ _ _ _ _
  · rfl

theorem quiescenceNull_settings (c : Collab B TT) (srch : SearchFn B TT)
    (hs : KeepsSettings srch) (ts : TableSearchResult B TT) (ply depth : Int)
    (v : Int) (e1 : Engine B TT)
    (h : quiescenceNull c srch ts ply depth = some (v, e1)) :
    e1.settings = ts.eng.settings := by
  unfold quiescenceNull at h
  split at h
  · split at h
    · exact absurd h (by simp)
    · rename_i r hr
      have h1 : r.eng.settings = ts.eng.settings := (hs _ _ _ _ _ _ _ _ _ _ hr).trans rfl
      split at h
      · simp only [Option.some.injEq, Prod.mk.injEq] at h
        rw [← h.2]
        exact h1
      · rw [quiescenceMoves_settings c srch hs _ _ _ _ _ _ _ _ _ h]
        exact h1
  · exact quiescenceMoves_settings c srch hs _ _ _ _ _ _ _ _ _ h

theorem quiescence_settings (c : Collab B TT) (srch : SearchFn B TT)
    (hs : KeepsSettings srch) (e : Engine B TT) (alpha beta ply depth : Int) (nullOk : Bool)
    (v : Int) (e1 : Engine B TT)
    (h : quiescence c srch e alpha beta ply depth nullOk = some (v, e1)) :
    e1.settings = e.settings := by
  unfold quiescence at h
  split at h
  · simp only [Option.some.injEq, Prod.mk.injEq] at h
    rw [← h.2]; rfl
  · split at h
    · simp only [Option.some.injEq, Prod.mk.injEq] at h
      rw [← h.2]; rfl
    · split at h
      · simp only [Option.some.injEq, Prod.mk.injEq] at h
        rw [← h.2, settings_quiescenceProbe]; rfl
      · rw [quiescenceNull_settings c srch hs _ _ _ _ _ h, settings_quiescenceProbe]; rfl

theorem searchNull_settings (c : Collab B TT) (srch : SearchFn B TT)
    (hs : KeepsSettings srch) (ts : TableSearchResult B TT) (pv : List PVEntry)
    (ply depth : Int) (legalonly verify : Bool) (r : SearchResult B TT)
    (h : searchNull c srch ts pv ply depth legalonly verify = some r) :
    r.eng.settings = ts.eng.settings := by
  unfold searchNull at h
  split at h
  · split at h
    · exact absurd h (by simp)
    · rename_i r1 hr1
      have h1 : r1.eng.settings = ts.eng.settings := (hs _ _ _ _ _ _ _ _ _ _ hr1).trans rfl
      split at h
      · split at h
        · rw [searchMoves_settings c srch hs _ _ _ _ _ _ _ _ _ _ _ _ h]
          exact h1
        · simp only [Option.some.injEq] at h
          rw [← h]
          exact h1
      · rw [searchMoves_settings c srch hs _ _ _ _ _ _ _ _ _ _ _ _ h]
        exact h1
  · exact searchMoves_settings c srch hs _ _ _ _ _ _ _ _ _ _ _ _ h

theorem searchBody_settings (c : Collab B TT) (srch : SearchFn B TT)
    (hs : KeepsSettings srch) : KeepsSettings (searchBody c srch) := by
  intro e pv alpha beta ply depth legalonly nullOk verify r h
  unfold searchBody at h
  split at h
  · simp only [Option.some.injEq] at h
    rw [← h]
  · split at h
    · simp only [Option.some.injEq] at h
      rw [← h]; rfl
    · split at h
      · simp only [Option.some.injEq] at h
        rw [← h]; rfl
      · split at h
        · split at h
          · split at h
            · exact absurd h (by simp)
            · rename_i v e1 hq
              simp only [Option.some.injEq] at h
              rw [← h]
              exact (quiescence_settings c srch hs _ _ _ _ _ _ _ _ hq).trans rfl
          · simp only [Option.some.injEq] at h
            rw [← h]; rfl
        · split at h
          · simp only [Option.some.injEq] at h
            rw [← h, settings_tableSearch]; rfl
          · rw [searchNull_settings c srch hs _ _ _ _ _ _ _ h, settings_tableSearch]; rfl

theorem search_settings (c : Collab B TT) (fuel : Nat) : KeepsSettings (search c fuel) := by
  induction fuel with
  | zero =>
    intro e pv alpha beta ply depth legalonly nullOk verify r h
    simp [search] at h
  | succ n ih => exact searchBody_settings c _ ih

theorem mtdLoop_settings (c : Collab B TT) (fuel : Nat) (depth : Int) :
    ∀ (n : Nat) (e : Engine B TT) (g upperbound lowerbound : Int) (r : SearchResult B TT),
      mtdLoop c fuel depth n e g upperbound lowerbound = some r →
      r.eng.settings = e.settings := by
  intro n
  induction n with
  | zero =>
    intro e g upperbound lowerbound r h
    simp [mtdLoop] at h
  | succ n ih =>
    intro e g upperbound lowerbound r h
    rw [mtdLoop] at h
    split at h
    · exact absurd h (by simp)
    · rename_i r1 hr1
      have h1 := search_settings c fuel _ _ _ _ _ _ _ _ _ _ hr1
      split at h
      · rw [ih _ _ _ _ _ h]; exact h1
      · simp only [Option.some.injEq] at h
        rw [← h]; exact h1

theorem mtd_settings (c : Collab B TT) (fuel : Nat) (e : Engine B TT) (pv : List PVEntry)
    (guess depth : Int) (r : SearchResult B TT) (h : mtd c fuel e pv guess depth = some r) :
    r.eng.settings = e.settings :=
  mtdLoop_settings c fuel depth _ _ _ _ _ _ h

/-! ### C4: the line of an aborted iteration -/

/-- C4 as stated fails when iterative deepening is off: the only iteration (depth 2) is cut
short by the timer at the second poll, `think` returns with ABORT_TIME set, and the principal
variation, empty when the iteration began, now holds the partial line 3-4, which `getMove`
returns. -/
theorem aborted_iteration_line_kept_without_deepening :
    engineNoDeepening.principleVariation = []
      ∧ (thinkIter toyOnePoll 5 engineNoDeepening 0 2).map
          (fun r => (r.2.searchAborted, r.2.principleVariation))
        = some (Abort.ABORT_TIME, [⟨⟨3, 4⟩, Cutoff.NO_CUTOFF⟩])
      ∧ (think toyOnePoll 5 engineNoDeepening).map
          (fun r => (r.2.searchAborted, r.2.principleVariation, (getMove r.2).1))
        = some (Abort.ABORT_TIME, [⟨⟨3, 4⟩, Cutoff.NO_CUTOFF⟩], ⟨3, 4⟩) := by
  decide!

/-- C4, amended. With iterative deepening enabled, if an iteration of the loop of `think`
ends with the abort flag set, the engine's principal variation is exactly the one it held
when that iteration began, the loop makes no further iteration (so this is the principal
variation when `think` returns), and `getMove` returns the same move as before the
iteration. -/
theorem aborted_iteration_keeps_line (c : Collab B TT) (fuel : Nat) (e : Engine B TT)
    (result i v : Int) (e1 : Engine B TT) (hd : e.useIterDeep = true)
    (hit : thinkIter c fuel e result i = some (v, e1))
    (hab : e1.searchAborted ≠ Abort.NO_ABORT) :
    e1.principleVariation = e.principleVariation
      ∧ (∀ n : Nat, thinkLoop c fuel n e1 v (i + 1) = some (v, e1))
      ∧ (i ≤ e.maxPly → e.searchAborted = Abort.NO_ABORT →
          ∀ n : Nat, thinkLoop c fuel (n + 1) e result i = some (v, e1))
      ∧ (getMove e1).1 = (getMove e).1 := by
  have hpv : e1.principleVariation = e.principleVariation := by
    unfold thinkIter at hit
    dsimp only at hit
    split at hit
    · exact absurd hit (by simp)
    · rename_i r hr
      have hset : r.eng.settings = e.settings := by
        split at hr
        · exact mtd_settings c fuel _ _ _ _ _ hr
        · exact search_settings c fuel _ _ _ _ _ _ _ _ _ _ hr
      simp only [Engine.settings, Prod.mk.injEq] at hset
      have hd1 : r.eng.useIterDeep = true := by rw [hset.2.2.2.2.2.2.2.2.2.2.2.2.2.1]; exact hd
      simp only [hd1, if_true] at hit
      split at hit
      · rename_i hna
        simp only [Option.some.injEq, Prod.mk.injEq] at hit
        exact absurd (by rw [← hit.2]; exact hna) hab
      · simp only [Option.some.injEq, Prod.mk.injEq] at hit
        rw [← hit.2]
        exact hset.2.1
  have hstop : ∀ n : Nat, thinkLoop c fuel n e1 v (i + 1) = some (v, e1) := by
    intro n
    cases n with
    | zero => simp [thinkLoop, hab]
    | succ k => simp [thinkLoop, hab]
  refine ⟨hpv, hstop, ?_, ?_⟩
  · intro hi hna n
    rw [thinkLoop]
    simp only [hi, hna, and_self, if_true, hit]
    exact hstop n
  · cases h : e.principleVariation <;> simp [getMove, hpv, h]

/-- C4 amended, on a concrete input: with the line 1-2 of the first iteration held, the second
iteration (depth 2) is cut short by the timer after it has reached the move 3-4; the principal
variation is still 1-2 and `getMove` returns 1-2. -/
theorem aborted_iteration_keeps_line_witness :
    (thinkIter toyOnePoll 5 engineAfterFirstIteration 0 2).map (fun r => r.2.searchAborted)
        = some Abort.ABORT_TIME
      ∧ (thinkIter toyOnePoll 5 engineAfterFirstIteration 0 2).map
          (fun r => (r.2.principleVariation, (getMove r.2).1))
        = some ([⟨⟨1, 2⟩, Cutoff.NO_CUTOFF⟩], ⟨1, 2⟩) := by
  have hrun : ∃ v e1, thinkIter toyOnePoll 5 engineAfterFirstIteration 0 2 = some (v, e1)
      ∧ e1.searchAborted = Abort.ABORT_TIME := by
    refine ⟨3000, _, rfl, ?_⟩
    decide!
  obtain ⟨v, e1, hit, hab⟩ := hrun
  have h := aborted_iteration_keeps_line toyOnePoll 5 engineAfterFirstIteration 0 2 v e1 rfl hit
    (by rw [hab]; decide)
  rw [hit]
  refine ⟨by simp [hab], ?_⟩
  simp only [Option.map_some', Option.some.injEq, Prod.mk.injEq]
  exact ⟨h.1, h.2.2.2⟩

/-! ### C10: the score of a node without a legal move -/

/-- C10, the code at the failing input.  At ply 1 of a depth-3 AlphaBeta search the only
pseudo-legal move leads to a child whose king can be captured: `search` returns the bare
CHECKMATE = -2000, not CHECKMATE + 1 = -1999, and the caller's entry keeps NO_CUTOFF.  On the
sibling path, the same node with an empty move list, it returns -1999 and tags MATE_CUTOFF.
With NegaScout the node returns alpha (-3000), and `quiescence` with an empty move list at
ply 3 returns the bare -2000 as well. -/
theorem mate_by_illegal_moves_scored_without_ply :
    (search toyAllIllegal 3 engineAfterMove [⟨⟨5, 6⟩, Cutoff.NO_CUTOFF⟩] (-INFIN) INFIN 1 3
        false true true).map (fun r => (r.value, r.pv))
      = some (-2000, [⟨⟨5, 6⟩, Cutoff.NO_CUTOFF⟩])
    ∧ CHECKMATE + 1 = -1999
    ∧ (search toyNoMoves 3 engineAfterMove [⟨⟨5, 6⟩, Cutoff.NO_CUTOFF⟩] (-INFIN) INFIN 1 3
        false true true).map (fun r => (r.value, r.pv))
      = some (-1999, [⟨⟨5, 6⟩, Cutoff.MATE_CUTOFF⟩])
    ∧ (search toyAllIllegal 3 { engineAfterMove with searchMethod := SearchMethod.SEARCH_NS }
        [⟨⟨5, 6⟩, Cutoff.NO_CUTOFF⟩] (-INFIN) INFIN 1 3 false true true).map
          (fun r => (r.value, r.pv))
      = some (-3000, [⟨⟨5, 6⟩, Cutoff.NO_CUTOFF⟩])
    ∧ (search toyNoMoves 3 { engineAfterMove with quiesc := true }
        [⟨⟨5, 6⟩, Cutoff.NO_CUTOFF⟩] (-INFIN) INFIN 3 3 false true true).map
          (fun r => (r.value, r.pv))
      = some (-2000, [⟨⟨5, 6⟩, Cutoff.NO_CUTOFF⟩]) := by
  decide!

/-! ### C8: null-move verification under MTD(f) -/

/-- C8, the code at the failing input.  In the default configuration (`verifyNull = true`)
the first zero-width search that `mtd` makes on the path position at depth 4, with window
(-1, 0), performs the verified null move at ply 1: the null probe exceeds beta, the node is
searched at depth 2 and then searched again at depth 3, six nodes in all, value -27.  With
`verifyNull = false` the same call ends at the null cutoff after three nodes with value -52.
So the result of `mtd` depends on the option: -27 against 53. -/
theorem mtd_runs_verified_null_move :
    engine0.verifyNull = true ∧ engine0.allowNull = true ∧ engine0.useMTDF = true
    ∧ (search toyPath 20 engine0 [] (-1) 0 0 4 false true true).map
        (fun r => (r.value, r.pv.map (fun x => x.cutoff), r.eng.nodeCount))
      = some (-27, [Cutoff.NO_CUTOFF, Cutoff.NO_CUTOFF, Cutoff.NO_CUTOFF], 6)
    ∧ (search toyPath 20 engineUnverified [] (-1) 0 0 4 false true true).map
        (fun r => (r.value, r.pv.map (fun x => x.cutoff), r.eng.nodeCount))
      = some (-52, [Cutoff.NULL_CUTOFF], 3)
    ∧ (mtd toyPath 20 engine0 [] 0 4).map (fun r => r.value) = some (-27)
    ∧ (mtd toyPath 20 engineUnverified [] 0 4).map (fun r => r.value) = some 53 := by
  decide!

/-! ### The reference values -/

theorem foldl_max_ge (l : List Int) (a : Int) : a ≤ l.foldl max a := by
  induction l generalizing a with
  | nil => exact le_refl a
  | cons x r ih => exact le_trans (le_max_left a x) (ih (max a x))

theorem foldl_max_mem_le (l : List Int) (a x : Int) (hx : x ∈ l) : x ≤ l.foldl max a := by
  induction l generalizing a with
  | nil => simp at hx
  | cons y r ih =>
    simp only [List.mem_cons] at hx
    rcases hx with h | h
    · subst h
      exact le_trans (le_max_right a x) (foldl_max_ge r (max a x))
    · exact ih (max a y) h

theorem foldl_max_eq_or_mem (l : List Int) (a : Int) :
    l.foldl max a = a ∨ l.foldl max a ∈ l := by
  induction l generalizing a with
  | nil => exact Or.inl rfl
  | cons y r ih =>
    simp only [List.foldl_cons, List.mem_cons]
    rcases ih (max a y) with h | h
    · rw [h]
      rcases le_total a y with hay | hay
      · right; left; exact max_eq_right hay
      · left; exact max_eq_left hay
    · right; right; exact h

theorem foldl_max_mono (l : List Int) (a b : Int) (h : a ≤ b) :
    l.foldl max a ≤ l.foldl max b := by
  induction l generalizing a b with
  | nil => exact h
  | cons y r ih => exact ih _ _ (max_le_max h (le_refl y))

theorem maxValue_perm (l1 l2 : List Int) (p : l1.Perm l2) : maxValue l1 = maxValue l2 := by
  unfold maxValue
  exact p.foldl_eq' (fun x _ y _ z => by omega) _

theorem negamax_zero (c : Collab B TT) (b : B) (ply : Int) :
    negamax c 0 b ply
      = if c.inCheck b (sideNotToMove c b) then INFIN else c.evaluatePosition b - ply := rfl

theorem negamax_succ (c : Collab B TT) (n : Nat) (b : B) (ply : Int) :
    negamax c (n + 1) b ply
      = if c.inCheck b (sideNotToMove c b) then INFIN
        else if c.generateMoves b false = [] then CHECKMATE + ply
        else nodeValue ((c.generateMoves b false).map
          (fun m => -negamax c n (c.makeMove b m) (ply + 1))) := rfl

theorem negamax_inCheck (c : Collab B TT) (n : Nat) (b : B) (ply : Int)
    (h : c.inCheck b (sideNotToMove c b) = true) : negamax c n b ply = INFIN := by
  cases n with
  | zero => simp [negamax_zero, h]
  | succ k => simp [negamax_succ, h]

/-- Every negamax value is `INFIN` (king capturable) or lies between the mate scores. -/
theorem negamax_range (c : Collab B TT) (depth : Int) (hc : Regular c depth) :
    ∀ (n : Nat) (b : B) (ply : Int), 0 ≤ ply → ply + n ≤ depth →
      (c.inCheck b (sideNotToMove c b) = true ∧ negamax c n b ply = INFIN)
        ∨ (c.inCheck b (sideNotToMove c b) = false
            ∧ CHECKMATE ≤ negamax c n b ply ∧ negamax c n b ply ≤ -CHECKMATE) := by
  intro n
  induction n with
  | zero =>
    intro b ply h0 hd
    cases hk : c.inCheck b (sideNotToMove c b) with
    | true => exact Or.inl ⟨rfl, negamax_inCheck c 0 b ply hk⟩
    | false =>
      right
      refine ⟨rfl, ?_⟩
      have h1 := hc.evalLow b
      have h2 := hc.evalHigh b
      simp only [negamax_zero, hk, Bool.false_eq_true, if_false]
      simp only [CHECKMATE] at h1 h2 ⊢
      constructor <;> omega
  | succ k ih =>
    intro b ply h0 hd
    cases hk : c.inCheck b (sideNotToMove c b) with
    | true => exact Or.inl ⟨rfl, negamax_inCheck c (k + 1) b ply hk⟩
    | false =>
      right
      refine ⟨rfl, ?_⟩
      have h1 := hc.evalLow b
      have h2 := hc.evalHigh b
      simp only [negamax_succ, hk, Bool.false_eq_true, if_false]
      by_cases hg : c.generateMoves b false = []
      · simp only [hg, if_true]
        simp only [CHECKMATE] at h1 h2 ⊢
        constructor <;> omega
      · simp only [hg, if_false]
        unfold nodeValue
        split
        · simp only [CHECKMATE]; constructor <;> omega
        · rename_i hne
          rcases foldl_max_eq_or_mem ((c.generateMoves b false).map
            (fun m => -negamax c k (c.makeMove b m) (ply + 1))) (-INFIN) with h | h
          · exact absurd h hne
          · unfold maxValue at hne ⊢
            simp only [List.mem_map] at h
            obtain ⟨m, -, hm⟩ := h
            rw [← hm] at hne ⊢
            have hd1 : ply + 1 + (k : Int) ≤ depth := by push_cast at hd; omega
            rcases ih (c.makeMove b m) (ply + 1) (by omega) hd1 with ⟨-, hv⟩ | ⟨-, hv1, hv2⟩
            · exact absurd (by rw [hv]) hne
            · simp only [CHECKMATE] at hv1 hv2 ⊢
              constructor <;> omega

/-! ### The loop of alphaBeta against the reference value -/

theorem abinv_init (alpha0 beta : Int) : ABInv alpha0 beta (-INFIN) (-INFIN) :=
  ⟨le_refl _, Or.inl ⟨rfl, Or.inl rfl⟩⟩

theorem abinv_mono (alpha0 beta best M M1 : Int) (hw : alpha0 < beta) (hb : beta ≤ best)
    (hm : M ≤ M1) (h : ABInv alpha0 beta best M) : ABInv alpha0 beta best M1 := by
  unfold ABInv at h ⊢
  simp only [INFIN, CHECKMATE] at h ⊢
  omega

theorem abinv_step (alpha0 beta best M a1 vc r : Int) (hw : alpha0 < beta) (hb : best < beta)
    (ha : a1 = max alpha0 best) (h : ABInv alpha0 beta best M)
    (hs : Sound (-beta) (-a1) vc r) :
    ABInv alpha0 beta (if -r > -INFIN ∧ -r > best then -r else best) (max M (-vc)) := by
  unfold ABInv at h ⊢
  unfold Sound at hs
  simp only [INFIN, CHECKMATE] at h hs ⊢
  subst ha
  split <;> omega

theorem abinv_final (alpha0 beta best M : Int) (hw : alpha0 < beta)
    (hM : M = -INFIN ∨ (CHECKMATE ≤ M ∧ M ≤ -CHECKMATE)) (h : ABInv alpha0 beta best M) :
    Sound alpha0 beta (if M = -INFIN then CHECKMATE else M)
      (if best = -INFIN then CHECKMATE else best) := by
  unfold ABInv at h
  unfold Sound
  simp only [INFIN, CHECKMATE] at h hM ⊢
  split <;> split <;> omega

theorem abUpdate_best (c : Collab B TT) (st : ABState B TT) (r : SearchResult B TT) :
    (abUpdate c st r).best
      = if -r.value > -INFIN ∧ -r.value > st.best then -r.value else st.best := by
  unfold abUpdate
  split <;> rfl

theorem abUpdate_alpha (c : Collab B TT) (st : ABState B TT) (r : SearchResult B TT) :
    (abUpdate c st r).alpha = abAlpha st := by
  unfold abUpdate
  split <;> rfl

theorem abAlpha_eq (st : ABState B TT) (alpha0 : Int) (h1 : alpha0 ≤ st.alpha)
    (h2 : st.alpha ≤ max alpha0 st.best) : abAlpha st = max alpha0 st.best := by
  unfold abAlpha
  split <;> omega

theorem plain_doMove (c : Collab B TT) (e : Engine B TT) (m : Move) (h : Plain e) :
    Plain (doMove c e m) := ⟨h.1, h.2, h.3, h.4⟩

theorem plain_undoMove (c : Collab B TT) (e : Engine B TT) (h : Plain e) :
    Plain (undoMove c e) := ⟨h.1, h.2, h.3, h.4⟩

theorem alphaBetaLoop_sound (c : Collab B TT) (srch : SearchFn B TT) (depth : Int) (n : Nat)
    (hc : Regular c depth) (hs : SoundAt c srch depth n) (alpha0 beta ply : Int)
    (verify : Bool) (b : B) (hw : alpha0 < beta) (hp0 : 0 ≤ ply) (hpd : ply + 1 ≤ depth)
    (hn : (depth - (ply + 1)).toNat = n) :
    ∀ (rest : List Move) (st : ABState B TT) (M : Int),
      Plain st.eng → st.eng.searchMethod = SearchMethod.SEARCH_AB → st.eng.board = b →
      alpha0 ≤ st.alpha → st.alpha ≤ max alpha0 st.best → ABInv alpha0 beta st.best M →
      ∃ st1 : ABState B TT,
        alphaBetaLoop c srch beta ply depth verify rest st = some st1
          ∧ Plain st1.eng ∧ st1.eng.settings = st.eng.settings ∧ st1.eng.board = b
          ∧ ABInv alpha0 beta st1.best
              (List.foldl max M
                (rest.map (fun m => -negamax c n (c.makeMove b m) (ply + 1)))) := by
  intro rest
  induction rest with
  | nil =>
    intro st M hpl hab hbd ha1 ha2 hinv
    exact ⟨st, rfl, hpl, rfl, hbd, hinv⟩
  | cons m rest ih =>
    intro st M hpl hab hbd ha1 ha2 hinv
    rw [alphaBetaLoop]
    by_cases hb : st.best < beta
    · simp only [hb, if_true]
      have haa := abAlpha_eq st alpha0 ha1 ha2
      obtain ⟨r, hr, hrpl, hrset, hrbd, hrs⟩ :=
        hs (doMove c st.eng m) [⟨m, Cutoff.NO_CUTOFF⟩] (-beta) (-abAlpha st) (ply + 1) true
          verify (plain_doMove c _ m hpl) hab (by rw [haa]; omega) (by omega) hpd hn
      rw [hr]
      simp only []
      have hbd2 : (abUpdate c st r).eng.board = b := by
        rw [abUpdate_eng]
        show c.unmakeMove r.eng.board = b
        rw [hrbd]
        show c.unmakeMove (c.makeMove st.eng.board m) = b
        rw [hc.undo, hbd]
      have hset2 : (abUpdate c st r).eng.settings = st.eng.settings := by
        rw [abUpdate_eng, settings_undoMove, hrset, settings_doMove]
      have hab2 : (abUpdate c st r).eng.searchMethod = SearchMethod.SEARCH_AB := by
        have := hset2
        simp only [Engine.settings, Prod.mk.injEq] at this
        rw [this.2.2.2.2.2.2.2.2.2.2.1]; exact hab
      have hpl2 : Plain (abUpdate c st r).eng := by
        rw [abUpdate_eng]; exact plain_undoMove c _ hrpl
      have hinv2 : ABInv alpha0 beta (abUpdate c st r).best
          (max M (-negamax c n (c.makeMove b m) (ply + 1))) := by
        rw [abUpdate_best]
        refine abinv_step alpha0 beta st.best M (abAlpha st) _ r.value hw hb haa hinv ?_
        have : (doMove c st.eng m).board = c.makeMove b m := by
          show c.makeMove st.eng.board m = _
          rw [hbd]
        rw [this] at hrs
        exact hrs
      obtain ⟨st1, h1, h2, h3, h4, h5⟩ :=
        ih (abUpdate c st r) (max M (-negamax c n (c.makeMove b m) (ply + 1))) hpl2 hab2 hbd2
          (by rw [abUpdate_alpha, haa]; omega)
          (by rw [abUpdate_alpha, haa, abUpdate_best]; split <;> omega) hinv2
      exact ⟨st1, h1, h2, h3.trans hset2, h4, by simpa using h5⟩
    · simp only [hb, if_false]
      refine ⟨st, rfl, hpl, rfl, hbd, ?_⟩
      exact abinv_mono alpha0 beta st.best M _ hw (not_lt.mp hb) (foldl_max_ge _ _) hinv

/-! ### The body of search in the plain configuration -/

theorem plain_nodeEntered (e : Engine B TT) (h : Plain e) : Plain (nodeEntered e) :=
  ⟨h.1, h.2, h.3, h.4⟩

theorem setUpKillers_eq (e : Engine B TT) (ply : Int) :
    ∃ pt : List Move, setUpKillers e ply = { e with priorityTable := pt } := by
  unfold setUpKillers
  dsimp only
  split <;> split <;> exact ⟨_, rfl⟩

theorem plain_setUpKillers (e : Engine B TT) (ply : Int) (h : Plain e) :
    Plain (setUpKillers e ply) := by
  obtain ⟨pt, hpt⟩ := setUpKillers_eq e ply
  rw [hpt]
  exact ⟨h.1, h.2, h.3, h.4⟩

theorem board_setUpKillers (e : Engine B TT) (ply : Int) :
    (setUpKillers e ply).board = e.board := by
  obtain ⟨pt, hpt⟩ := setUpKillers_eq e ply
  rw [hpt]

theorem newKiller_eq (e : Engine B TT) (m : Move) (ply : Int) :
    ∃ k1 k2 : List Move, newKiller e m ply = { e with killer1 := k1, killer2 := k2 } := by
  unfold newKiller
  split
  · split <;> exact ⟨_, _, rfl⟩
  · exact ⟨_, _, rfl⟩

theorem plain_newKiller (e : Engine B TT) (m : Move) (ply : Int) (h : Plain e) :
    Plain (newKiller e m ply) := by
  obtain ⟨k1, k2, hk⟩ := newKiller_eq e m ply
  rw [hk]
  exact ⟨h.1, h.2, h.3, h.4⟩

theorem board_newKiller (e : Engine B TT) (m : Move) (ply : Int) :
    (newKiller e m ply).board = e.board := by
  obtain ⟨k1, k2, hk⟩ := newKiller_eq e m ply
  rw [hk]

theorem tableSearch_off (c : Collab B TT) (e : Engine B TT) (ply depth alpha beta : Int)
    (m : Move) (score : Int) (nullok : Bool) (h : e.useTable = false) :
    tableSearch c e ply depth alpha beta m score nullok
      = ⟨false, alpha, beta, m, score, nullok, e⟩ := by
  unfold tableSearch
  simp [h]

theorem tableSet_off (c : Collab B TT) (e : Engine B TT) (ply depth alpha beta : Int)
    (m : Move) (score : Int) (h : e.useTable = false) :
    tableSet c e ply depth alpha beta m score = e := by
  unfold tableSet
  simp [h]

/-- In the plain configuration the post-processing of `search` keeps the configuration, the
settings, the board and the value. -/
theorem searchPost_plain (c : Collab B TT) (e : Engine B TT) (pv myPV : List PVEntry)
    (alpha beta ply depth value : Int) (h : Plain e) :
    Plain (searchPost c e pv myPV alpha beta ply depth value).eng
      ∧ (searchPost c e pv myPV alpha beta ply depth value).eng.board = e.board
      ∧ (searchPost c e pv myPV alpha beta ply depth value).value = value := by
  unfold searchPost
  split
  · exact ⟨h, rfl, rfl⟩
  · rename_i x tl
    by_cases hv : value > beta
    · simp only [hv, if_true]
      rw [tableSet_off c _ _ _ _ _ _ _ (plain_newKiller e x.move ply h).1]
      exact ⟨plain_newKiller e x.move ply h, board_newKiller e x.move ply, trivial⟩
    · simp only [hv, if_false]
      rw [tableSet_off c _ _ _ _ _ _ _ h.1]
      exact ⟨h, rfl, trivial⟩

/-- In the plain configuration, without a pending null-move retry, the tail of `search` is the
dispatch followed by the post-processing. -/
theorem searchTail_plain (c : Collab B TT) (srch : SearchFn B TT) (e : Engine B TT)
    (pv : List PVEntry) (moveList : List Move) (alpha beta ply depth : Int)
    (legalonly nullOk verify : Bool) (value : Int) (r : SearchResult B TT)
    (hd : dispatch c srch e moveList alpha beta ply depth legalonly nullOk verify value
      = some r) (hr : Plain r.eng) :
    searchTail c srch e pv moveList alpha beta ply depth legalonly nullOk verify false value
      = some (searchPost c r.eng pv r.pv alpha beta ply depth r.value) := by
  unfold searchTail
  rw [hd]
  simp [hr.4]

/-- The four ways through the body of `search` in the plain configuration when the timer has
time left: king capture, leaf, no move, or the tail over the sorted moves. -/
theorem searchBody_plain (c : Collab B TT) (srch : SearchFn B TT) (e : Engine B TT)
    (pv : List PVEntry) (alpha beta ply depth : Int) (legalonly nullOk verify : Bool)
    (h : Plain e) (ht : c.haveTimeLeftForMove e.myTimer e.clock = true) :
    searchBody c srch e pv alpha beta ply depth legalonly nullOk verify
      = if c.inCheck e.board (sideNotToMove c e.board) then
          some ⟨INFIN, setLastCutoff pv Cutoff.MISC_CUTOFF, nodeEntered e⟩
        else if ply ≥ depth then
          some ⟨c.evaluatePosition e.board - ply, pv, nodeEntered e⟩
        else if c.generateMoves e.board legalonly = [] then
          some ⟨CHECKMATE + ply, setLastCutoff pv Cutoff.MATE_CUTOFF,
            setUpKillers (nodeEntered e) ply⟩
        else
          searchTail c srch (setUpKillers (nodeEntered e) ply) pv
            (c.sort (compareMoves c e.board (setUpKillers (nodeEntered e) ply).priorityTable)
              (c.generateMoves e.board legalonly))
            alpha beta ply depth legalonly false (verify && e.verifyNull) false 0 := by
  have hq : (nodeEntered e).quiesc = false := h.3
  have hn : (nodeEntered e).allowNull = false := h.2
  have hb : (nodeEntered e).board = e.board := rfl
  have hv : (nodeEntered e).verifyNull = e.verifyNull := rfl
  unfold searchBody
  rw [if_neg (by simp [h.4]), if_neg (by simp [ht]),
    tableSearch_off c (nodeEntered e) ply depth alpha beta Move.empty 0 nullOk h.1]
  simp only [hq, hn, hb, hv, Bool.false_eq_true, if_false, searchNull, searchMoves,
    Bool.false_and, and_false, false_and, board_setUpKillers]

/-! ### AlphaBeta returns a sound score -/

theorem maxValue_children_range (c : Collab B TT) (depth : Int) (hc : Regular c depth) (n : Nat)
    (b : B) (ply : Int) (hp0 : 0 ≤ ply) (hd : ply + 1 + n ≤ depth) (l : List Move) :
    maxValue (l.map (fun m => -negamax c n (c.makeMove b m) (ply + 1))) = -INFIN
      ∨ (CHECKMATE ≤ maxValue (l.map (fun m => -negamax c n (c.makeMove b m) (ply + 1)))
          ∧ maxValue (l.map (fun m => -negamax c n (c.makeMove b m) (ply + 1)))
              ≤ -CHECKMATE) := by
  unfold maxValue
  rcases foldl_max_eq_or_mem (l.map (fun m => -negamax c n (c.makeMove b m) (ply + 1)))
    (-INFIN) with h | h
  · exact Or.inl h
  · simp only [List.mem_map] at h
    obtain ⟨m, -, hm⟩ := h
    rw [← hm]
    rcases negamax_range c depth hc n (c.makeMove b m) (ply + 1) (by omega) hd with
      ⟨-, hv⟩ | ⟨-, hv1, hv2⟩
    · left; rw [hv]
    · right
      simp only [CHECKMATE] at hv1 hv2 ⊢
      constructor <;> omega

theorem alphaBeta_sound (c : Collab B TT) (srch : SearchFn B TT) (depth : Int) (n : Nat)
    (hc : Regular c depth) (hs : SoundAt c srch depth n) (e : Engine B TT)
    (pv : List PVEntry) (l : List Move) (alpha beta ply : Int)
    (legalonly nullOk verify : Bool) (hpl : Plain e)
    (hab : e.searchMethod = SearchMethod.SEARCH_AB) (hw : alpha < beta) (hp0 : 0 ≤ ply)
    (hpd : ply + 1 ≤ depth) (hn : (depth - (ply + 1)).toNat = n) :
    ∃ r : SearchResult B TT,
      alphaBeta c srch e pv l alpha beta ply depth legalonly nullOk verify = some r
        ∧ Plain r.eng ∧ r.eng.settings = e.settings ∧ r.eng.board = e.board
        ∧ Sound alpha beta
            (nodeValue (l.map (fun m => -negamax c n (c.makeMove e.board m) (ply + 1))))
            r.value := by
  obtain ⟨st1, h1, h2, h3, h4, h5⟩ :=
    alphaBetaLoop_sound c srch depth n hc hs alpha beta ply verify e.board hw hp0 hpd hn l
      ⟨alpha, -INFIN, [], e⟩ (-INFIN) hpl hab rfl (le_refl _) (le_max_left _ _)
      (abinv_init alpha beta)
  have hd : ply + 1 + (n : Int) ≤ depth := by
    have : ((depth - (ply + 1)).toNat : Int) = depth - (ply + 1) :=
      Int.toNat_of_nonneg (by omega)
    rw [hn] at this
    omega
  have hfin := abinv_final alpha beta st1.best _ hw
    (maxValue_children_range c depth hc n e.board ply hp0 hd l) h5
  unfold alphaBeta
  rw [h1]
  by_cases hb : st1.best = -INFIN
  · simp only [hb, if_true] at hfin ⊢
    exact ⟨_, rfl, h2, h3, h4, hfin⟩
  · simp only [hb, if_false] at hfin ⊢
    exact ⟨_, rfl, h2, h3, h4, hfin⟩

theorem sound_exact (alpha beta v : Int) (h1 : CHECKMATE ≤ v) (h2 : v ≤ -CHECKMATE) :
    Sound alpha beta v v :=
  Or.inr ⟨h1, h2, h1, h2, fun _ => le_refl v, fun _ => le_refl v, fun _ _ => rfl⟩

/-- One level of the recursion: if the recursive calls are sound for `n` plies to go, the body
of `search` is sound for `n + 1`; and the body is sound at the horizon whatever the recursive
calls do. -/
theorem searchBody_sound (c : Collab B TT) (srch : SearchFn B TT) (depth : Int)
    (hc : Regular c depth) (n : Nat) (hs : n ≠ 0 → SoundAt c srch depth (n - 1)) :
    SoundAt c (searchBody c srch) depth n := by
  intro e pv alpha beta ply nullOk verify hpl hab hw hp0 hpd hn
  have hnI : (n : Int) = depth - ply := by
    rw [← hn]; exact Int.toNat_of_nonneg (by omega)
  rw [searchBody_plain c srch e pv alpha beta ply depth false nullOk verify hpl (hc.time _ _)]
  rcases negamax_range c depth hc n e.board ply hp0 (by omega) with ⟨hk, hv⟩ | ⟨hk, hv1, hv2⟩
  · simp only [hk, if_true]
    exact ⟨_, rfl, plain_nodeEntered e hpl, rfl, rfl, Or.inl ⟨hv, rfl⟩⟩
  · simp only [hk, Bool.false_eq_true, if_false]
    cases n with
    | zero =>
      have hge : ply ≥ depth := by simp at hnI; omega
      simp only [hge, if_true]
      refine ⟨_, rfl, plain_nodeEntered e hpl, rfl, rfl, ?_⟩
      have hval : negamax c 0 e.board ply = c.evaluatePosition e.board - ply := by
        simp [negamax_zero, hk]
      rw [hval] at hv1 hv2 ⊢
      exact sound_exact _ _ _ hv1 hv2
    | succ k =>
      have hlt : ¬ ply ≥ depth := by push_cast at hnI; omega
      simp only [hlt, if_false]
      by_cases hg : c.generateMoves e.board false = []
      · simp only [hg, if_true]
        refine ⟨_, rfl, plain_setUpKillers _ _ (plain_nodeEntered e hpl),
          settings_setUpKillers _ _, board_setUpKillers _ _, ?_⟩
        have hval : negamax c (k + 1) e.board ply = CHECKMATE + ply := by
          simp [negamax_succ, hk, hg]
        rw [hval] at hv1 hv2 ⊢
        exact sound_exact _ _ _ hv1 hv2
      · simp only [hg, if_false]
        have hsk : SoundAt c srch depth k := hs (by simp)
        have hkn : (depth - (ply + 1)).toNat = k := by
          have : depth - (ply + 1) = (k : Int) := by push_cast at hnI; omega
          rw [this]; exact Int.toNat_natCast k
        have hplk := plain_setUpKillers (nodeEntered e) ply (plain_nodeEntered e hpl)
        have habk : (setUpKillers (nodeEntered e) ply).searchMethod
            = SearchMethod.SEARCH_AB := by
          have := settings_setUpKillers (nodeEntered e) ply
          simp only [Engine.settings, Prod.mk.injEq] at this
          rw [this.2.2.2.2.2.2.2.2.2.2.1]; exact hab
        obtain ⟨r, hr, hrpl, hrset, hrbd, hrs⟩ :=
          alphaBeta_sound c srch depth k hc hsk (setUpKillers (nodeEntered e) ply) []
            (c.sort (compareMoves c e.board (setUpKillers (nodeEntered e) ply).priorityTable)
              (c.generateMoves e.board false))
            alpha beta ply false false (verify && e.verifyNull) hplk habk hw hp0
            (by push_cast at hnI; omega) hkn
        have hdisp : dispatch c srch (setUpKillers (nodeEntered e) ply)
            (c.sort (compareMoves c e.board (setUpKillers (nodeEntered e) ply).priorityTable)
              (c.generateMoves e.board false))
            alpha beta ply depth false false (verify && e.verifyNull) 0 = some r := by
          unfold dispatch
          rw [habk]
          exact hr
        rw [searchTail_plain c srch _ pv _ alpha beta ply depth false false _ 0 r hdisp hrpl]
        obtain ⟨hp1, hp2, hp3⟩ := searchPost_plain c r.eng pv r.pv alpha beta ply depth r.value hrpl
        refine ⟨_, rfl, hp1, ?_, ?_, ?_⟩
        · rw [searchPost_settings, hrset, settings_setUpKillers]; rfl
        · rw [hp2, hrbd, board_setUpKillers]; rfl
        · rw [hp3]
          have hval : negamax c (k + 1) e.board ply
              = nodeValue ((c.generateMoves e.board false).map
                  (fun m => -negamax c k (c.makeMove e.board m) (ply + 1))) := by
            simp [negamax_succ, hk, hg]
          have hperm : nodeValue ((c.sort (compareMoves c e.board
                (setUpKillers (nodeEntered e) ply).priorityTable)
                (c.generateMoves e.board false)).map
                  (fun m => -negamax c k (c.makeMove e.board m) (ply + 1)))
              = nodeValue ((c.generateMoves e.board false).map
                  (fun m => -negamax c k (c.makeMove e.board m) (ply + 1))) := by
            unfold nodeValue
            rw [maxValue_perm _ _ ((hc.perm _ _).map _)]
          rw [hval, ← hperm]
          have hb2 : (setUpKillers (nodeEntered e) ply).board = e.board := by
            rw [board_setUpKillers]; rfl
          rw [hb2] at hrs
          exact hrs

/-- The AlphaBeta search in the plain configuration returns, with fuel above the remaining
depth, a score that is sound for the negamax value of the node. -/
theorem search_sound (c : Collab B TT) (depth : Int) (hc : Regular c depth) :
    ∀ (n fuel : Nat), n < fuel → SoundAt c (search c fuel) depth n := by
  intro n
  induction n with
  | zero =>
    intro fuel hf
    obtain ⟨f, rfl⟩ : ∃ f, fuel = f + 1 := ⟨fuel - 1, by omega⟩
    rw [search_succ]
    exact searchBody_sound c _ depth hc 0 (fun h => absurd rfl h)
  | succ k ih =>
    intro fuel hf
    obtain ⟨f, rfl⟩ : ∃ f, fuel = f + 1 := ⟨fuel - 1, by omega⟩
    rw [search_succ]
    exact searchBody_sound c _ depth hc (k + 1) (fun _ => ih f (by omega))

/-! ### MTD(f) converges to the negamax value -/

theorem mtd_step_arith (g lower upper v r d : Int) (h1 : lower < upper)
    (hg : g = lower ∨ g = upper) (hv1 : lower ≤ v) (hv2 : v ≤ upper) (hd : upper - lower ≤ d + 1)
    (hs : Sound (mtdBeta g lower - 1) (mtdBeta g lower) v r) :
    (mtdLower g lower r < mtdUpper g upper lower r →
        (r = mtdLower g lower r ∨ r = mtdUpper g upper lower r)
          ∧ mtdLower g lower r ≤ v ∧ v ≤ mtdUpper g upper lower r
          ∧ mtdUpper g upper lower r - mtdLower g lower r ≤ d)
      ∧ (¬ mtdLower g lower r < mtdUpper g upper lower r → r = v) := by
  unfold Sound at hs
  unfold mtdLower mtdUpper
  unfold mtdBeta at hs ⊢
  simp only [INFIN, CHECKMATE] at hs
  by_cases hgl : g = lower
  · simp only [hgl, if_true] at hs ⊢
    by_cases hr : r < lower + 1
    · simp only [hr, if_true]
      refine ⟨fun h => ⟨by simp, by omega, by omega, by omega⟩, fun h => by omega⟩
    · simp only [hr, if_false]
      refine ⟨fun h => ⟨by simp, by omega, by omega, by omega⟩, fun h => by omega⟩
  · simp only [hgl, if_false] at hs ⊢
    by_cases hr : r < g
    · simp only [hr, if_true]
      refine ⟨fun h => ⟨by simp, by omega, by omega, by omega⟩, fun h => by omega⟩
    · simp only [hr, if_false]
      refine ⟨fun h => ⟨by simp, by omega, by omega, by omega⟩, fun h => by omega⟩

theorem mtd_first_arith (g v r : Int)
    (hs : Sound (mtdBeta g (-INFIN) - 1) (mtdBeta g (-INFIN)) v r) :
    (mtdLower g (-INFIN) r < mtdUpper g INFIN (-INFIN) r →
        (r = mtdLower g (-INFIN) r ∨ r = mtdUpper g INFIN (-INFIN) r)
          ∧ mtdLower g (-INFIN) r ≤ v ∧ v ≤ mtdUpper g INFIN (-INFIN) r
          ∧ mtdUpper g INFIN (-INFIN) r - mtdLower g (-INFIN) r ≤ 6000)
      ∧ (¬ mtdLower g (-INFIN) r < mtdUpper g INFIN (-INFIN) r → r = v) := by
  unfold Sound at hs
  unfold mtdLower mtdUpper
  unfold mtdBeta at hs ⊢
  simp only [INFIN, CHECKMATE] at hs ⊢
  by_cases hgl : g = -3000
  · simp only [hgl, if_true] at hs ⊢
    by_cases hr : r < -3000 + 1
    · simp only [hr, if_true]
      refine ⟨fun h => ⟨by simp, by omega, by omega, by omega⟩, fun h => by omega⟩
    · simp only [hr, if_false]
      refine ⟨fun h => ⟨by simp, by omega, by omega, by omega⟩, fun h => by omega⟩
  · simp only [hgl, if_false] at hs ⊢
    by_cases hr : r < g
    · simp only [hr, if_true]
      refine ⟨fun h => ⟨by simp, by omega, by omega, by omega⟩, fun h => by omega⟩
    · simp only [hr, if_false]
      refine ⟨fun h => ⟨by simp, by omega, by omega, by omega⟩, fun h => by omega⟩

theorem mtdBeta_window (g lower : Int) : mtdBeta g lower - 1 < mtdBeta g lower := by omega

theorem settings_method (e e1 : Engine B TT) (h : e1.settings = e.settings) :
    e1.searchMethod = e.searchMethod := by
  simp only [Engine.settings, Prod.mk.injEq] at h
  exact h.2.2.2.2.2.2.2.2.2.2.1

/-- The iterations of `mtd` after the first: with the value between the bounds and the last
score equal to one of them, the loop ends within `upper - lower` iterations with the value. -/
theorem mtdLoop_converges (c : Collab B TT) (fuel : Nat) (depth : Int) (hc : Regular c depth)
    (hd0 : 0 ≤ depth) (hf : depth.toNat < fuel) (b : B) :
    ∀ (d n : Nat), d < n → ∀ (e : Engine B TT) (g upper lower : Int),
      Plain e → e.searchMethod = SearchMethod.SEARCH_AB → e.board = b →
      lower < upper → (g = lower ∨ g = upper) → lower ≤ negamax c depth.toNat b 0 →
      negamax c depth.toNat b 0 ≤ upper → upper - lower ≤ d →
      ∃ r : SearchResult B TT,
        mtdLoop c fuel depth n e g upper lower = some r
          ∧ Plain r.eng ∧ r.eng.settings = e.settings ∧ r.eng.board = b
          ∧ r.value = negamax c depth.toNat b 0 := by
  intro d
  induction d with
  | zero =>
    intro n _ e g upper lower _ _ _ hlt _ _ _ hd
    exact absurd hd (by push_cast; omega)
  | succ k ih =>
    intro n hn e g upper lower hpl hab hbd hlt hg hv1 hv2 hd
    obtain ⟨n1, rfl⟩ : ∃ n1, n = n1 + 1 := ⟨n - 1, by omega⟩
    obtain ⟨r, hr, hrpl, hrset, hrbd, hrs⟩ :=
      search_sound c depth hc depth.toNat fuel hf e [] (mtdBeta g lower - 1) (mtdBeta g lower) 0
        true true hpl hab (mtdBeta_window g lower) (le_refl 0) hd0 (by simp)
    rw [hbd] at hrs hrbd
    obtain ⟨hcont, hexit⟩ := mtd_step_arith g lower upper _ r.value k hlt hg hv1 hv2
      (by push_cast at hd; omega) hrs
    rw [mtdLoop, hr]
    by_cases hl : mtdLower g lower r.value < mtdUpper g upper lower r.value
    · simp only [hl, if_true]
      obtain ⟨hg2, hv3, hv4, hd2⟩ := hcont hl
      obtain ⟨r2, h1, h2, h3, h4, h5⟩ :=
        ih n1 (by omega) r.eng r.value _ _ hrpl
          ((settings_method e r.eng hrset).trans hab) hrbd hl hg2 hv3 hv4 hd2
      exact ⟨r2, h1, h2, h3.trans hrset, h4, h5⟩
    · simp only [hl, if_false]
      exact ⟨r, rfl, hrpl, hrset, hrbd, hexit hl⟩

/-- In the plain configuration with AlphaBeta, `mtd` returns the negamax value of the
position, whatever the guess, when the fuel is at least 6002. -/
theorem mtd_value (c : Collab B TT) (fuel : Nat) (depth : Int) (hc : Regular c depth)
    (hd0 : 0 ≤ depth) (hf : 6002 ≤ fuel) (e : Engine B TT) (pv : List PVEntry) (guess : Int)
    (hpl : Plain e) (hab : e.searchMethod = SearchMethod.SEARCH_AB) :
    ∃ r : SearchResult B TT,
      mtd c fuel e pv guess depth = some r
        ∧ Plain r.eng ∧ r.eng.settings = e.settings ∧ r.eng.board = e.board
        ∧ r.value = negamax c depth.toNat e.board 0 := by
  have hdep : depth.toNat < fuel := by
    have h1 := hc.evalLow e.board
    have h2 := hc.evalHigh e.board
    simp only [CHECKMATE] at h1 h2
    have : (depth.toNat : Int) = depth := Int.toNat_of_nonneg hd0
    omega
  obtain ⟨n1, hn1⟩ : ∃ n1, fuel = n1 + 1 := ⟨fuel - 1, by omega⟩
  obtain ⟨r, hr, hrpl, hrset, hrbd, hrs⟩ :=
    search_sound c depth hc depth.toNat fuel hdep e [] (mtdBeta guess (-INFIN) - 1)
      (mtdBeta guess (-INFIN)) 0 true true hpl hab (mtdBeta_window _ _) (le_refl 0) hd0
      (by simp)
  obtain ⟨hcont, hexit⟩ := mtd_first_arith guess _ r.value hrs
  unfold mtd
  rw [show mtdLoop c fuel depth fuel e guess INFIN (-INFIN)
      = mtdLoop c fuel depth (n1 + 1) e guess INFIN (-INFIN) by rw [← hn1]]
  rw [mtdLoop, hr]
  by_cases hl : mtdLower guess (-INFIN) r.value < mtdUpper guess INFIN (-INFIN) r.value
  · simp only [hl, if_true]
    obtain ⟨hg2, hv3, hv4, hd2⟩ := hcont hl
    obtain ⟨r2, h1, h2, h3, h4, h5⟩ :=
      mtdLoop_converges c fuel depth hc hd0 hdep e.board 6000 n1 (by omega) r.eng r.value _ _
        hrpl ((settings_method e r.eng hrset).trans hab) hrbd hl hg2 hv3 hv4
        (by push_cast; exact hd2)
    exact ⟨r2, h1, h2, h3.trans hrset, h4, h5⟩
  · simp only [hl, if_false]
    exact ⟨r, rfl, hrpl, hrset, hrbd, hexit hl⟩

/-- In the plain configuration with AlphaBeta, the full-window search returns the negamax
value of the position. -/
theorem full_window_value (c : Collab B TT) (fuel : Nat) (depth : Int) (hc : Regular c depth)
    (hd0 : 0 ≤ depth) (hf : depth.toNat < fuel) (e : Engine B TT) (pv : List PVEntry)
    (nullOk verify : Bool) (hpl : Plain e) (hab : e.searchMethod = SearchMethod.SEARCH_AB) :
    ∃ r : SearchResult B TT,
      search c fuel e pv (-INFIN) INFIN 0 depth false nullOk verify = some r
        ∧ Plain r.eng ∧ r.eng.settings = e.settings ∧ r.eng.board = e.board
        ∧ r.value = negamax c depth.toNat e.board 0 := by
  obtain ⟨r, hr, hrpl, hrset, hrbd, hrs⟩ :=
    search_sound c depth hc depth.toNat fuel hf e pv (-INFIN) INFIN 0 nullOk verify hpl hab
      (by simp [INFIN]) (le_refl 0) hd0 (by simp)
  refine ⟨r, hr, hrpl, hrset, hrbd, ?_⟩
  unfold Sound at hrs
  simp only [INFIN, CHECKMATE] at hrs
  omega

/-! ### The concrete instance satisfies the assumptions -/

theorem insertMove_perm (lt : Move → Move → Bool) (m : Move) (l : List Move) :
    (insertMove lt m l).Perm (m :: l) := by
  induction l with
  | nil => exact List.Perm.refl _
  | cons x r ih =>
    unfold insertMove
    split
    · exact List.Perm.refl _
    · exact (List.Perm.cons x ih).trans (List.Perm.swap m x r)

theorem insertionSort_perm (lt : Move → Move → Bool) (l : List Move) :
    (insertionSort lt l).Perm l := by
  induction l with
  | nil => exact List.Perm.refl _
  | cons x r ih =>
    unfold insertionSort
    exact (insertMove_perm lt x _).trans (List.Perm.cons x ih)

theorem toyBounded_regular (depth : Int) (h : depth ≤ 2000) : Regular toyBounded depth where
  time := fun _ _ => rfl
  undo := fun _ _ => rfl
  perm := fun lt l => insertionSort_perm lt l
  evalLow := by
    intro b
    show CHECKMATE + depth ≤ (b.map (fun m => (m.origin : Int))).sum % 7
    simp only [CHECKMATE]
    omega
  evalHigh := by
    intro b
    show (b.map (fun m => (m.origin : Int))).sum % 7 ≤ -CHECKMATE
    simp only [CHECKMATE]
    omega

theorem enginePlain_plain : Plain enginePlain := ⟨rfl, rfl, rfl, rfl⟩

/-! ### C7: MTD(f) against the full-window search -/

/-- C7 as stated fails in the default configuration: on the path position at depth 4 with
guess 0, `mtd` returns -27 while the full-window AlphaBeta search returns 36; no abort occurs
in either run (with the null move switched off `mtd` returns 36 as well).  It also fails with
the null move off and the table on: on the cyclic position at depth 3, `mtd` returns 4, its
line ending in a HASH_CUTOFF, while the full-window search returns 10. -/
theorem mtd_differs_from_full_window_search :
    engine0.searchMethod = SearchMethod.SEARCH_AB
    ∧ (mtd toyPath 20 engine0 [] 0 4).map (fun r => (r.value, r.eng.searchAborted))
      = some (-27, Abort.NO_ABORT)
    ∧ (search toyPath 20 engine0 [] (-INFIN) INFIN 0 4 false true true).map
        (fun r => (r.value, r.eng.searchAborted))
      = some (36, Abort.NO_ABORT)
    ∧ (mtd toyPath 20 { engine0 with allowNull := false } [] 0 4).map (fun r => r.value)
      = some 36
    ∧ (mtd toyCycle 20 { engine0 with allowNull := false } [] 0 3).map
        (fun r => (r.value, r.pv.map (fun x => x.cutoff), r.eng.searchAborted))
      = some (4, [Cutoff.NO_CUTOFF, Cutoff.NO_CUTOFF, Cutoff.HASH_CUTOFF], Abort.NO_ABORT)
    ∧ (search toyCycle 20 { engine0 with allowNull := false } [] (-INFIN) INFIN 0 3 false true
        true).map (fun r => (r.value, r.eng.searchAborted))
      = some (10, Abort.NO_ABORT) := by
  decide!


/-- C7, amended. With the transposition table, the null move and quiescence switched off and
AlphaBeta selected, with no abort occurring (no abort flagged, the timer always has time
left), `unmakeMove` undoing `makeMove`, the sort permuting the moves and every static
evaluation between `CHECKMATE + depth` and `-CHECKMATE`: for every position, target depth
`depth >= 0` and initial guess, `mtd(pv, guess, depth)` and the full-window
`search(pv, -INFIN, INFIN, 0, depth)` both return (given fuel 6002 or more), without abort,
and their scores are equal - both are the negamax value of the position. -/
theorem mtd_eq_full_window_search (c : Collab B TT) (fuel : Nat) (e : Engine B TT)
    (pv : List PVEntry) (guess depth : Int) (hc : Regular c depth) (hpl : Plain e)
    (hab : e.searchMethod = SearchMethod.SEARCH_AB) (hd0 : 0 ≤ depth) (hf : 6002 ≤ fuel) :
    ∃ r1 r2 : SearchResult B TT,
      mtd c fuel e pv guess depth = some r1
        ∧ search c fuel e pv (-INFIN) INFIN 0 depth false true true = some r2
        ∧ r1.value = r2.value
        ∧ r1.value = negamax c depth.toNat e.board 0
        ∧ r1.eng.searchAborted = Abort.NO_ABORT ∧ r2.eng.searchAborted = Abort.NO_ABORT := by
  have hdep : depth.toNat < fuel := by
    have h1 := hc.evalLow e.board
    have h2 := hc.evalHigh e.board
    simp only [CHECKMATE] at h1 h2
    have : (depth.toNat : Int) = depth := Int.toNat_of_nonneg hd0
    omega
  obtain ⟨r1, h1, hp1, -, -, hv1⟩ := mtd_value c fuel depth hc hd0 hf e pv guess hpl hab
  obtain ⟨r2, h2, hp2, -, -, hv2⟩ :=
    full_window_value c fuel depth hc hd0 hdep e pv true true hpl hab
  exact ⟨r1, r2, h1, h2, hv1.trans hv2.symm, hv1, hp1.4, hp2.4⟩

/-- C7 amended, on a concrete input: on the bounded instance in the plain configuration, `mtd`
with guess 0 at depth 3 and the full-window search at depth 3 return the same score. -/
theorem mtd_eq_full_window_search_witness :
    ∃ r1 r2 : SearchResult Pos Table,
      mtd toyBounded 6002 enginePlain [] 0 3 = some r1
        ∧ search toyBounded 6002 enginePlain [] (-INFIN) INFIN 0 3 false true true = some r2
        ∧ r1.value = r2.value := by
  obtain ⟨r1, r2, h1, h2, h3, -⟩ :=
    mtd_eq_full_window_search toyBounded 6002 enginePlain [] 0 3
      (toyBounded_regular 3 (by decide)) enginePlain_plain rfl (by decide) (le_refl _)
  exact ⟨r1, r2, h1, h2, h3⟩

/-! ### The loop of negaScout against the reference value -/

theorem nsinv_init (alpha beta : Int) (hw : alpha < beta) (h : -INFIN ≤ alpha) :
    NSInv alpha beta alpha (-INFIN) := by
  unfold NSInv
  simp only [INFIN] at h ⊢
  refine ⟨by omega, by omega, fun _ => by omega, fun h1 _ => by omega, fun _ => by omega⟩

theorem nsinv_mono (alpha beta a M M1 : Int) (hw : alpha < beta) (hb : beta ≤ a) (hm : M ≤ M1)
    (h : NSInv alpha beta a M) : NSInv alpha beta a M1 := by
  unfold NSInv at h ⊢
  simp only [INFIN] at h ⊢
  refine ⟨by omega, by omega, fun _ => by omega, fun _ _ => by omega, fun _ => by omega⟩

/-- A move whose probe is not followed by a second search. -/
theorem nsinv_step (alpha beta a b M vc r : Int) (first leafChild : Bool) (hw : alpha < beta)
    (hlo : -INFIN ≤ alpha) (hab : a < beta)
    (hb : (first = true → b = beta ∧ a = alpha) ∧ (first = false → b = a + 1))
    (h : NSInv alpha beta a M) (hs : SoundNS (-b) (-a) vc r)
    (hex : leafChild = true → r = vc)
    (hnr : ¬ (-r > a ∧ -r < beta ∧ first = false ∧ leafChild = false)) :
    NSInv alpha beta (if -r > a then -r else a) (max M (-vc)) := by
  unfold NSInv at h ⊢
  unfold SoundNS at hs
  simp only [INFIN, CHECKMATE] at h hs hlo ⊢
  cases first <;> cases leafChild <;> simp only [true_implies, false_implies, Bool.false_eq_true,
    and_true, and_false, not_false_eq_true, not_and, not_lt, forall_const] at hb hex hnr <;>
    split <;>
    refine ⟨by omega, by omega, fun _ => by omega, fun _ _ => by omega, fun _ => by omega⟩

/-- A move whose probe `r` is followed by a second search with result `r2`. -/
theorem nsinv_step_research (alpha beta a M vc r r2 : Int)
    (hlo : -INFIN ≤ alpha) (hab : a < beta) (h : NSInv alpha beta a M)
    (hs : SoundNS (-(a + 1)) (-a) vc r) (hs2 : SoundNS (-beta) (- -r) vc r2)
    (ht1 : -r > a) (ht2 : -r < beta) :
    NSInv alpha beta (if -r > -r2 then -r else -r2) (max M (-vc)) := by
  unfold NSInv at h ⊢
  unfold SoundNS at hs hs2
  simp only [INFIN, CHECKMATE] at h hs hs2 hlo ⊢
  split <;>
    refine ⟨by omega, by omega, fun _ => by omega, fun _ _ => by omega, fun _ => by omega⟩

theorem nsinv_final (alpha beta a M : Int) (hhi : beta ≤ INFIN)
    (hM : CHECKMATE ≤ M ∧ M ≤ -CHECKMATE) (h : NSInv alpha beta a M) :
    SoundNS alpha beta M a := by
  unfold NSInv at h
  unfold SoundNS
  simp only [INFIN, CHECKMATE] at h hM hhi ⊢
  right
  refine ⟨by omega, by omega, by omega, fun _ => by omega, fun _ => by omega,
    fun _ _ => by omega⟩

theorem nsUpdate_a (c : Collab B TT) (st : NSState B TT) (r : SearchResult B TT) :
    (nsUpdate c st r).a = if -r.value > st.a then -r.value else st.a := by
  unfold nsUpdate
  split <;> rfl

theorem nsUpdate_b (c : Collab B TT) (st : NSState B TT) (r : SearchResult B TT) :
    (nsUpdate c st r).b = (nsUpdate c st r).a + 1 := by
  unfold nsUpdate
  split <;> rfl

theorem nsUpdateResearch_a (c : Collab B TT) (st : NSState B TT) (t : Int)
    (r2 : SearchResult B TT) :
    (nsUpdateResearch c st t r2).a = if t > -r2.value then t else -r2.value := by
  unfold nsUpdateResearch
  split <;> rfl

theorem nsUpdateResearch_b (c : Collab B TT) (st : NSState B TT) (t : Int)
    (r2 : SearchResult B TT) :
    (nsUpdateResearch c st t r2).b = (nsUpdateResearch c st t r2).a + 1 := by
  unfold nsUpdateResearch
  split <;> rfl

theorem negaScoutLoop_sound (c : Collab B TT) (srch : SearchFn B TT) (depth : Int) (n : Nat)
    (hc : Regular c depth) (hs : SoundAtNS c srch depth n) (alpha beta ply : Int)
    (verify : Bool) (b : B) (hw : alpha < beta) (hlo : -INFIN ≤ alpha) (hhi : beta ≤ INFIN)
    (hp0 : 0 ≤ ply) (hpd : ply + 1 ≤ depth) (hn : (depth - (ply + 1)).toNat = n) :
    ∀ (rest : List Move) (first : Bool) (st : NSState B TT) (M : Int),
      Plain st.eng → st.eng.searchMethod = SearchMethod.SEARCH_NS → st.eng.board = b →
      ((first = true → st.b = beta ∧ st.a = alpha) ∧ (first = false → st.b = st.a + 1)) →
      NSInv alpha beta st.a M →
      ∃ st1 : NSState B TT,
        negaScoutLoop c srch beta ply depth verify rest first st = some st1
          ∧ Plain st1.eng ∧ st1.eng.settings = st.eng.settings ∧ st1.eng.board = b
          ∧ NSInv alpha beta st1.a
              (List.foldl max M
                (rest.map (fun m => -negamax c n (c.makeMove b m) (ply + 1)))) := by
  intro rest
  induction rest with
  | nil =>
    intro first st M hpl hns hbd hfb hinv
    exact ⟨st, rfl, hpl, rfl, hbd, hinv⟩
  | cons m rest ih =>
    intro first st M hpl hns hbd hfb hinv
    rw [negaScoutLoop]
    by_cases hb : st.a < beta
    · rw [if_pos hb]
      have hage : alpha ≤ st.a := hinv.2.1
      have hwin : -st.b < -st.a ∧ -INFIN ≤ -st.b ∧ -st.a ≤ INFIN := by
        simp only [INFIN] at hlo hhi ⊢
        cases first with
        | true =>
          obtain ⟨h1, h2⟩ := hfb.1 rfl
          omega
        | false =>
          have h1 := hfb.2 rfl
          omega
      obtain ⟨r, hr, hrpl, hrset, hrbd, hrs, hrex⟩ :=
        hs (doMove c st.eng m) [⟨m, Cutoff.NO_CUTOFF⟩] (-st.b) (-st.a) (ply + 1) true verify
          (plain_doMove c _ m hpl) hns hwin.1 hwin.2.1 hwin.2.2 (by omega) hpd hn
      have hbm : (doMove c st.eng m).board = c.makeMove b m := by
        show c.makeMove st.eng.board m = _
        rw [hbd]
      rw [hbm] at hrs hrex hrbd
      rw [hr]
      simp only []
      have hrns : r.eng.searchMethod = SearchMethod.SEARCH_NS :=
        (settings_method _ r.eng hrset).trans hns
      have hrset2 : r.eng.settings = st.eng.settings := by
        rw [hrset, settings_doMove]
      by_cases hre : -r.value > st.a ∧ -r.value < beta ∧ first = false ∧ ply < depth - 1
      · rw [if_pos hre]
        obtain ⟨ht1, ht2, hf, -⟩ := hre
        have hwin2 : -beta < - -r.value ∧ -INFIN ≤ -beta ∧ - -r.value ≤ INFIN := by
          simp only [INFIN] at hlo hhi ⊢
          omega
        obtain ⟨r2, hr2, hr2pl, hr2set, hr2bd, hr2s, -⟩ :=
          hs r.eng [⟨m, Cutoff.NO_CUTOFF⟩] (-beta) (- -r.value) (ply + 1) true verify hrpl hrns
            hwin2.1 hwin2.2.1 hwin2.2.2 (by omega) hpd hn
        rw [hrbd] at hr2s hr2bd
        rw [hr2]
        simp only []
        have hsb : st.b = st.a + 1 := hfb.2 hf
        rw [hsb] at hrs
        have hinv2 : NSInv alpha beta (nsUpdateResearch c st (-r.value) r2).a
            (max M (-negamax c n (c.makeMove b m) (ply + 1))) := by
          rw [nsUpdateResearch_a]
          exact nsinv_step_research alpha beta st.a M _ r.value r2.value hlo hb hinv hrs
            hr2s ht1 ht2
        obtain ⟨st1, h1, h2, h3, h4, h5⟩ :=
          ih false (nsUpdateResearch c st (-r.value) r2)
            (max M (-negamax c n (c.makeMove b m) (ply + 1)))
            (by rw [nsUpdateResearch_eng]; exact plain_undoMove c _ hr2pl)
            (by rw [nsUpdateResearch_eng]; exact (settings_method _ _ hr2set).trans hrns)
            (by
              rw [nsUpdateResearch_eng]
              show c.unmakeMove r2.eng.board = b
              rw [hr2bd, hc.undo])
            ⟨fun h => absurd h (by simp), fun _ => nsUpdateResearch_b c st _ r2⟩ hinv2
        refine ⟨st1, h1, h2, ?_, h4, by simpa using h5⟩
        rw [h3, nsUpdateResearch_eng, settings_undoMove, hr2set, hrset2]
      · rw [if_neg hre]
        have hinv2 : NSInv alpha beta (nsUpdate c st r).a
            (max M (-negamax c n (c.makeMove b m) (ply + 1))) := by
          rw [nsUpdate_a]
          refine nsinv_step alpha beta st.a st.b M _ r.value first
            (decide (¬ ply < depth - 1)) hw hlo hb hfb hinv hrs ?_ ?_
          · intro hl
            simp only [decide_eq_true_eq] at hl
            apply hrex
            have h0 : depth - (ply + 1) ≤ 0 := by omega
            rw [← hn]
            exact Int.toNat_eq_zero.mpr h0
          · intro h
            apply hre
            refine ⟨h.1, h.2.1, h.2.2.1, ?_⟩
            have := h.2.2.2
            simp only [decide_eq_false_iff_not, not_not] at this
            exact this
        obtain ⟨st1, h1, h2, h3, h4, h5⟩ :=
          ih false (nsUpdate c st r) (max M (-negamax c n (c.makeMove b m) (ply + 1)))
            (by rw [nsUpdate_eng]; exact plain_undoMove c _ hrpl)
            (by rw [nsUpdate_eng]; exact hrns)
            (by
              rw [nsUpdate_eng]
              show c.unmakeMove r.eng.board = b
              rw [hrbd, hc.undo])
            ⟨fun h => absurd h (by simp), fun _ => nsUpdate_b c st r⟩ hinv2
        refine ⟨st1, h1, h2, ?_, h4, by simpa using h5⟩
        rw [h3, nsUpdate_eng, settings_undoMove, hrset2]
    · rw [if_neg hb]
      refine ⟨st, rfl, hpl, rfl, hbd, ?_⟩
      exact nsinv_mono alpha beta st.a M _ hw (not_lt.mp hb) (foldl_max_ge _ _) hinv

/-! ### NegaScout returns a sound score -/

theorem negaScout_sound (c : Collab B TT) (srch : SearchFn B TT) (depth : Int) (n : Nat)
    (hc : Regular c depth) (hs : SoundAtNS c srch depth n) (e : Engine B TT)
    (pv : List PVEntry) (l : List Move) (alpha beta ply : Int)
    (legalonly nullOk verify : Bool) (hpl : Plain e)
    (hns : e.searchMethod = SearchMethod.SEARCH_NS) (hw : alpha < beta)
    (hlo : -INFIN ≤ alpha) (hhi : beta ≤ INFIN) (hp0 : 0 ≤ ply)
    (hpd : ply + 1 ≤ depth) (hn : (depth - (ply + 1)).toNat = n)
    (hlegal : ∃ m ∈ l, c.inCheck (c.makeMove e.board m)
      (sideNotToMove c (c.makeMove e.board m)) = false) :
    ∃ r : SearchResult B TT,
      negaScout c srch e pv l alpha beta ply depth legalonly nullOk verify = some r
        ∧ Plain r.eng ∧ r.eng.settings = e.settings ∧ r.eng.board = e.board
        ∧ SoundNS alpha beta
            (nodeValue (l.map (fun m => -negamax c n (c.makeMove e.board m) (ply + 1))))
            r.value := by
  obtain ⟨st1, h1, h2, h3, h4, h5⟩ :=
    negaScoutLoop_sound c srch depth n hc hs alpha beta ply verify e.board hw hlo hhi hp0 hpd hn
      l true ⟨alpha, beta, [], e⟩ (-INFIN) hpl hns rfl
      ⟨fun _ => ⟨rfl, rfl⟩, fun h => absurd h (by simp)⟩ (nsinv_init alpha beta hw hlo)
  have hd : ply + 1 + (n : Int) ≤ depth := by
    have : ((depth - (ply + 1)).toNat : Int) = depth - (ply + 1) :=
      Int.toNat_of_nonneg (by omega)
    rw [hn] at this
    omega
  have hrange := maxValue_children_range c depth hc n e.board ply hp0 hd l
  obtain ⟨m, hm, hmk⟩ := hlegal
  have hmv : CHECKMATE ≤ -negamax c n (c.makeMove e.board m) (ply + 1) := by
    rcases negamax_range c depth hc n (c.makeMove e.board m) (ply + 1) (by omega) hd with
      ⟨hk, -⟩ | ⟨-, hv1, hv2⟩
    · rw [hmk] at hk; exact absurd hk (by simp)
    · simp only [CHECKMATE] at hv1 hv2 ⊢
      omega
  have hge : -negamax c n (c.makeMove e.board m) (ply + 1)
      ≤ maxValue (l.map (fun m => -negamax c n (c.makeMove e.board m) (ply + 1))) := by
    unfold maxValue
    exact foldl_max_mem_le _ _ _ (List.mem_map.mpr ⟨m, hm, rfl⟩)
  have hM : CHECKMATE ≤ maxValue (l.map (fun m => -negamax c n (c.makeMove e.board m) (ply + 1)))
      ∧ maxValue (l.map (fun m => -negamax c n (c.makeMove e.board m) (ply + 1)))
          ≤ -CHECKMATE := by
    rcases hrange with h | h
    · rw [h] at hge
      simp only [INFIN, CHECKMATE] at hge hmv
      omega
    · exact h
  have hnv : nodeValue (l.map (fun m => -negamax c n (c.makeMove e.board m) (ply + 1)))
      = maxValue (l.map (fun m => -negamax c n (c.makeMove e.board m) (ply + 1))) := by
    unfold nodeValue
    rw [if_neg]
    intro h
    rw [h] at hM
    simp only [INFIN, CHECKMATE] at hM
    omega
  unfold negaScout
  rw [h1]
  refine ⟨_, rfl, h2, h3, h4, ?_⟩
  rw [hnv]
  exact nsinv_final alpha beta st1.a _ hhi hM h5

theorem soundNS_exact (alpha beta v : Int) (h1 : CHECKMATE ≤ v) (h2 : v ≤ -CHECKMATE) :
    SoundNS alpha beta v v := by
  have h3 : v < INFIN := by
    simp only [INFIN, CHECKMATE] at h2 ⊢
    omega
  exact Or.inr ⟨h1, h2, h3, fun _ => le_refl v, fun _ => le_refl v, fun _ _ => rfl⟩

/-- One level of the recursion for NegaScout, as `searchBody_sound` for AlphaBeta. -/
theorem searchBody_soundNS (c : Collab B TT) (srch : SearchFn B TT) (depth : Int)
    (hc : Regular c depth) (hm : NoMate c) (n : Nat)
    (hs : n ≠ 0 → SoundAtNS c srch depth (n - 1)) :
    SoundAtNS c (searchBody c srch) depth n := by
  intro e pv alpha beta ply nullOk verify hpl hns hw hlo hhi hp0 hpd hn
  have hnI : (n : Int) = depth - ply := by
    rw [← hn]; exact Int.toNat_of_nonneg (by omega)
  rw [searchBody_plain c srch e pv alpha beta ply depth false nullOk verify hpl (hc.time _ _)]
  rcases negamax_range c depth hc n e.board ply hp0 (by omega) with ⟨hk, hv⟩ | ⟨hk, hv1, hv2⟩
  · simp only [hk, if_true]
    exact ⟨_, rfl, plain_nodeEntered e hpl, rfl, rfl, Or.inl ⟨hv, rfl⟩, fun _ => hv.symm⟩
  · simp only [hk, Bool.false_eq_true, if_false]
    cases n with
    | zero =>
      have hge : ply ≥ depth := by simp at hnI; omega
      simp only [hge, if_true]
      have hval : negamax c 0 e.board ply = c.evaluatePosition e.board - ply := by
        simp [negamax_zero, hk]
      refine ⟨_, rfl, plain_nodeEntered e hpl, rfl, rfl, ?_, fun _ => hval.symm⟩
      rw [hval] at hv1 hv2 ⊢
      exact soundNS_exact _ _ _ hv1 hv2
    | succ k =>
      have hlt : ¬ ply ≥ depth := by push_cast at hnI; omega
      simp only [hlt, if_false]
      by_cases hg : c.generateMoves e.board false = []
      · simp only [hg, if_true]
        refine ⟨_, rfl, plain_setUpKillers _ _ (plain_nodeEntered e hpl),
          settings_setUpKillers _ _, board_setUpKillers _ _, ?_, fun h => absurd h (by simp)⟩
        have hval : negamax c (k + 1) e.board ply = CHECKMATE + ply := by
          simp [negamax_succ, hk, hg]
        rw [hval] at hv1 hv2 ⊢
        exact soundNS_exact _ _ _ hv1 hv2
      · simp only [hg, if_false]
        have hsk : SoundAtNS c srch depth k := hs (by simp)
        have hkn : (depth - (ply + 1)).toNat = k := by
          have : depth - (ply + 1) = (k : Int) := by push_cast at hnI; omega
          rw [this]; exact Int.toNat_natCast k
        have hplk := plain_setUpKillers (nodeEntered e) ply (plain_nodeEntered e hpl)
        have hnsk : (setUpKillers (nodeEntered e) ply).searchMethod
            = SearchMethod.SEARCH_NS :=
          (settings_method _ _ (settings_setUpKillers (nodeEntered e) ply)).trans hns
        have hb2 : (setUpKillers (nodeEntered e) ply).board = e.board := by
          rw [board_setUpKillers]; rfl
        obtain ⟨m, hmem, hmk⟩ := hm e.board hk hg
        obtain ⟨r, hr, hrpl, hrset, hrbd, hrs⟩ :=
          negaScout_sound c srch depth k hc hsk (setUpKillers (nodeEntered e) ply) []
            (c.sort (compareMoves c e.board (setUpKillers (nodeEntered e) ply).priorityTable)
              (c.generateMoves e.board false))
            alpha beta ply false false (verify && e.verifyNull) hplk hnsk hw hlo hhi hp0
            (by push_cast at hnI; omega) hkn
            ⟨m, (hc.perm _ _).mem_iff.mpr hmem, by rw [hb2]; exact hmk⟩
        have hdisp : dispatch c srch (setUpKillers (nodeEntered e) ply)
            (c.sort (compareMoves c e.board (setUpKillers (nodeEntered e) ply).priorityTable)
              (c.generateMoves e.board false))
            alpha beta ply depth false false (verify && e.verifyNull) 0 = some r := by
          unfold dispatch
          rw [hnsk]
          exact hr
        rw [searchTail_plain c srch _ pv _ alpha beta ply depth false false _ 0 r hdisp hrpl]
        obtain ⟨hp1, hp2, hp3⟩ :=
          searchPost_plain c r.eng pv r.pv alpha beta ply depth r.value hrpl
        refine ⟨_, rfl, hp1, ?_, ?_, ?_, fun h => absurd h (by simp)⟩
        · rw [searchPost_settings, hrset, settings_setUpKillers]; rfl
        · rw [hp2, hrbd, board_setUpKillers]; rfl
        · rw [hp3]
          have hval : negamax c (k + 1) e.board ply
              = nodeValue ((c.generateMoves e.board false).map
                  (fun m => -negamax c k (c.makeMove e.board m) (ply + 1))) := by
            simp [negamax_succ, hk, hg]
          have hperm : nodeValue ((c.sort (compareMoves c e.board
                (setUpKillers (nodeEntered e) ply).priorityTable)
                (c.generateMoves e.board false)).map
                  (fun m => -negamax c k (c.makeMove e.board m) (ply + 1)))
              = nodeValue ((c.generateMoves e.board false).map
                  (fun m => -negamax c k (c.makeMove e.board m) (ply + 1))) := by
            unfold nodeValue
            rw [maxValue_perm _ _ ((hc.perm _ _).map _)]
          rw [hval, ← hperm]
          rw [hb2] at hrs
          exact hrs

/-- The NegaScout search in the plain configuration returns, with fuel above the remaining
depth, a score that is sound for the negamax value of the node. -/
theorem search_soundNS (c : Collab B TT) (depth : Int) (hc : Regular c depth) (hm : NoMate c) :
    ∀ (n fuel : Nat), n < fuel → SoundAtNS c (search c fuel) depth n := by
  intro n
  induction n with
  | zero =>
    intro fuel hf
    obtain ⟨f, rfl⟩ : ∃ f, fuel = f + 1 := ⟨fuel - 1, by omega⟩
    rw [search_succ]
    exact searchBody_soundNS c _ depth hc hm 0 (fun h => absurd rfl h)
  | succ k ih =>
    intro fuel hf
    obtain ⟨f, rfl⟩ : ∃ f, fuel = f + 1 := ⟨fuel - 1, by omega⟩
    rw [search_succ]
    exact searchBody_soundNS c _ depth hc hm (k + 1) (fun _ => ih f (by omega))

/-! ### C6: AlphaBeta against NegaScout -/

/-- C6 as stated fails, with table, null move and quiescence off.  For the window (100, 200)
at depth 1 no move reaches alpha: AlphaBeta (fail-soft) returns the best score 0, NegaScout
returns alpha = 100.  And with the full window, at depth 3 on the position whose reply has
only moves that allow the king's capture, AlphaBeta returns 2000 (the reply is a mate) and
NegaScout 3000 (it has no mate detection). -/
theorem alphaBeta_negaScout_scores_differ :
    enginePlain.useTable = false ∧ enginePlain.allowNull = false
    ∧ enginePlain.quiesc = false
    ∧ enginePlainNS = { enginePlain with searchMethod := SearchMethod.SEARCH_NS,
                                          useMTDF := false }
    ∧ (search toyBounded 5 enginePlain [] 100 200 0 1 false true true).map (fun r => r.value)
      = some 0
    ∧ (search toyBounded 5 enginePlainNS [] 100 200 0 1 false true true).map (fun r => r.value)
      = some 100
    ∧ (search toyAllIllegal 5 enginePlain [] (-INFIN) INFIN 0 3 false true true).map
        (fun r => r.value) = some 2000
    ∧ (search toyAllIllegal 5 enginePlainNS [] (-INFIN) INFIN 0 3 false true true).map
        (fun r => r.value) = some 3000 := by
  decide!

/-- C6, amended. With the transposition table, the null move and quiescence switched off, no
abort occurring, `unmakeMove` undoing `makeMove`, the sort permuting the moves, every static
evaluation between `CHECKMATE + depth` and `-CHECKMATE`, and no position being a mate by king
capture: for every position, every window with `-INFIN <= alpha < beta <= INFIN`, every ply
and depth with `0 <= ply <= depth`, the search with AlphaBeta and the search with NegaScout
both return (given fuel above `depth - ply`), and: if either score lies strictly inside the
window the two scores are equal; one is at or below alpha iff the other is; one is at or above
beta iff the other is; and for the full window `(-INFIN, INFIN)` the two scores are equal. -/
theorem alphaBeta_negaScout_agree (c : Collab B TT) (fuel : Nat) (e : Engine B TT)
    (pv : List PVEntry) (alpha beta ply depth : Int) (nullOk verify : Bool)
    (hc : Regular c depth) (hm : NoMate c) (hpl : Plain e) (hw : alpha < beta)
    (hlo : -INFIN ≤ alpha) (hhi : beta ≤ INFIN) (hp0 : 0 ≤ ply) (hpd : ply ≤ depth)
    (hf : (depth - ply).toNat < fuel) :
    ∃ rAB rNS : SearchResult B TT,
      search c fuel { e with searchMethod := SearchMethod.SEARCH_AB } pv alpha beta ply depth
          false nullOk verify = some rAB
        ∧ search c fuel { e with searchMethod := SearchMethod.SEARCH_NS } pv alpha beta ply
            depth false nullOk verify = some rNS
        ∧ (alpha < rAB.value → rAB.value < beta → rNS.value = rAB.value)
        ∧ (alpha < rNS.value → rNS.value < beta → rAB.value = rNS.value)
        ∧ (rAB.value ≤ alpha ↔ rNS.value ≤ alpha)
        ∧ (beta ≤ rAB.value ↔ beta ≤ rNS.value)
        ∧ (alpha = -INFIN → beta = INFIN → rAB.value = rNS.value) := by
  obtain ⟨rAB, h1, -, -, -, hs1⟩ :=
    search_sound c depth hc (depth - ply).toNat fuel hf
      { e with searchMethod := SearchMethod.SEARCH_AB } pv alpha beta ply nullOk verify
      ⟨hpl.1, hpl.2, hpl.3, hpl.4⟩ rfl hw hp0 hpd rfl
  obtain ⟨rNS, h2, -, -, -, hs2, -⟩ :=
    search_soundNS c depth hc hm (depth - ply).toNat fuel hf
      { e with searchMethod := SearchMethod.SEARCH_NS } pv alpha beta ply nullOk verify
      ⟨hpl.1, hpl.2, hpl.3, hpl.4⟩ rfl hw hlo hhi hp0 hpd rfl
  refine ⟨rAB, rNS, h1, h2, ?_⟩
  have hb : ({ e with searchMethod := SearchMethod.SEARCH_NS } : Engine B TT).board
      = ({ e with searchMethod := SearchMethod.SEARCH_AB } : Engine B TT).board := rfl
  rw [hb] at hs2
  generalize negamax c (depth - ply).toNat
    ({ e with searchMethod := SearchMethod.SEARCH_AB } : Engine B TT).board ply = v at hs1 hs2
  unfold Sound at hs1
  unfold SoundNS at hs2
  simp only [INFIN, CHECKMATE] at hs1 hs2 hlo hhi ⊢
  refine ⟨fun _ _ => by omega, fun _ _ => by omega, ⟨fun _ => by omega, fun _ => by omega⟩,
    ⟨fun _ => by omega, fun _ => by omega⟩, fun _ _ => by omega⟩

theorem toyBounded_noMate : NoMate toyBounded := by
  intro b _ _
  exact ⟨⟨1, 2⟩, by simp [toyBounded, toy], rfl⟩

/-- C6 amended, on a concrete input: on the bounded instance in the plain configuration, the
full-window searches of depth 3 with AlphaBeta and with NegaScout return the same score. -/
theorem alphaBeta_negaScout_agree_witness :
    ∃ rAB rNS : SearchResult Pos Table,
      search toyBounded 4 { enginePlain with searchMethod := SearchMethod.SEARCH_AB } []
          (-INFIN) INFIN 0 3 false true true = some rAB
        ∧ search toyBounded 4 { enginePlain with searchMethod := SearchMethod.SEARCH_NS } []
            (-INFIN) INFIN 0 3 false true true = some rNS
        ∧ rAB.value = rNS.value := by
  obtain ⟨rAB, rNS, h1, h2, -, -, -, -, h7⟩ :=
    alphaBeta_negaScout_agree toyBounded 4 enginePlain [] (-INFIN) INFIN 0 3 true true
      (toyBounded_regular 3 (by decide)) toyBounded_noMate enginePlain_plain (by decide)
      (le_refl _) (le_refl _) (le_refl _) (by decide) (by decide)
  exact ⟨rAB, rNS, h1, h2, h7 rfl rfl⟩

/-! ### C11: quiescence in a position without captures -/

theorem tableSearch_eng_eq (c : Collab B TT) (e : Engine B TT) (ply depth alpha beta : Int)
    (m : Move) (score : Int) (nullok : Bool) :
    ∃ pt : List Move,
      (tableSearch c e ply depth alpha beta m score nullok).eng
        = { e with priorityTable := pt } := by
  unfold tableSearch
  split
  · exact ⟨_, rfl⟩
  · dsimp only
    split <;> exact ⟨_, rfl⟩

theorem quiescenceProbe_eng_eq (c : Collab B TT) (e : Engine B TT)
    (ply depth alpha beta : Int) (nullOk : Bool) :
    ∃ pt : List Move,
      (quiescenceProbe c e ply depth alpha beta nullOk).eng
        = { e with priorityTable := pt } := by
  unfold quiescenceProbe
  split
  · exact tableSearch_eng_eq _ _ _ _ _ _ _ _ _
  · exact ⟨_, rfl⟩

theorem tableWindow_nullok (adjust : Bool) (flag : Flag) (score1 alpha beta : Int) :
    (tableWindow adjust flag score1 alpha beta false).2.2 = false := by
  unfold tableWindow
  split
  · split
    · split <;> rfl
    · split <;> rfl
    · rfl
  · rfl

theorem tableSearch_nullok (c : Collab B TT) (e : Engine B TT) (ply depth alpha beta : Int)
    (m : Move) (score : Int) :
    (tableSearch c e ply depth alpha beta m score false).nullok = false := by
  unfold tableSearch
  split
  · rfl
  · dsimp only
    split
    · exact tableWindow_nullok _ _ _ _ _
    · rfl

theorem quiescenceProbe_board (c : Collab B TT) (e : Engine B TT) (ply depth alpha beta : Int)
    (nullOk : Bool) :
    (quiescenceProbe c e ply depth alpha beta nullOk).eng.board = e.board := by
  obtain ⟨pt, hpt⟩ := quiescenceProbe_eng_eq c e ply depth alpha beta nullOk
  rw [hpt]

theorem quiescenceProbe_nullok (c : Collab B TT) (e : Engine B TT)
    (ply depth alpha beta : Int) :
    (quiescenceProbe c e ply depth alpha beta false).nullok = false := by
  unfold quiescenceProbe
  split
  · exact tableSearch_nullok _ _ _ _ _ _ _ _
  · rfl

theorem quiescenceProbe_qnull (c : Collab B TT) (e : Engine B TT) (ply depth alpha beta : Int)
    (nullOk : Bool) :
    (quiescenceProbe c e ply depth alpha beta nullOk).eng.qnull = e.qnull := by
  have h := settings_quiescenceProbe c e ply depth alpha beta nullOk
  simp only [Engine.settings, Prod.mk.injEq] at h
  exact h.2.2.2.2.2.2.2.2.1

/-- C11 as stated fails when the side to move is in check: `filterOutNonCaptures` then keeps
every move.  In the starting position of `toyInCheck` the only generated move 2-0 is quiet and
the static evaluation is 0, but `quiescence` searches the move (it returns no result when the
recursive search is not allowed a single call) and returns -10. -/
theorem quiescence_in_check_searches_quiet_moves :
    toyInCheck.generateMoves engineQuiescence.board false = [⟨2, 0⟩]
      ∧ toyInCheck.pieceAt engineQuiescence.board 0 = toyInCheck.EMPTY
      ∧ toyInCheck.evaluatePosition engineQuiescence.board = 0
      ∧ (quiescence toyInCheck (search toyInCheck 0) engineQuiescence (-INFIN) INFIN 0 0
          true).map (fun r => r.1) = none
      ∧ (quiescence toyInCheck (search toyInCheck 1) engineQuiescence (-INFIN) INFIN 0 0
          true).map (fun r => (r.1, r.2.nodeCount)) = some (-10, 1) := by
  decide!

/-- C11, amended. In a position that reaches the move generation of `quiescence` (the timer
has time left, the king of the side not to move cannot be captured, the table probe gives no
cutoff, and the null-move probe is off), in which the side to move is not in check and the
generated moves are not empty and none of them is a capture, `quiescence` returns the static
evaluation of the position, whatever the search function for the recursive calls is - also
the one that never returns, so no recursive call is made; the board, the node counter and the
transposition table are left as they were.  With no generated move at all it returns
`CHECKMATE` in the same way. -/
theorem quiescence_quiet_position (c : Collab B TT) (srch : SearchFn B TT) (e : Engine B TT)
    (alpha beta ply depth : Int) (nullOk : Bool)
    (hsort : ∀ (lt : Move → Move → Bool) (l : List Move) (m : Move), m ∈ c.sort lt l → m ∈ l)
    (htime : c.haveTimeLeftForMove e.myTimer e.clock = true)
    (hking : c.inCheck e.board (sideNotToMove c e.board) = false)
    (hprobe : (quiescenceProbe c (timerPolled e) ply depth alpha beta nullOk).cut = false)
    (hnull : e.qnull = false ∨ nullOk = false)
    (hcheck : c.inCheckMover e.board = false)
    (hquiet : ∀ m ∈ c.generateMoves e.board false, c.pieceAt e.board m.destination = c.EMPTY) :
    ∃ e1 : Engine B TT,
      quiescence c srch e alpha beta ply depth nullOk
          = some (if c.generateMoves e.board false = [] then CHECKMATE
                  else c.evaluatePosition e.board, e1)
        ∧ quiescence c (fun _ _ _ _ _ _ _ _ _ => none) e alpha beta ply depth nullOk
          = quiescence c srch e alpha beta ply depth nullOk
        ∧ e1.board = e.board ∧ e1.nodeCount = e.nodeCount
        ∧ e1.transposTable = e.transposTable := by
  have hb : (quiescenceProbe c (timerPolled e) ply depth alpha beta nullOk).eng.board
      = e.board := (quiescenceProbe_board _ _ _ _ _ _ _).trans rfl
  have hq : ((quiescenceProbe c (timerPolled e) ply depth alpha beta nullOk).nullok
      && (quiescenceProbe c (timerPolled e) ply depth alpha beta nullOk).eng.qnull) = false := by
    rcases hnull with h | h
    · rw [quiescenceProbe_qnull]
      show (_ && e.qnull) = false
      rw [h, Bool.and_false]
    · rw [h, quiescenceProbe_nullok, Bool.false_and]
  have hfilter : ∀ lt : Move → Move → Bool,
      filterOutNonCaptures c
        (setUpKillers (quiescenceProbe c (timerPolled e) ply depth alpha beta nullOk).eng ply)
        (c.sort lt (c.generateMoves e.board false)) = [] := by
    intro lt
    unfold filterOutNonCaptures
    rw [board_setUpKillers, hb, hcheck]
    simp only [Bool.false_eq_true, if_false]
    cases hs : c.sort lt (c.generateMoves e.board false) with
    | nil => rfl
    | cons x r =>
      have hx : x ∈ c.generateMoves e.board false :=
        hsort lt _ x (by rw [hs]; exact List.mem_cons_self x r)
      simp [List.takeWhile, hquiet x hx]
  have hrest : ∀ s : SearchFn B TT,
      quiescence c s e alpha beta ply depth nullOk
        = some (if c.generateMoves e.board false = [] then CHECKMATE
                else c.evaluatePosition e.board,
                if c.generateMoves e.board false = [] then
                  (quiescenceProbe c (timerPolled e) ply depth alpha beta nullOk).eng
                else setUpKillers
                  (quiescenceProbe c (timerPolled e) ply depth alpha beta nullOk).eng ply) := by
    intro s
    unfold quiescence
    rw [htime]
    simp only [Bool.not_true, Bool.false_eq_true, if_false]
    rw [if_neg (by
      show ¬ c.inCheck e.board (sideNotToMove c e.board) = true
      rw [hking]; exact Bool.false_ne_true)]
    rw [hprobe]
    simp only [Bool.false_eq_true, if_false]
    unfold quiescenceNull
    rw [hq]
    simp only [Bool.false_eq_true, if_false]
    unfold quiescenceMoves
    rw [hb, board_setUpKillers, hb]
    by_cases hg : c.generateMoves e.board false = []
    · rw [if_pos hg, if_pos hg, if_pos hg]
    · rw [if_neg hg, if_neg hg, if_neg hg, if_pos (hfilter _)]
  refine ⟨_, hrest srch, (hrest _).trans (hrest srch).symm, ?_, ?_, ?_⟩
  · split
    · exact hb
    · rw [board_setUpKillers]; exact hb
  · obtain ⟨pt, hpt⟩ := quiescenceProbe_eng_eq c (timerPolled e) ply depth alpha beta nullOk
    obtain ⟨pt2, hpt2⟩ := setUpKillers_eq
      (quiescenceProbe c (timerPolled e) ply depth alpha beta nullOk).eng ply
    split
    · rw [hpt]; rfl
    · rw [hpt2, hpt]; rfl
  · obtain ⟨pt, hpt⟩ := quiescenceProbe_eng_eq c (timerPolled e) ply depth alpha beta nullOk
    obtain ⟨pt2, hpt2⟩ := setUpKillers_eq
      (quiescenceProbe c (timerPolled e) ply depth alpha beta nullOk).eng ply
    split
    · rw [hpt]; rfl
    · rw [hpt2, hpt]; rfl

/-- C11 amended, on a concrete input: in the position after the move 2-0 of `toyInCheck` the
side to move is not in check and the only move is quiet; `quiescence` returns the static
evaluation 10 without a call of the search. -/
theorem quiescence_quiet_position_witness :
    ∃ e1 : Engine Pos Table,
      quiescence toyInCheck (search toyInCheck 0) { engineQuiescence with board := [⟨2, 0⟩] }
          (-INFIN) INFIN 1 0 true = some (10, e1)
        ∧ e1.nodeCount = 0 := by
  obtain ⟨e1, h1, -, -, h2, -⟩ := quiescence_quiet_position toyInCheck (search toyInCheck 0)
    { engineQuiescence with board := [⟨2, 0⟩] } (-INFIN) INFIN 1 0 true
    (fun lt l m h => ((insertionSort_perm lt l).mem_iff).mp h)
    (by decide) (by decide) (by decide) (Or.inl (by decide)) (by decide) (by decide)
  exact ⟨e1, h1, h2⟩

/-! ### C12: what filterOutNonCaptures keeps of a sorted list -/

/-- C12, the code at the failing inputs.  (1) The comparator puts king moves last, so the
sorted list of the capture 1x5 by the king and the quiet move 3-0 starts with the quiet move,
and `filterOutNonCaptures`, which stops at the first quiet move, returns the empty list
although the input has the capture 1x5.  (2) The comparator puts priority-table moves first:
with the quiet killer 3-0 in the table, the capture 2x5 is dropped in the same way.
(3) In `quiescence` the position with the moves 1x5 and 3-0 is therefore scored by its static
evaluation 0 without any search of the capture (one call of `search` is enough).  (4) When the
side to move is in check the list is returned as it is. -/
theorem filterOutNonCaptures_drops_captures_after_quiet_move :
    (toyKingCapture.sort (compareMoves toyKingCapture [] []) [⟨1, 5⟩, ⟨3, 0⟩]
          = [⟨3, 0⟩, ⟨1, 5⟩]
        ∧ filterOutNonCaptures toyKingCapture engine0
            (toyKingCapture.sort (compareMoves toyKingCapture [] []) [⟨1, 5⟩, ⟨3, 0⟩]) = []
        ∧ [(⟨1, 5⟩ : Move), ⟨3, 0⟩].filter
            (fun m => decide (toyKingCapture.pieceAt [] m.destination ≠ toyKingCapture.EMPTY))
          = [⟨1, 5⟩])
      ∧ (toyPlain.sort (compareMoves toyPlain [] [⟨3, 0⟩]) [⟨2, 5⟩, ⟨3, 0⟩]
          = [⟨3, 0⟩, ⟨2, 5⟩]
        ∧ filterOutNonCaptures toyPlain engine0
            (toyPlain.sort (compareMoves toyPlain [] [⟨3, 0⟩]) [⟨2, 5⟩, ⟨3, 0⟩]) = [])
      ∧ (search toyKingCapture 1 engineQuiescence [] (-INFIN) INFIN 0 0 false true true).map
          (fun r => (r.value, r.eng.nodeCount)) = some (0, 1)
      ∧ filterOutNonCaptures toyInCheck engine0 [⟨3, 0⟩, ⟨1, 5⟩] = [⟨3, 0⟩, ⟨1, 5⟩] := by
  decide!

/-! ### The index loop of compareMoves -/

theorem priorityIndex_nil (m : Move) : priorityIndex [] m = -1 := rfl

theorem priorityIndex_append (l : List Move) (x m : Move) :
    priorityIndex (l ++ [x]) m = if x = m then (l.length : Int) else priorityIndex l m := by
  unfold priorityIndex
  rw [List.enum, List.enumFrom_append, List.foldl_append]
  simp [List.enumFrom]

theorem priorityIndex_not_mem (l : List Move) (m : Move) (h : m ∉ l) :
    priorityIndex l m = -1 := by
  induction l using List.reverseRecOn with
  | nil => rfl
  | append_singleton l x ih =>
    rw [priorityIndex_append]
    simp only [List.mem_append, List.mem_singleton, not_or] at h
    rw [if_neg (fun hx => h.2 hx.symm)]
    exact ih h.1

theorem priorityIndex_mem (l : List Move) (m : Move) (h : m ∈ l) :
    0 ≤ priorityIndex l m ∧ priorityIndex l m < l.length := by
  induction l using List.reverseRecOn with
  | nil => simp at h
  | append_singleton l x ih =>
    rw [priorityIndex_append]
    by_cases hx : x = m
    · rw [if_pos hx]
      simp
    · rw [if_neg hx]
      simp only [List.mem_append, List.mem_singleton] at h
      have h1 : m ∈ l := by
        rcases h with h | h
        · exact h
        · exact absurd h.symm hx
      have := ih h1
      simp only [List.length_append, List.length_singleton, Nat.cast_add, Nat.cast_one]
      omega

theorem priorityIndex_eq_neg_one_iff (l : List Move) (m : Move) :
    priorityIndex l m = -1 ↔ m ∉ l := by
  constructor
  · intro h hm
    have := priorityIndex_mem l m hm
    omega
  · exact priorityIndex_not_mem l m

/-- In a priority table without repetition the index found for the move at position `i` is
`i`. -/
theorem priorityIndex_nodup (l : List Move) (hn : l.Nodup) (i : Nat) (hi : i < l.length) :
    priorityIndex l (l.get ⟨i, hi⟩) = i := by
  induction l using List.reverseRecOn generalizing i with
  | nil => simp at hi
  | append_singleton l x ih =>
    rw [priorityIndex_append]
    have hn1 : l.Nodup ∧ x ∉ l := by
      rw [List.nodup_append] at hn
      refine ⟨hn.1, fun hx => ?_⟩
      exact hn.2.2 hx (List.mem_singleton_self x)
    simp only [List.length_append, List.length_singleton] at hi
    by_cases hil : i < l.length
    · have hget : (l ++ [x]).get ⟨i, by simp; omega⟩ = l.get ⟨i, hil⟩ := by
        simp [List.getElem_append_left hil]
      rw [hget]
      have hne : x ≠ l.get ⟨i, hil⟩ := fun hx => hn1.2 (hx ▸ List.get_mem l i hil)
      rw [if_neg hne]
      exact ih hn1.1 i hil
    · have hie : i = l.length := by omega
      subst hie
      have hget : (l ++ [x]).get ⟨l.length, by simp⟩ = x := by simp
      rw [hget, if_pos rfl]

/-- The index found for a move is the position of its last occurrence in the priority
table. -/
theorem priorityIndex_last (l : List Move) (m : Move) (i : Nat) (hi : i < l.length)
    (hm : l.get ⟨i, hi⟩ = m)
    (hlast : ∀ (j : Nat) (hj : j < l.length), i < j → l.get ⟨j, hj⟩ ≠ m) :
    priorityIndex l m = i := by
  induction l using List.reverseRecOn generalizing i with
  | nil => simp at hi
  | append_singleton l x ih =>
    rw [priorityIndex_append]
    simp only [List.length_append, List.length_singleton] at hi
    by_cases hil : i < l.length
    · have hx : x ≠ m := by
        have := hlast l.length (by simp) hil
        simpa using this
      rw [if_neg hx]
      refine ih i hil ?_ ?_
      · rw [← hm]; simp [List.getElem_append_left hil]
      · intro j hj hij
        have := hlast j (by simp; omega) hij
        simpa [List.getElem_append_left hj] using this
    · have hie : i = l.length := by omega
      subst hie
      have hx : x = m := by rw [← hm]; simp
      rw [if_pos hx]

/-! ### C13: compareMoves as a strict order -/

/-- C13 as stated fails for a piece-value function that gives an occupied square the value of
an empty one.  With the king valued 0 like the empty square, the capture 2x1 and the quiet
move 3-0 have equal victim values and different attacker values, and each compares before
the other. -/
theorem compareMoves_both_before :
    toyKingWorthless.pieceValue 1 = toyKingWorthless.pieceValue toyKingWorthless.EMPTY
      ∧ compareMoves toyKingWorthless [] [] ⟨2, 1⟩ ⟨3, 0⟩ = true
      ∧ compareMoves toyKingWorthless [] [] ⟨3, 0⟩ ⟨2, 1⟩ = true := by
  decide

/-- C13, amended. When no piece other than `EMPTY` has the piece value of `EMPTY`, for every
board, priority table and moves `m1`, `m2`, `compareMoves m1 m2` and `compareMoves m2 m1` are
never both true; and `compareMoves m1 m1` is false (for every piece-value function). -/
theorem compareMoves_strict (c : Collab B TT) (board : B) (priorityTable : List Move)
    (m1 m2 : Move)
    (hval : ∀ p : Piece, p ≠ c.EMPTY → c.pieceValue p ≠ c.pieceValue c.EMPTY) :
    compareMoves c board priorityTable m1 m1 = false
      ∧ ¬ (compareMoves c board priorityTable m1 m2 = true
            ∧ compareMoves c board priorityTable m2 m1 = true) := by
  constructor
  · simp [compareMoves]
  · intro h
    obtain ⟨h1, h2⟩ := h
    have hd1 := hval (c.pieceAt board m1.destination)
    have hd2 := hval (c.pieceAt board m2.destination)
    have he1 : c.pieceAt board m1.destination = c.EMPTY →
        c.pieceValue (c.pieceAt board m1.destination) = c.pieceValue c.EMPTY :=
      fun h => by rw [h]
    have he2 : c.pieceAt board m2.destination = c.EMPTY →
        c.pieceValue (c.pieceAt board m2.destination) = c.pieceValue c.EMPTY :=
      fun h => by rw [h]
    simp only [compareMoves] at h1 h2
    generalize priorityIndex priorityTable m1 = i1 at h1 h2
    generalize priorityIndex priorityTable m2 = i2 at h1 h2
    generalize c.pieceValue (c.pieceAt board m1.destination) = v1 at h1 h2 hd1 he1
    generalize c.pieceValue (c.pieceAt board m2.destination) = v2 at h1 h2 hd2 he2
    generalize c.pieceValue (c.pieceAt board m1.origin) = a1 at h1 h2
    generalize c.pieceValue (c.pieceAt board m2.origin) = a2 at h1 h2
    generalize c.pieceValue c.EMPTY = vE at hd1 hd2 he1 he2
    generalize c.pieceAt board m1.destination = d1 at h1 h2 hd1 he1
    generalize c.pieceAt board m2.destination = d2 at h1 h2 hd2 he2
    generalize c.pieceAt board m1.origin = o1 at h1 h2
    generalize c.pieceAt board m2.origin = o2 at h1 h2
    generalize c.EMPTY = pE at h1 h2 hd1 hd2 he1 he2
    generalize c.JIANG = pJ at h1 h2
    by_cases c1 : i1 = -1 ∧ i2 ≠ -1
    · rw [if_pos c1] at h1; exact absurd h1 Bool.false_ne_true
    rw [if_neg c1] at h1
    by_cases c2 : i2 = -1 ∧ i1 ≠ -1
    · rw [if_pos c2] at h2; exact absurd h2 Bool.false_ne_true
    rw [if_neg c2] at h1 h2
    rw [if_neg c1] at h2
    by_cases c3 : i1 < i2
    · rw [if_neg (by omega : ¬ i2 < i1), if_pos c3] at h2; exact absurd h2 Bool.false_ne_true
    rw [if_neg c3] at h1
    by_cases c4 : i2 < i1
    · rw [if_pos c4] at h1; exact absurd h1 Bool.false_ne_true
    rw [if_neg c4] at h1 h2
    rw [if_neg c3] at h2
    by_cases c5 : o1 = pJ ∧ o2 ≠ pJ
    · rw [if_pos c5] at h1; exact absurd h1 Bool.false_ne_true
    rw [if_neg c5] at h1
    by_cases c6 : o2 = pJ ∧ o1 ≠ pJ
    · rw [if_pos c6] at h2; exact absurd h2 Bool.false_ne_true
    rw [if_neg c6] at h1 h2
    rw [if_neg c5] at h2
    by_cases c7 : v1 < v2
    · rw [if_pos c7] at h1; exact absurd h1 Bool.false_ne_true
    rw [if_neg c7] at h1
    by_cases c8 : v2 < v1
    · rw [if_pos c8] at h2; exact absurd h2 Bool.false_ne_true
    rw [if_neg c8] at h2
    rw [if_neg (by omega : ¬ v1 > v2)] at h1
    rw [if_neg (by omega : ¬ v2 > v1)] at h2
    by_cases c9 : a1 = a2
    · rw [if_pos c9] at h1; exact absurd h1 Bool.false_ne_true
    rw [if_neg c9] at h1
    rw [if_neg (fun h => c9 h.symm)] at h2
    have hv : v1 = v2 := by omega
    by_cases c10 : a1 < a2
    · rw [if_pos c10] at h1
      rw [if_neg (by omega : ¬ a2 < a1)] at h2
      by_cases e1 : d1 = pE
      · rw [if_pos e1] at h1; exact absurd h1 Bool.false_ne_true
      by_cases e2 : d2 = pE
      · have := hd1 e1
        have := he2 e2
        omega
      · rw [if_neg e2] at h2; exact absurd h2 Bool.false_ne_true
    · rw [if_neg c10] at h1
      rw [if_pos (by omega : a2 < a1)] at h2
      by_cases e2 : d2 = pE
      · rw [if_pos e2] at h2; exact absurd h2 Bool.false_ne_true
      by_cases e1 : d1 = pE
      · have := hd2 e2
        have := he1 e1
        omega
      · rw [if_neg e1] at h1; exact absurd h1 Bool.false_ne_true

/-- C13 amended, on a concrete input: with piece values that tell every piece from the empty
square, the capture 2x5 compares before the quiet move 3-0 and not the other way round. -/
theorem compareMoves_strict_witness :
    compareMoves toyPlain [] [] ⟨2, 5⟩ ⟨2, 5⟩ = false
      ∧ ¬ (compareMoves toyPlain [] [] ⟨2, 5⟩ ⟨3, 0⟩ = true
            ∧ compareMoves toyPlain [] [] ⟨3, 0⟩ ⟨2, 5⟩ = true) :=
  compareMoves_strict toyPlain [] [] ⟨2, 5⟩ ⟨3, 0⟩ (fun p hp => by
    show p ≠ 0
    exact hp)

/-! ### C14: priority-table moves come first -/

/-- C14 as stated fails for a priority table in which a move occurs twice: the index loop
keeps the last occurrence.  With the hash move 5-6 also in the second killer slot, the table
is 5-6, 7-8, 5-6; the first killer 7-8 (index 1) compares before the hash move 5-6
(index 0). -/
theorem compareMoves_repeated_hash_move_after_killer :
    priorityIndex [⟨5, 6⟩, ⟨7, 8⟩, ⟨5, 6⟩] ⟨5, 6⟩ = 2
      ∧ compareMoves toyPlain [] [⟨5, 6⟩, ⟨7, 8⟩, ⟨5, 6⟩] ⟨7, 8⟩ ⟨5, 6⟩ = true
      ∧ compareMoves toyPlain [] [⟨5, 6⟩, ⟨7, 8⟩, ⟨5, 6⟩] ⟨5, 6⟩ ⟨7, 8⟩ = false := by
  decide

/-- C14, amended. For every board and priority table, whatever the pieces and their values:
a move that occurs in the priority table compares before every move that does not (and not
the other way round); of two moves that both occur in it, the one whose last occurrence has
the smaller index compares before the other; so in a priority table without repeated moves
the move at the smaller index compares before the move at the larger one. -/
theorem compareMoves_priority_first (c : Collab B TT) (board : B) (priorityTable : List Move)
    (m1 m2 : Move) (h1 : m1 ∈ priorityTable) :
    (m2 ∉ priorityTable →
        compareMoves c board priorityTable m1 m2 = true
          ∧ compareMoves c board priorityTable m2 m1 = false)
      ∧ (∀ (i j : Nat) (hi : i < priorityTable.length) (hj : j < priorityTable.length),
          priorityTable.get ⟨i, hi⟩ = m1 → priorityTable.get ⟨j, hj⟩ = m2 → i < j →
          (∀ (k : Nat) (hk : k < priorityTable.length), i < k →
            priorityTable.get ⟨k, hk⟩ ≠ m1) →
          (∀ (k : Nat) (hk : k < priorityTable.length), j < k →
            priorityTable.get ⟨k, hk⟩ ≠ m2) →
          compareMoves c board priorityTable m1 m2 = true
            ∧ compareMoves c board priorityTable m2 m1 = false)
      ∧ (priorityTable.Nodup →
          ∀ (i j : Nat) (hi : i < priorityTable.length) (hj : j < priorityTable.length),
          priorityTable.get ⟨i, hi⟩ = m1 → priorityTable.get ⟨j, hj⟩ = m2 → i < j →
          compareMoves c board priorityTable m1 m2 = true
            ∧ compareMoves c board priorityTable m2 m1 = false) := by
  have key : ∀ a b : Move, priorityIndex priorityTable a ≠ -1 →
      (priorityIndex priorityTable b = -1
        ∨ priorityIndex priorityTable a < priorityIndex priorityTable b) →
      compareMoves c board priorityTable a b = true
        ∧ compareMoves c board priorityTable b a = false := by
    intro a b ha hb
    simp only [compareMoves]
    generalize priorityIndex priorityTable a = ia at ha hb
    generalize priorityIndex priorityTable b = ib at hb
    constructor
    · rw [if_neg (by omega : ¬ (ia = -1 ∧ ib ≠ -1))]
      by_cases hb1 : ib = -1
      · rw [if_pos ⟨hb1, ha⟩]
      · rw [if_neg (by omega : ¬ (ib = -1 ∧ ia ≠ -1)), if_pos (by omega : ia < ib)]
    · by_cases hb1 : ib = -1
      · rw [if_pos ⟨hb1, ha⟩]
      · rw [if_neg (by omega : ¬ (ib = -1 ∧ ia ≠ -1)),
          if_neg (by omega : ¬ (ia = -1 ∧ ib ≠ -1)), if_neg (by omega : ¬ ib < ia),
          if_pos (by omega : ia < ib)]
  have hm1 : priorityIndex priorityTable m1 ≠ -1 := by
    have := priorityIndex_mem priorityTable m1 h1
    omega
  refine ⟨fun h2 => key m1 m2 hm1 (Or.inl (priorityIndex_not_mem _ _ h2)), ?_, ?_⟩
  · intro i j hi hj hmi hmj hij hli hlj
    refine key m1 m2 hm1 (Or.inr ?_)
    rw [priorityIndex_last _ _ i hi hmi hli, priorityIndex_last _ _ j hj hmj hlj]
    exact_mod_cast hij
  · intro hn i j hi hj hmi hmj hij
    refine key m1 m2 hm1 (Or.inr ?_)
    rw [← hmi, ← hmj, priorityIndex_nodup _ hn i hi, priorityIndex_nodup _ hn j hj]
    exact_mod_cast hij

/-- C14 amended, on a concrete input: with the table 5-6, 7-8 the hash move 5-6 compares
before the killer 7-8 and before the capture 2x9 of a more valuable piece, which is not in the
table. -/
theorem compareMoves_priority_first_witness :
    (compareMoves toyPlain [] [⟨5, 6⟩, ⟨7, 8⟩] ⟨5, 6⟩ ⟨2, 9⟩ = true
        ∧ compareMoves toyPlain [] [⟨5, 6⟩, ⟨7, 8⟩] ⟨2, 9⟩ ⟨5, 6⟩ = false)
      ∧ (compareMoves toyPlain [] [⟨5, 6⟩, ⟨7, 8⟩] ⟨5, 6⟩ ⟨7, 8⟩ = true
        ∧ compareMoves toyPlain [] [⟨5, 6⟩, ⟨7, 8⟩] ⟨7, 8⟩ ⟨5, 6⟩ = false) :=
  ⟨(compareMoves_priority_first toyPlain [] [⟨5, 6⟩, ⟨7, 8⟩] ⟨5, 6⟩ ⟨2, 9⟩ (by decide)).1
      (by decide),
    (compareMoves_priority_first toyPlain [] [⟨5, 6⟩, ⟨7, 8⟩] ⟨5, 6⟩ ⟨7, 8⟩ (by decide)).2.2
      (by decide) 0 1 (by decide) (by decide) rfl rfl (by decide)⟩

/-! ### C15: MVV-LVA outside the priority table -/

/-- Outside the priority table the comparator is the cascade of lines 94-114. -/
theorem compareMoves_outside (c : Collab B TT) (board : B) (priorityTable : List Move)
    (m1 m2 : Move) (h1 : m1 ∉ priorityTable) (h2 : m2 ∉ priorityTable) :
    compareMoves c board priorityTable m1 m2
      = (if c.pieceAt board m1.origin = c.JIANG ∧ c.pieceAt board m2.origin ≠ c.JIANG then false
        else if c.pieceAt board m2.origin = c.JIANG ∧ c.pieceAt board m1.origin ≠ c.JIANG
          then true
        else if c.pieceValue (c.pieceAt board m1.destination)
            < c.pieceValue (c.pieceAt board m2.destination) then false
        else if c.pieceValue (c.pieceAt board m1.destination)
            > c.pieceValue (c.pieceAt board m2.destination) then true
        else if c.pieceValue (c.pieceAt board m1.origin)
            = c.pieceValue (c.pieceAt board m2.origin) then false
        else if c.pieceValue (c.pieceAt board m1.origin)
            < c.pieceValue (c.pieceAt board m2.origin) then
          (if c.pieceAt board m1.destination = c.EMPTY then false else true)
        else
          (if c.pieceAt board m1.destination = c.EMPTY then true else false)) := by
  have hi1 := priorityIndex_not_mem _ _ h1
  have hi2 := priorityIndex_not_mem _ _ h2
  have n1 : ¬ ((-1 : Int) = -1 ∧ (-1 : Int) ≠ -1) := by omega
  have n2 : ¬ ((-1 : Int) < -1) := by omega
  rw [compareMoves]
  rw [hi1, hi2, if_neg n1, if_neg n1, if_neg n2, if_neg n2]

/-- C15. For two moves outside the priority table: if neither or both are king moves, the
move with the higher victim value compares before the other, and of two captures with equal
victim value the one with the lower attacker value compares before the other; and a king move
compares after every non-king move. -/
theorem compareMoves_mvv_lva (c : Collab B TT) (board : B) (priorityTable : List Move)
    (m1 m2 : Move) (h1 : m1 ∉ priorityTable) (h2 : m2 ∉ priorityTable) :
    ((c.pieceAt board m1.origin = c.JIANG ↔ c.pieceAt board m2.origin = c.JIANG) →
        (c.pieceValue (c.pieceAt board m1.destination)
            > c.pieceValue (c.pieceAt board m2.destination) →
          compareMoves c board priorityTable m1 m2 = true
            ∧ compareMoves c board priorityTable m2 m1 = false)
        ∧ (c.pieceAt board m1.destination ≠ c.EMPTY →
          c.pieceAt board m2.destination ≠ c.EMPTY →
          c.pieceValue (c.pieceAt board m1.destination)
            = c.pieceValue (c.pieceAt board m2.destination) →
          c.pieceValue (c.pieceAt board m1.origin)
            < c.pieceValue (c.pieceAt board m2.origin) →
          compareMoves c board priorityTable m1 m2 = true
            ∧ compareMoves c board priorityTable m2 m1 = false))
      ∧ (c.pieceAt board m1.origin = c.JIANG → c.pieceAt board m2.origin ≠ c.JIANG →
          compareMoves c board priorityTable m2 m1 = true
            ∧ compareMoves c board priorityTable m1 m2 = false) := by
  rw [compareMoves_outside c board priorityTable m1 m2 h1 h2,
    compareMoves_outside c board priorityTable m2 m1 h2 h1]
  generalize c.pieceValue (c.pieceAt board m1.destination) = v1
  generalize c.pieceValue (c.pieceAt board m2.destination) = v2
  generalize c.pieceValue (c.pieceAt board m1.origin) = a1
  generalize c.pieceValue (c.pieceAt board m2.origin) = a2
  generalize c.pieceAt board m1.destination = d1
  generalize c.pieceAt board m2.destination = d2
  generalize c.pieceAt board m1.origin = o1
  generalize c.pieceAt board m2.origin = o2
  generalize c.EMPTY = pE
  generalize c.JIANG = pJ
  refine ⟨fun hk => ⟨fun hv => ⟨?_, ?_⟩, fun hd1 hd2 hv ha => ⟨?_, ?_⟩⟩,
    fun hk1 hk2 => ⟨?_, ?_⟩⟩
  · rw [if_neg (fun h => h.2 (hk.mp h.1)), if_neg (fun h => h.2 (hk.mpr h.1)),
      if_neg (by omega : ¬ v1 < v2), if_pos hv]
  · rw [if_neg (fun h => h.2 (hk.mpr h.1)), if_neg (fun h => h.2 (hk.mp h.1)),
      if_pos (by omega : v2 < v1)]
  · rw [if_neg (fun h => h.2 (hk.mp h.1)), if_neg (fun h => h.2 (hk.mpr h.1)),
      if_neg (by omega : ¬ v1 < v2), if_neg (by omega : ¬ v1 > v2),
      if_neg (by omega : ¬ a1 = a2), if_pos ha, if_neg hd1]
  · rw [if_neg (fun h => h.2 (hk.mpr h.1)), if_neg (fun h => h.2 (hk.mp h.1)),
      if_neg (by omega : ¬ v2 < v1), if_neg (by omega : ¬ v2 > v1),
      if_neg (by omega : ¬ a2 = a1), if_neg (by omega : ¬ a2 < a1), if_neg hd2]
  · rw [if_neg (fun h => hk2 h.1), if_pos ⟨hk1, hk2⟩]
  · rw [if_pos ⟨hk1, hk2⟩]

/-- C15 on a concrete input (pieces are named by their squares, the king is piece 1, and a
piece is worth its number): 2x9 compares before 3x5 (higher victim), 2x5 before 3x5 (equal
victim, lower attacker), and the king move 1x9 after the quiet move 3-0. -/
theorem compareMoves_mvv_lva_witness :
    (compareMoves toyPlain [] [] ⟨2, 9⟩ ⟨3, 5⟩ = true
        ∧ compareMoves toyPlain [] [] ⟨3, 5⟩ ⟨2, 9⟩ = false)
      ∧ (compareMoves toyPlain [] [] ⟨3, 0⟩ ⟨1, 9⟩ = true
        ∧ compareMoves toyPlain [] [] ⟨1, 9⟩ ⟨3, 0⟩ = false) :=
  ⟨((compareMoves_mvv_lva toyPlain [] [] ⟨2, 9⟩ ⟨3, 5⟩ (by decide) (by decide)).1
      (by decide)).1 (by decide),
    (compareMoves_mvv_lva toyPlain [] [] ⟨1, 9⟩ ⟨3, 0⟩ (by decide) (by decide)).2
      (by decide) (by decide)⟩

/-! ### C16: when a killer is recorded -/

theorem tableSet_eng_eq (c : Collab B TT) (e : Engine B TT) (ply depth alpha beta : Int)
    (m : Move) (score : Int) :
    ∃ t : TT, tableSet c e ply depth alpha beta m score = { e with transposTable := t } := by
  unfold tableSet
  split
  · exact ⟨_, rfl⟩
  · exact ⟨_, rfl⟩

/-- C16 as stated fails in both directions.  (1) A capture is recorded: at the root of
`toyPlain`, with the window (-5, -3), the capture 3x4 scores -2 above beta and becomes the
killer of ply 0.  (2) A fail-high at exactly beta records nothing: at the root of `toyQuiet`,
with the window (-3, -2), the quiet move 3-0 scores -2, the loop of `alphaBeta` stops
(`best < beta` fails), and no killer is recorded; with the window (-4, -3) the same move
scores above beta and is recorded. -/
theorem killer_recorded_for_capture_not_at_beta :
    (toyPlain.pieceAt [] 4 ≠ toyPlain.EMPTY
        ∧ (search toyPlain 2 engine0 [] (-5) (-3) 0 1 false true true).map
            (fun r => (r.value, r.pv, r.eng.killer1))
          = some (-2, [⟨⟨3, 4⟩, Cutoff.NO_CUTOFF⟩], [⟨3, 4⟩]))
      ∧ (toyQuiet.pieceAt [] 0 = toyQuiet.EMPTY
        ∧ (search toyQuiet 2 engine0 [] (-3) (-2) 0 1 false true true).map
            (fun r => (r.value, r.pv, r.eng.killer1, r.eng.killer2))
          = some (-2, [⟨⟨3, 0⟩, Cutoff.NO_CUTOFF⟩], [], [])
        ∧ (search toyQuiet 2 engine0 [] (-4) (-3) 0 1 false true true).map
            (fun r => (r.value, r.pv, r.eng.killer1, r.eng.killer2))
          = some (-2, [⟨⟨3, 0⟩, Cutoff.NO_CUTOFF⟩], [⟨3, 0⟩], [])) := by
  decide!

/-- C16, amended. In the post-processing of `search` and of `quiescence` (no abort), the
killer tables after it are those of `newKiller(myPV[0].move, ply)` exactly when the score is
strictly above beta and the node's line is not empty, whether the first move of the line is a
capture or not; when the score is at most beta, or the line is empty, the killer tables are
left as they were. -/
theorem post_processing_records_killer (c : Collab B TT) (e : Engine B TT)
    (pv myPV : List PVEntry) (alpha beta ply depth value : Int) :
    ((searchPost c e pv myPV alpha beta ply depth value).eng.killer1,
        (searchPost c e pv myPV alpha beta ply depth value).eng.killer2)
        = (match myPV with
          | [] => (e.killer1, e.killer2)
          | x :: _ =>
            if value > beta then
              ((newKiller e x.move ply).killer1, (newKiller e x.move ply).killer2)
            else (e.killer1, e.killer2))
      ∧ ((quiescencePost c e myPV alpha beta ply depth value).killer1,
          (quiescencePost c e myPV alpha beta ply depth value).killer2)
        = (match myPV with
          | [] => (e.killer1, e.killer2)
          | x :: _ =>
            if value > beta then
              ((newKiller e x.move ply).killer1, (newKiller e x.move ply).killer2)
            else (e.killer1, e.killer2)) := by
  cases myPV with
  | nil => exact ⟨rfl, rfl⟩
  | cons x rest =>
    have hk : ∀ e1 : Engine B TT,
        ((tableSet c e1 ply depth alpha beta x.move value).killer1,
          (tableSet c e1 ply depth alpha beta x.move value).killer2)
          = (e1.killer1, e1.killer2) := by
      intro e1
      obtain ⟨t, ht⟩ := tableSet_eng_eq c e1 ply depth alpha beta x.move value
      rw [ht]
    by_cases hv : value > beta
    · simp only [searchPost, quiescencePost, if_pos hv]
      refine ⟨hk _, ?_⟩
      split
      · exact hk _
      · rfl
    · simp only [searchPost, quiescencePost, if_neg hv]
      refine ⟨hk _, ?_⟩
      split
      · exact hk _
      · rfl

/-- C16 amended, on a concrete input: after a node of ply 0 whose line starts with the
capture 3x4 and whose score -2 is above beta = -3, the killer tables are those of
`newKiller`: 3x4 is the first killer. -/
theorem post_processing_records_killer_witness :
    ((searchPost toyPlain engine0 [] [⟨⟨3, 4⟩, Cutoff.NO_CUTOFF⟩] (-5) (-3) 0 1 (-2)).eng.killer1,
        (searchPost toyPlain engine0 [] [⟨⟨3, 4⟩, Cutoff.NO_CUTOFF⟩] (-5) (-3) 0 1
          (-2)).eng.killer2)
      = ([⟨3, 4⟩], []) :=
  (post_processing_records_killer toyPlain engine0 [] [⟨⟨3, 4⟩, Cutoff.NO_CUTOFF⟩] (-5) (-3) 0 1
    (-2)).1.trans (by decide)

/-! ### C17: the slots written by newKiller -/

/-- C17, the code at the failing inputs.  (1) With empty killer tables a killer for any ply
`p + 1` is pushed to the end of `killer1`, that is into slot 0: there is no slot `p + 1`
afterwards.  (2) With one killer `a` at ply 0 and an empty `killer2`, `newKiller(m, 0)` puts
`m` into both tables: the second slot holds `m` itself, not the previous first killer `a`.
(3) With `killer1` filled up to ply 1 and `killer2` empty, `newKiller(m, 1)` pushes `m` into
slot 0 of `killer2`, a slot of ply 0. -/
theorem newKiller_pushes_to_wrong_slot (e : Engine B TT) (a b m : Move) (p : Nat) :
    ((newKiller { e with killer1 := [], killer2 := [] } m ((p : Int) + 1)).killer1 = [m]
        ∧ (newKiller { e with killer1 := [], killer2 := [] } m ((p : Int) + 1)).killer2 = [])
      ∧ ((newKiller { e with killer1 := [a], killer2 := [] } m 0).killer1 = [m]
        ∧ (newKiller { e with killer1 := [a], killer2 := [] } m 0).killer2 = [m])
      ∧ ((newKiller { e with killer1 := [a, b], killer2 := [] } m 1).killer1 = [a, m]
        ∧ (newKiller { e with killer1 := [a, b], killer2 := [] } m 1).killer2 = [m]) := by
  refine ⟨?_, ?_, ?_⟩
  · simp [newKiller]
  · simp [newKiller, toSizeT]
  · simp [newKiller, toSizeT]

/-! ### C18: the slots read by setUpKillers -/

/-- C18, the code at the failing inputs.  With the killers `a`, `b` of plies 0 and 1 in
`killer1` and `c1`, `d` in `killer2`, `setUpKillers(0)` injects nothing at the root (the index
`ply - 1` converted to `size_t` is larger than any size), and `setUpKillers(1)` injects `a`
and `c1`, the killers of ply 0, not `b` and `d`.  After `newKiller(m, 0)` on empty tables the
killer of ply 0 is injected at ply 1, not at ply 0. -/
theorem setUpKillers_reads_previous_ply (e : Engine B TT) (a b c1 d m : Move) :
    (setUpKillers { e with killer1 := [a, b], killer2 := [c1, d], priorityTable := [] }
        0).priorityTable = []
      ∧ (setUpKillers { e with killer1 := [a, b], killer2 := [c1, d], priorityTable := [] }
        1).priorityTable = [a, c1]
      ∧ (newKiller { e with killer1 := [], killer2 := [], priorityTable := [] } m 0).killer1
        = [m]
      ∧ (setUpKillers
          (newKiller { e with killer1 := [], killer2 := [], priorityTable := [] } m 0)
          0).priorityTable = []
      ∧ (setUpKillers
          (newKiller { e with killer1 := [], killer2 := [], priorityTable := [] } m 0)
          1).priorityTable = [m] := by
  refine ⟨?_, ?_, ?_, ?_, ?_⟩
  · simp [setUpKillers, toSizeT]
  · simp [setUpKillers, toSizeT]
  · simp [newKiller]
  · simp [setUpKillers, newKiller, toSizeT]
  · simp [setUpKillers, newKiller, toSizeT]

/-! ### Relations kept by every step of the search -/

theorem steps_tableSet (c : Collab B TT) (R : Engine B TT → Engine B TT → Prop)
    (hR : StepClosed c R) (e : Engine B TT) (ply depth alpha beta : Int) (m : Move)
    (score : Int) : R e (tableSet c e ply depth alpha beta m score) := by
  unfold tableSet
  split
  · exact hR.refl e
  · exact hR.store e _

theorem steps_tableSearch (c : Collab B TT) (R : Engine B TT → Engine B TT → Prop)
    (hR : StepClosed c R) (e : Engine B TT) (ply depth alpha beta : Int) (m : Move)
    (score : Int) (nullok : Bool) :
    R e (tableSearch c e ply depth alpha beta m score nullok).eng := by
  obtain ⟨pt, hpt⟩ := tableSearch_eng_eq c e ply depth alpha beta m score nullok
  rw [hpt]
  exact hR.priority e pt

theorem steps_quiescenceProbe (c : Collab B TT) (R : Engine B TT → Engine B TT → Prop)
    (hR : StepClosed c R) (e : Engine B TT) (ply depth alpha beta : Int) (nullOk : Bool) :
    R e (quiescenceProbe c e ply depth alpha beta nullOk).eng := by
  obtain ⟨pt, hpt⟩ := quiescenceProbe_eng_eq c e ply depth alpha beta nullOk
  rw [hpt]
  exact hR.priority e pt

theorem steps_setUpKillers (c : Collab B TT) (R : Engine B TT → Engine B TT → Prop)
    (hR : StepClosed c R) (e : Engine B TT) (ply : Int) : R e (setUpKillers e ply) := by
  obtain ⟨pt, hpt⟩ := setUpKillers_eq e ply
  rw [hpt]
  exact hR.priority e pt

theorem steps_move (c : Collab B TT) (R : Engine B TT → Engine B TT → Prop)
    (hR : StepClosed c R) (e : Engine B TT) (m : Move) (r : Engine B TT)
    (h : R (doMove c e m) r) : R e (undoMove c r) :=
  hR.move e m r h

theorem alphaBetaLoop_steps (c : Collab B TT) (R : Engine B TT → Engine B TT → Prop)
    (hR : StepClosed c R) (srch : SearchFn B TT) (hs : Respects R srch)
    (beta ply depth : Int) (verify : Bool) :
    ∀ (moves : List Move) (st st1 : ABState B TT),
      alphaBetaLoop c srch beta ply depth verify moves st = some st1 →
      R st.eng st1.eng := by
  intro moves
  induction moves with
  | nil =>
    intro st st1 h
    simp only [alphaBetaLoop, Option.some.injEq] at h
    rw [← h]
    exact hR.refl _
  | cons m rest ih =>
    intro st st1 h
    rw [alphaBetaLoop] at h
    by_cases hb : st.best < beta
    · simp only [hb, if_true] at h
      cases hr : srch (doMove c st.eng m) [⟨m, Cutoff.NO_CUTOFF⟩] (-beta) (-abAlpha st)
          (ply + 1) depth false true verify with
      | none => simp [hr] at h
      | some r =>
        simp only [hr] at h
        have h1 := ih _ _ h
        rw [abUpdate_eng] at h1
        exact hR.trans _ _ _ (steps_move c R hR _ m _ (hs _ _ _ _ _ _ _ _ _ _ hr)) h1
    · simp only [hb, if_false, Option.some.injEq] at h
      rw [← h]
      exact hR.refl _

theorem alphaBeta_steps (c : Collab B TT) (R : Engine B TT → Engine B TT → Prop)
    (hR : StepClosed c R) (srch : SearchFn B TT) (hs : Respects R srch)
    (e : Engine B TT) (pv : List PVEntry) (moveList : List Move) (alpha beta ply depth : Int)
    (legalonly nullOk verify : Bool) (r : SearchResult B TT)
    (h : alphaBeta c srch e pv moveList alpha beta ply depth legalonly nullOk verify = some r) :
    R e r.eng := by
  unfold alphaBeta at h
  split at h
  · exact absurd h (by simp)
  · rename_i st hst
    have h1 := alphaBetaLoop_steps c R hR srch hs beta ply depth verify _ _ _ hst
    split at h <;> (simp only [Option.some.injEq] at h; rw [← h]; exact h1)

theorem negaScoutLoop_steps (c : Collab B TT) (R : Engine B TT → Engine B TT → Prop)
    (hR : StepClosed c R) (srch : SearchFn B TT) (hs : Respects R srch)
    (beta ply depth : Int) (verify : Bool) :
    ∀ (moves : List Move) (first : Bool) (st st1 : NSState B TT),
      negaScoutLoop c srch beta ply depth verify moves first st = some st1 →
      R st.eng st1.eng := by
  intro moves
  induction moves with
  | nil =>
    intro first st st1 h
    simp only [negaScoutLoop, Option.some.injEq] at h
    rw [← h]
    exact hR.refl _
  | cons m rest ih =>
    intro first st st1 h
    rw [negaScoutLoop] at h
    by_cases hb : st.a < beta
    · simp only [hb, if_true] at h
      cases hr : srch (doMove c st.eng m) [⟨m, Cutoff.NO_CUTOFF⟩] (-st.b) (-st.a) (ply + 1)
          depth false true verify with
      | none => simp [hr] at h
      | some r =>
        simp only [hr] at h
        have h1 : R (doMove c st.eng m) r.eng := hs _ _ _ _ _ _ _ _ _ _ hr
        by_cases hre : -r.value > st.a ∧ -r.value < beta ∧ first = false ∧ ply < depth - 1
        · simp only [hre, and_self, if_true, neg_neg] at h
          cases hr2 : srch r.eng [⟨m, Cutoff.NO_CUTOFF⟩] (-beta) r.value (ply + 1) depth
              false true verify with
          | none => simp [hr2] at h
          | some r2 =>
            simp only [hr2] at h
            have h2 := ih _ _ _ h
            rw [nsUpdateResearch_eng] at h2
            exact hR.trans _ _ _
              (steps_move c R hR _ m _ (hR.trans _ _ _ h1 (hs _ _ _ _ _ _ _ _ _ _ hr2))) h2
        · simp only [hre, if_false] at h
          have h2 := ih _ _ _ h
          rw [nsUpdate_eng] at h2
          exact hR.trans _ _ _ (steps_move c R hR _ m _ h1) h2
    · simp only [hb, if_false, Option.some.injEq] at h
      rw [← h]
      exact hR.refl _

theorem negaScout_steps (c : Collab B TT) (R : Engine B TT → Engine B TT → Prop)
    (hR : StepClosed c R) (srch : SearchFn B TT) (hs : Respects R srch)
    (e : Engine B TT) (pv : List PVEntry) (moveList : List Move) (alpha beta ply depth : Int)
    (legalonly nullOk verify : Bool) (r : SearchResult B TT)
    (h : negaScout c srch e pv moveList alpha beta ply depth legalonly nullOk verify = some r) :
    R e r.eng := by
  unfold negaScout at h
  split at h
  · exact absurd h (by simp)
  · rename_i st hst
    have h1 := negaScoutLoop_steps c R hR srch hs beta ply depth verify _ _ _ _ hst
    simp only [Option.some.injEq] at h
    rw [← h]
    exact h1

theorem dispatch_steps (c : Collab B TT) (R : Engine B TT → Engine B TT → Prop)
    (hR : StepClosed c R) (srch : SearchFn B TT) (hs : Respects R srch)
    (e : Engine B TT) (moveList : List Move) (alpha beta ply depth : Int)
    (legalonly nullOk verify : Bool) (value : Int) (r : SearchResult B TT)
    (h : dispatch c srch e moveList alpha beta ply depth legalonly nullOk verify value
      = some r) :
    R e r.eng := by
  unfold dispatch at h
  split at h
  · exact alphaBeta_steps c R hR srch hs _ _ _ _ _ _ _ _ _ _ _ h
  · simp only [Option.some.injEq] at h
    rw [← h]
    exact hR.refl _
  · exact negaScout_steps c R hR srch hs _ _ _ _ _ _ _ _ _ _ _ h

theorem searchPost_steps (c : Collab B TT) (R : Engine B TT → Engine B TT → Prop)
    (hR : StepClosed c R) (e : Engine B TT) (pv myPV : List PVEntry)
    (alpha beta ply depth value : Int) :
    R e (searchPost c e pv myPV alpha beta ply depth value).eng := by
  unfold searchPost
  split
  · exact hR.refl _
  · refine hR.trans _ _ _ ?_ (steps_tableSet c R hR _ _ _ _ _ _ _)
    split
    · exact hR.newKiller _ _ _
    · exact hR.refl _

theorem quiescencePost_steps (c : Collab B TT) (R : Engine B TT → Engine B TT → Prop)
    (hR : StepClosed c R) (e : Engine B TT) (myPV : List PVEntry)
    (alpha beta ply depth value : Int) :
    R e (quiescencePost c e myPV alpha beta ply depth value) := by
  cases myPV with
  | nil => exact hR.refl _
  | cons x rest =>
    by_cases hv : value > beta
    · simp only [quiescencePost, if_pos hv]
      split
      · exact hR.trans _ _ _ (hR.newKiller _ _ _) (steps_tableSet c R hR _ _ _ _ _ _ _)
      · exact hR.newKiller _ _ _
    · simp only [quiescencePost, if_neg hv]
      split
      · exact steps_tableSet c R hR _ _ _ _ _ _ _
      · exact hR.refl _

theorem searchTail_steps (c : Collab B TT) (R : Engine B TT → Engine B TT → Prop)
    (hR : StepClosed c R) (srch : SearchFn B TT) (hs : Respects R srch)
    (e : Engine B TT) (pv : List PVEntry) (moveList : List Move) (alpha beta ply depth : Int)
    (legalonly nullOk verify failHigh : Bool) (value : Int) (r : SearchResult B TT)
    (h : searchTail c srch e pv moveList alpha beta ply depth legalonly nullOk verify failHigh
      value = some r) :
    R e r.eng := by
  unfold searchTail at h
  split at h
  · exact absurd h (by simp)
  · rename_i r1 hr1
    have h1 := dispatch_steps c R hR srch hs _ _ _ _ _ _ _ _ _ _ _ hr1
    split at h
    · simp only [Option.some.injEq] at h
      rw [← h]; exact h1
    · split at h
      · split at h
        · exact absurd h (by simp)
        · rename_i r2 hr2
          have h2 := hR.trans _ _ _ h1 (dispatch_steps c R hR srch hs _ _ _ _ _ _ _ _ _ _ _ hr2)
          split at h
          · simp only [Option.some.injEq] at h
            rw [← h]; exact h2
          · simp only [Option.some.injEq] at h
            rw [← h]
            exact hR.trans _ _ _ h2 (searchPost_steps c R hR _ _ _ _ _ _ _ _)
      · simp only [Option.some.injEq] at h
        rw [← h]
        exact hR.trans _ _ _ h1 (searchPost_steps c R hR _ _ _ _ _ _ _ _)

theorem searchMoves_steps (c : Collab B TT) (R : Engine B TT → Engine B TT → Prop)
    (hR : StepClosed c R) (srch : SearchFn B TT) (hs : Respects R srch)
    (e : Engine B TT) (pv : List PVEntry) (alpha beta ply depth : Int)
    (legalonly nullOk verify failHigh : Bool) (value : Int) (r : SearchResult B TT)
    (h : searchMoves c srch e pv alpha beta ply depth legalonly nullOk verify failHigh value
      = some r) :
    R e r.eng := by
  unfold searchMoves at h
  split at h
  · simp only [Option.some.injEq] at h
    rw [← h]; exact steps_setUpKillers c R hR _ _
  · exact hR.trans _ _ _ (steps_setUpKillers c R hR e ply)
      (searchTail_steps c R hR srch hs _ _ _ _ _ _ _ _ _ _ _ _ _ h)

theorem quiescenceMoves_steps (c : Collab B TT) (R : Engine B TT → Engine B TT → Prop)
    (hR : StepClosed c R) (srch : SearchFn B TT) (hs : Respects R srch)
    (e : Engine B TT) (alpha beta ply depth : Int) (nullOk : Bool)
    (value : Int) (v : Int) (e1 : Engine B TT)
    (h : quiescenceMoves c srch e alpha beta ply depth nullOk value = some (v, e1)) :
    R e e1 := by
  unfold quiescenceMoves at h
  split at h
  · simp only [Option.some.injEq, Prod.mk.injEq] at h
    rw [← h.2]; exact hR.refl _
  · split at h
    · simp only [Option.some.injEq, Prod.mk.injEq] at h
      rw [← h.2]; exact steps_setUpKillers c R hR _ _
    · split at h
      · exact absurd h (by simp)
      · rename_i r hr
        have h1 := hR.trans _ _ _ (steps_setUpKillers c R hR e ply)
          (dispatch_steps c R hR srch hs _ _ _ _ _ _ _ _ _ _ _ hr)
        split at h
        · simp only [Option.some.injEq, Prod.mk.injEq] at h
          rw [← h.2]; exact h1
        · simp only [Option.some.injEq, Prod.mk.injEq] at h
          rw [← h.2]
          exact hR.trans _ _ _ h1 (quiescencePost_steps c R hR _ _ _ _ _ _ _)

theorem quiescenceNull_steps (c : Collab B TT) (R : Engine B TT → Engine B TT → Prop)
    (hR : StepClosed c R) (srch : SearchFn B TT) (hs : Respects R srch)
    (ts : TableSearchResult B TT) (ply depth : Int) (v : Int) (e1 : Engine B TT)
    (h : quiescenceNull c srch ts ply depth = some (v, e1)) :
    R ts.eng e1 := by
  unfold quiescenceNull at h
  split at h
  · split at h
    · exact absurd h (by simp)
    · rename_i r hr
      have h1 : R ts.eng (undoMove c { r.eng with quiesc := true }) :=
        hR.nullMove ts.eng _
          (hR.trans _ _ _
            (hR.trans _ _ _ (hR.quiesc (doNullMove c ts.eng) false)
              (hs _ _ _ _ _ _ _ _ _ _ hr))
            (hR.quiesc r.eng true))
      split at h
      · simp only [Option.some.injEq, Prod.mk.injEq] at h
        rw [← h.2]
        exact h1
      · exact hR.trans _ _ _ h1 (quiescenceMoves_steps c R hR srch hs _ _ _ _ _ _ _ _ _ h)
  · exact quiescenceMoves_steps c R hR srch hs _ _ _ _ _ _ _ _ _ h

theorem quiescence_steps (c : Collab B TT) (R : Engine B TT → Engine B TT → Prop)
    (hR : StepClosed c R) (srch : SearchFn B TT) (hs : Respects R srch)
    (e : Engine B TT) (alpha beta ply depth : Int) (nullOk : Bool)
    (v : Int) (e1 : Engine B TT)
    (h : quiescence c srch e alpha beta ply depth nullOk = some (v, e1)) :
    R e e1 := by
  unfold quiescence at h
  split at h
  · rename_i ht
    simp only [Option.some.injEq, Prod.mk.injEq] at h
    rw [← h.2]
    exact hR.timedOut e (by simpa using ht)
  · have hp := hR.timerPolled e
    split at h
    · simp only [Option.some.injEq, Prod.mk.injEq] at h
      rw [← h.2]; exact hp
    · have hq := hR.trans _ _ _ hp
        (steps_quiescenceProbe c R hR (timerPolled e) ply depth alpha beta nullOk)
      split at h
      · simp only [Option.some.injEq, Prod.mk.injEq] at h
        rw [← h.2]; exact hq
      · exact hR.trans _ _ _ hq (quiescenceNull_steps c R hR srch hs _ _ _ _ _ h)

theorem searchNull_steps (c : Collab B TT) (R : Engine B TT → Engine B TT → Prop)
    (hR : StepClosed c R) (srch : SearchFn B TT) (hs : Respects R srch)
    (ts : TableSearchResult B TT) (pv : List PVEntry)
    (ply depth : Int) (legalonly verify : Bool) (r : SearchResult B TT)
    (h : searchNull c srch ts pv ply depth legalonly verify = some r) :
    R ts.eng r.eng := by
  unfold searchNull at h
  split at h
  · split at h
    · exact absurd h (by simp)
    · rename_i r1 hr1
      have h1 : R ts.eng (undoMove c r1.eng) :=
        hR.nullMove ts.eng _ (hs _ _ _ _ _ _ _ _ _ _ hr1)
      split at h
      · split at h
        · exact hR.trans _ _ _ h1
            (searchMoves_steps c R hR srch hs _ _ _ _ _ _ _ _ _ _ _ _ h)
        · simp only [Option.some.injEq] at h
          rw [← h]
          exact h1
      · exact hR.trans _ _ _ h1
          (searchMoves_steps c R hR srch hs _ _ _ _ _ _ _ _ _ _ _ _ h)
  · exact searchMoves_steps c R hR srch hs _ _ _ _ _ _ _ _ _ _ _ _ h

theorem searchBody_steps (c : Collab B TT) (R : Engine B TT → Engine B TT → Prop)
    (hR : StepClosed c R) (srch : SearchFn B TT) (hs : Respects R srch) :
    Respects R (searchBody c srch) := by
  intro e pv alpha beta ply depth legalonly nullOk verify r h
  unfold searchBody at h
  split at h
  · simp only [Option.some.injEq] at h
    rw [← h]
    exact hR.refl _
  · split at h
    · rename_i ht
      simp only [Option.some.injEq] at h
      rw [← h]
      exact hR.timedOut e (by simpa using ht)
    · have hn := hR.nodeEntered e
      split at h
      · simp only [Option.some.injEq] at h
        rw [← h]; exact hn
      · split at h
        · split at h
          · split at h
            · exact absurd h (by simp)
            · rename_i v e1 hq
              simp only [Option.some.injEq] at h
              rw [← h]
              exact hR.trans _ _ _ hn (quiescence_steps c R hR srch hs _ _ _ _ _ _ _ _ hq)
          · simp only [Option.some.injEq] at h
            rw [← h]; exact hn
        · have ht := hR.trans _ _ _ hn
            (steps_tableSearch c R hR (nodeEntered e) ply depth alpha beta Move.empty 0 nullOk)
          split at h
          · simp only [Option.some.injEq] at h
            rw [← h]; exact ht
          · exact hR.trans _ _ _ ht (searchNull_steps c R hR srch hs _ _ _ _ _ _ _ h)

theorem search_steps (c : Collab B TT) (R : Engine B TT → Engine B TT → Prop)
    (hR : StepClosed c R) (fuel : Nat) : Respects R (search c fuel) := by
  induction fuel with
  | zero =>
    intro e pv alpha beta ply depth legalonly nullOk verify r h
    simp [search] at h
  | succ n ih => exact searchBody_steps c R hR _ ih

theorem mtdLoop_steps (c : Collab B TT) (R : Engine B TT → Engine B TT → Prop)
    (hR : StepClosed c R) (fuel : Nat) (depth : Int) :
    ∀ (n : Nat) (e : Engine B TT) (g upperbound lowerbound : Int) (r : SearchResult B TT),
      mtdLoop c fuel depth n e g upperbound lowerbound = some r → R e r.eng := by
  intro n
  induction n with
  | zero =>
    intro e g upperbound lowerbound r h
    simp [mtdLoop] at h
  | succ n ih =>
    intro e g upperbound lowerbound r h
    rw [mtdLoop] at h
    split at h
    · exact absurd h (by simp)
    · rename_i r1 hr1
      have h1 := search_steps c R hR fuel _ _ _ _ _ _ _ _ _ _ hr1
      split at h
      · exact hR.trans _ _ _ h1 (ih _ _ _ _ _ h)
      · simp only [Option.some.injEq] at h
        rw [← h]; exact h1

theorem mtd_steps (c : Collab B TT) (R : Engine B TT → Engine B TT → Prop)
    (hR : StepClosed c R) (fuel : Nat) (e : Engine B TT) (pv : List PVEntry)
    (guess depth : Int) (r : SearchResult B TT) (h : mtd c fuel e pv guess depth = some r) :
    R e r.eng :=
  mtdLoop_steps c R hR fuel depth _ _ _ _ _ _ h

/-! ### C19: when the tables are reset -/

theorem onlyStores_refl (c : Collab B TT) (t : TT) : OnlyStores c t t := ⟨[], rfl⟩

theorem onlyStores_trans (c : Collab B TT) (t1 t2 t3 : TT) (h1 : OnlyStores c t1 t2)
    (h2 : OnlyStores c t2 t3) : OnlyStores c t1 t3 := by
  obtain ⟨n1, hn1⟩ := h1
  obtain ⟨n2, hn2⟩ := h2
  exact ⟨n1 ++ n2, by rw [hn2, hn1, List.foldl_append]⟩

theorem tablesKept_of_eq (c : Collab B TT) (e e1 : Engine B TT)
    (h1 : e1.transposTable = e.transposTable) (h2 : e1.killer1 = e.killer1)
    (h3 : e1.killer2 = e.killer2) : TablesKept c e e1 :=
  ⟨⟨[], h1⟩, by rw [h2], by rw [h3]⟩

theorem tablesKept_trans (c : Collab B TT) (e1 e2 e3 : Engine B TT) (h1 : TablesKept c e1 e2)
    (h2 : TablesKept c e2 e3) : TablesKept c e1 e3 :=
  ⟨onlyStores_trans c _ _ _ h1.1 h2.1, h1.2.1.trans h2.2.1, h1.2.2.trans h2.2.2⟩

theorem tablesKept_newKiller (c : Collab B TT) (e : Engine B TT) (m : Move) (ply : Int) :
    TablesKept c e (newKiller e m ply) := by
  unfold newKiller
  split
  · split
    · exact ⟨⟨[], rfl⟩, by simp, by simp⟩
    · exact ⟨⟨[], rfl⟩, by simp, by simp⟩
  · exact ⟨⟨[], rfl⟩, by simp, le_refl _⟩

/-- The search never flushes the transposition table and never clears a killer table: every
step keeps `TablesKept`. -/
theorem tablesKept_stepClosed (c : Collab B TT) : StepClosed c (TablesKept c) where
  refl e := tablesKept_of_eq c e e rfl rfl rfl
  trans := tablesKept_trans c
  timedOut e _ := tablesKept_of_eq c e _ rfl rfl rfl
  timerPolled e := tablesKept_of_eq c e _ rfl rfl rfl
  nodeEntered e := tablesKept_of_eq c e _ rfl rfl rfl
  move _ _ _ h := ⟨h.1, h.2.1, h.2.2⟩
  nullMove _ _ h := ⟨h.1, h.2.1, h.2.2⟩
  quiesc e _ := tablesKept_of_eq c e _ rfl rfl rfl
  priority e _ := tablesKept_of_eq c e _ rfl rfl rfl
  newKiller := tablesKept_newKiller c
  store _ n := ⟨⟨[n], rfl⟩, le_refl _, le_refl _⟩

theorem thinkIter_tablesKept (c : Collab B TT) (fuel : Nat) (e : Engine B TT)
    (result i v : Int) (e1 : Engine B TT) (h : thinkIter c fuel e result i = some (v, e1)) :
    TablesKept c e e1 := by
  unfold thinkIter at h
  dsimp only at h
  split at h
  · exact absurd h (by simp)
  · rename_i r hr
    have hk : TablesKept c e r.eng := by
      split at hr
      · exact mtd_steps c _ (tablesKept_stepClosed c) fuel _ _ _ _ _ hr
      · exact search_steps c _ (tablesKept_stepClosed c) fuel _ _ _ _ _ _ _ _ _ _ hr
    split at h
    · split at h
      · simp only [Option.some.injEq, Prod.mk.injEq] at h
        rw [← h.2]; exact hk
      · simp only [Option.some.injEq, Prod.mk.injEq] at h
        rw [← h.2]; exact hk
    · simp only [Option.some.injEq, Prod.mk.injEq] at h
      rw [← h.2]; exact hk

theorem thinkLoop_tablesKept (c : Collab B TT) (fuel : Nat) :
    ∀ (n : Nat) (e : Engine B TT) (result i v : Int) (e1 : Engine B TT),
      thinkLoop c fuel n e result i = some (v, e1) → TablesKept c e e1 := by
  intro n
  induction n with
  | zero =>
    intro e result i v e1 h
    rw [thinkLoop] at h
    split at h
    · exact absurd h (by simp)
    · simp only [Option.some.injEq, Prod.mk.injEq] at h
      rw [← h.2]; exact tablesKept_of_eq c e e rfl rfl rfl
  | succ n ih =>
    intro e result i v e1 h
    rw [thinkLoop] at h
    split at h
    · split at h
      · exact absurd h (by simp)
      · rename_i r1 e2 hit
        exact tablesKept_trans c _ _ _ (thinkIter_tablesKept c fuel _ _ _ _ _ hit)
          (ih _ _ _ _ _ h)
    · simp only [Option.some.injEq, Prod.mk.injEq] at h
      rw [← h.2]; exact tablesKept_of_eq c e e rfl rfl rfl

theorem thinkFinish_tables (e : Engine B TT) :
    (thinkFinish e).transposTable = e.transposTable ∧ (thinkFinish e).killer1 = e.killer1
      ∧ (thinkFinish e).killer2 = e.killer2 := by
  unfold thinkFinish
  split <;> exact ⟨rfl, rfl, rfl⟩

theorem thinkRun_tablesKept (c : Collab B TT) (fuel : Nat) (e : Engine B TT) (v : Int)
    (e1 : Engine B TT) (h : thinkRun c fuel e = some (v, e1)) : TablesKept c e e1 := by
  unfold thinkRun at h
  split at h
  · simp only [Option.some.injEq, Prod.mk.injEq] at h
    rw [← h.2]; exact tablesKept_of_eq c e _ rfl rfl rfl
  · split at h
    · exact absurd h (by simp)
    · rename_i r e2 hl
      simp only [Option.some.injEq, Prod.mk.injEq] at h
      rw [← h.2]
      have h1 : TablesKept c e e2 :=
        tablesKept_trans c e { e with searchAborted := Abort.NO_ABORT } e2
          (tablesKept_of_eq c e _ rfl rfl rfl) (thinkLoop_tablesKept c fuel _ _ _ _ _ _ hl)
      obtain ⟨f1, f2, f3⟩ := thinkFinish_tables e2
      exact tablesKept_trans c _ _ _ h1 (tablesKept_of_eq c e2 _ f1 f2 f3)

/-- C19. (1) When `think` is entered in the state BETWEEN_SEARCHES, its entry flushes the
transposition table, empties both killer tables, clears the principal variation, sets the node
counter to 0 and makes the state SEARCHING; everything else `think` does, every search call
included, starts from the engine so reset.  (2) Entered in any other state, the entry leaves
the table and the killer tables as they are (in the state DONE_SEARCHING `think` returns at
once with the engine unchanged).  (3) After the entry, up to the return of `think`, and during
every call of `search`, `mtd`, `quiescence`, `alphaBeta` and `negaScout`, the table only
receives stores and no killer table gets shorter: the table is never flushed and the killer
tables are never cleared. -/
theorem tables_reset_exactly_on_entry (c : Collab B TT) (fuel : Nat) (e : Engine B TT) :
    (e.searchState = SearchState.BETWEEN_SEARCHES →
        (thinkEnter c e).transposTable = c.flush e.transposTable
          ∧ (thinkEnter c e).killer1 = [] ∧ (thinkEnter c e).killer2 = []
          ∧ (thinkEnter c e).principleVariation = [] ∧ (thinkEnter c e).nodeCount = 0
          ∧ (thinkEnter c e).searchState = SearchState.SEARCHING
          ∧ think c fuel e = thinkRun c fuel (thinkEnter c e))
      ∧ (e.searchState ≠ SearchState.BETWEEN_SEARCHES →
          (thinkEnter c e).transposTable = e.transposTable
            ∧ (thinkEnter c e).killer1 = e.killer1 ∧ (thinkEnter c e).killer2 = e.killer2)
      ∧ (e.searchState = SearchState.DONE_SEARCHING → think c fuel e = some (0, e))
      ∧ (∀ (v : Int) (e1 : Engine B TT), think c fuel e = some (v, e1) →
          TablesKept c (thinkEnter c e) e1)
      ∧ Respects (TablesKept c) (search c fuel)
      ∧ (∀ (e0 : Engine B TT) (pv : List PVEntry) (guess depth : Int) (r : SearchResult B TT),
          mtd c fuel e0 pv guess depth = some r → TablesKept c e0 r.eng)
      ∧ (∀ (e0 : Engine B TT) (alpha beta ply depth : Int) (nullOk : Bool) (v : Int)
          (e1 : Engine B TT),
          quiescence c (search c fuel) e0 alpha beta ply depth nullOk = some (v, e1) →
          TablesKept c e0 e1)
      ∧ (∀ (e0 : Engine B TT) (pv : List PVEntry) (moveList : List Move)
          (alpha beta ply depth : Int) (legalonly nullOk verify : Bool)
          (r : SearchResult B TT),
          (alphaBeta c (search c fuel) e0 pv moveList alpha beta ply depth legalonly nullOk
              verify = some r
            ∨ negaScout c (search c fuel) e0 pv moveList alpha beta ply depth legalonly nullOk
              verify = some r) →
          TablesKept c e0 r.eng) := by
  have hR := tablesKept_stepClosed c
  have hs := search_steps c _ hR fuel
  refine ⟨fun h => ?_, fun h => ?_, fun h => ?_, fun v e1 h => ?_, hs,
    fun e0 pv guess depth r h => mtd_steps c _ hR fuel _ _ _ _ _ h,
    fun e0 alpha beta ply depth nullOk v e1 h =>
      quiescence_steps c _ hR _ hs _ _ _ _ _ _ _ _ h,
    fun e0 pv moveList alpha beta ply depth legalonly nullOk verify r h => ?_⟩
  · have ht : think c fuel e = thinkRun c fuel (thinkEnter c e) := by
      unfold think
      rw [if_neg (by rw [h]; decide)]
    unfold thinkEnter at ht ⊢
    rw [if_pos h] at ht ⊢
    exact ⟨rfl, rfl, rfl, rfl, rfl, rfl, ht⟩
  · unfold thinkEnter
    rw [if_neg h]
    exact ⟨rfl, rfl, rfl⟩
  · unfold think
    rw [if_pos h]
  · unfold think at h
    split at h
    · rename_i hd
      simp only [Option.some.injEq, Prod.mk.injEq] at h
      rw [← h.2]
      unfold thinkEnter
      rw [if_neg (by rw [hd]; decide)]
      exact tablesKept_of_eq c _ _ rfl rfl rfl
    · exact thinkRun_tablesKept c fuel _ _ _ h
  · rcases h with h | h
    · exact alphaBeta_steps c _ hR _ hs _ _ _ _ _ _ _ _ _ _ _ h
    · exact negaScout_steps c _ hR _ hs _ _ _ _ _ _ _ _ _ _ _ h

/-- C19 on a concrete input: an engine between searches that holds a table entry, two
killers, a line and a node count enters `think` with all of them reset, and the tables of the
engine that `think` returns come from the reset ones by stores and new killers only. -/
theorem tables_reset_exactly_on_entry_witness :
    ((thinkEnter toyPlain engineUsed).transposTable = []
        ∧ (thinkEnter toyPlain engineUsed).killer1 = []
        ∧ (thinkEnter toyPlain engineUsed).killer2 = []
        ∧ (thinkEnter toyPlain engineUsed).principleVariation = []
        ∧ (thinkEnter toyPlain engineUsed).nodeCount = 0)
      ∧ ∃ (v : Int) (e1 : Engine Pos Table),
          think toyPlain 5 engineUsed = some (v, e1)
            ∧ TablesKept toyPlain (thinkEnter toyPlain engineUsed) e1 := by
  have h := tables_reset_exactly_on_entry toyPlain 5 engineUsed
  obtain ⟨h1, h2, h3, h4, h5, -, -⟩ := h.1 rfl
  refine ⟨⟨h1, h2, h3, h4, h5⟩, ?_⟩
  cases hth : think toyPlain 5 engineUsed with
  | none =>
    have hs : (think toyPlain 5 engineUsed).isSome = true := by decide!
    rw [hth] at hs
    exact absurd hs (by decide)
  | some p => exact ⟨p.1, p.2, rfl, h.2.2.2.1 p.1 p.2 hth⟩

/-! ### C20: the depth schedule of think -/

theorem abortKept_stepClosed (c : Collab B TT)
    (htime : ∀ (col : Color) (n : Nat), c.haveTimeLeftForMove col n = true) :
    StepClosed c AbortKept where
  refl _ := rfl
  trans _ _ _ h1 h2 := Eq.trans h2 h1
  timedOut e h := absurd (htime e.myTimer e.clock) (by rw [h]; decide)
  timerPolled _ := rfl
  nodeEntered _ := rfl
  move _ _ _ h := h
  nullMove _ _ h := h
  quiesc _ _ := rfl
  priority _ _ := rfl
  newKiller e m ply := by
    obtain ⟨k1, k2, hk⟩ := newKiller_eq e m ply
    unfold AbortKept
    rw [hk]
  store _ _ := rfl

/-- The search call of an iteration of `think` (lines 228-229). -/
theorem thinkIter_run (c : Collab B TT) (fuel : Nat) (e : Engine B TT) (result i v : Int)
    (e1 : Engine B TT) (h : thinkIter c fuel e result i = some (v, e1)) :
    ∃ r : SearchResult B TT,
      (if e.useMTDF then
          mtd c fuel e (if e.useIterDeep then [] else e.principleVariation) result i
        else search c fuel e (if e.useIterDeep then [] else e.principleVariation) (-INFIN)
          INFIN 0 i false true true) = some r
        ∧ v = r.value
        ∧ (e1 = r.eng ∨ e1 = { r.eng with principleVariation := r.pv })
        ∧ (e1.searchAborted = Abort.NO_ABORT → e1.principleVariation = r.pv) := by
  unfold thinkIter at h
  dsimp only at h
  split at h
  · exact absurd h (by simp)
  · rename_i r hr
    refine ⟨r, hr, ?_⟩
    split at h
    · split at h
      · simp only [Option.some.injEq, Prod.mk.injEq] at h
        rw [← h.1, ← h.2]
        exact ⟨rfl, Or.inr rfl, fun _ => rfl⟩
      · rename_i hab
        simp only [Option.some.injEq, Prod.mk.injEq] at h
        rw [← h.1, ← h.2]
        exact ⟨rfl, Or.inl rfl, fun h0 => absurd h0 hab⟩
    · simp only [Option.some.injEq, Prod.mk.injEq] at h
      rw [← h.1, ← h.2]
      exact ⟨rfl, Or.inr rfl, fun _ => rfl⟩

theorem thinkIter_respects (c : Collab B TT) (R : Engine B TT → Engine B TT → Prop)
    (hR : StepClosed c R) (hpv : ∀ (e : Engine B TT) (pv : List PVEntry),
      R e { e with principleVariation := pv })
    (fuel : Nat) (e : Engine B TT) (result i v : Int)
    (e1 : Engine B TT) (h : thinkIter c fuel e result i = some (v, e1)) : R e e1 := by
  obtain ⟨r, hr, -, he, -⟩ := thinkIter_run c fuel e result i v e1 h
  have hk : R e r.eng := by
    split at hr
    · exact mtd_steps c R hR fuel _ _ _ _ _ hr
    · exact search_steps c R hR fuel _ _ _ _ _ _ _ _ _ _ hr
  rcases he with he | he
  · rw [he]; exact hk
  · rw [he]; exact hR.trans _ _ _ hk (hpv _ _)

theorem thinkIter_maxPly (c : Collab B TT) (fuel : Nat) (e : Engine B TT) (result i v : Int)
    (e1 : Engine B TT) (h : thinkIter c fuel e result i = some (v, e1)) :
    e1.maxPly = e.maxPly := by
  obtain ⟨r, hr, -, he, -⟩ := thinkIter_run c fuel e result i v e1 h
  have hset : r.eng.settings = e.settings := by
    split at hr
    · exact mtd_settings c fuel _ _ _ _ _ hr
    · exact search_settings c fuel _ _ _ _ _ _ _ _ _ _ hr
  simp only [Engine.settings, Prod.mk.injEq] at hset
  rcases he with he | he
  · rw [he]; exact hset.2.2.2.1
  · rw [he]; exact hset.2.2.2.1

/-- The loop of `think` started at depth `i` with `maxPly + 1 - i` iterations allowed runs
the depths `i`, `i + 1`, ..., `maxPly`. -/
theorem thinkLoop_eq_runSchedule (c : Collab B TT) (fuel : Nat) :
    ∀ (n : Nat) (e : Engine B TT) (result i : Int), (e.maxPly + 1 - i).toNat = n →
      thinkLoop c fuel n e result i
        = runSchedule c fuel ((List.range n).map (fun (k : Nat) => i + (k : Int))) e result := by
  intro n
  induction n with
  | zero =>
    intro e result i hn
    have hi : ¬ i ≤ e.maxPly := by omega
    simp only [thinkLoop, List.range_zero, List.map_nil, runSchedule]
    rw [if_neg (fun h => hi h.1)]
  | succ n ih =>
    intro e result i hn
    have hi : i ≤ e.maxPly := by omega
    rw [thinkLoop, List.range_succ_eq_map, List.map_cons, List.map_map, runSchedule]
    by_cases hab : e.searchAborted = Abort.NO_ABORT
    · rw [if_pos ⟨hi, hab⟩, if_pos hab]
      cases hit : thinkIter c fuel e result (i + ((0 : Nat) : Int)) with
      | none =>
        have hit2 : thinkIter c fuel e result i = none := by simpa using hit
        rw [hit2]
      | some p =>
        obtain ⟨r1, e1⟩ := p
        have hit2 : thinkIter c fuel e result i = some (r1, e1) := by simpa using hit
        rw [hit2]
        have hm := thinkIter_maxPly c fuel e result i r1 e1 hit2
        dsimp only
        rw [ih e1 r1 (i + 1) (by rw [hm]; omega)]
        congr 2
        funext k
        simp only [Function.comp, Nat.succ_eq_add_one, Nat.cast_add, Nat.cast_one]
        omega
    · rw [if_neg (fun h => hab h.2), if_neg hab]

theorem runSchedule_eq_runAll (c : Collab B TT) (fuel : Nat)
    (htime : ∀ (col : Color) (n : Nat), c.haveTimeLeftForMove col n = true) :
    ∀ (ds : List Int) (e : Engine B TT) (result : Int), e.searchAborted = Abort.NO_ABORT →
      runSchedule c fuel ds e result = runAll c fuel ds e result := by
  intro ds
  induction ds with
  | nil => intro e result _; rfl
  | cons d ds ih =>
    intro e result hab
    rw [runSchedule, runAll, if_pos hab]
    cases hit : thinkIter c fuel e result d with
    | none => rfl
    | some p =>
      obtain ⟨r1, e1⟩ := p
      have h1 : AbortKept e e1 :=
        thinkIter_respects c AbortKept (abortKept_stepClosed c htime) (fun _ _ => rfl) fuel e
          result d r1 e1 hit
      exact ih e1 r1 (h1.trans hab)

/-- After its entry, with no opening-book move, `think` runs the depth schedule. -/
theorem thinkRun_eq_schedule (c : Collab B TT) (fuel : Nat) (e : Engine B TT)
    (hbook : bookMove c e = none) :
    thinkRun c fuel e
      = (runSchedule c fuel
          (scheduleDepths e.useIterDeep e.principleVariation.length e.maxPly)
          { e with searchAborted := Abort.NO_ABORT }
          (c.evaluatePosition e.board)).map (fun r => (r.1, thinkFinish r.2)) := by
  unfold thinkRun scheduleDepths
  rw [hbook]
  dsimp only
  by_cases hdeep : e.useIterDeep = true
  · rw [if_pos hdeep, if_pos hdeep]
    have hn : (e.maxPly + 1 - ((e.principleVariation.length : Int) + 1)).toNat
        = (e.maxPly - (e.principleVariation.length : Int)).toNat := by
      congr 1
      omega
    rw [thinkLoop_eq_runSchedule c fuel _ { e with searchAborted := Abort.NO_ABORT } _ _ rfl,
      hn]
    cases runSchedule c fuel
      ((List.range (e.maxPly - (e.principleVariation.length : Int)).toNat).map
        (fun (k : Nat) => (e.principleVariation.length : Int) + 1 + (k : Int)))
      { e with searchAborted := Abort.NO_ABORT } (c.evaluatePosition e.board) with
    | none => rfl
    | some p => rfl
  · rw [if_neg hdeep, if_neg hdeep]
    have hn : (e.maxPly + 1 - e.maxPly).toNat = 1 := by
      have : e.maxPly + 1 - e.maxPly = 1 := by omega
      rw [this]; rfl
    rw [thinkLoop_eq_runSchedule c fuel _ { e with searchAborted := Abort.NO_ABORT } _ _ rfl,
      hn]
    have hl : (List.range 1).map (fun (k : Nat) => e.maxPly + (k : Int)) = [e.maxPly] := by
      simp [List.range_succ]
    rw [hl]
    cases runSchedule c fuel [e.maxPly] { e with searchAborted := Abort.NO_ABORT }
      (c.evaluatePosition e.board) with
    | none => rfl
    | some p => rfl

theorem thinkEnter_fields (c : Collab B TT) (e : Engine B TT) :
    (thinkEnter c e).board = e.board ∧ (thinkEnter c e).maxPly = e.maxPly
      ∧ (thinkEnter c e).useIterDeep = e.useIterDeep := by
  unfold thinkEnter
  split <;> exact ⟨rfl, rfl, rfl⟩

/-- C20. With no opening-book move, `think` (entered in a state other than DONE_SEARCHING)
runs the depth schedule of the specification: (1) its result is that of one iteration per
depth of `scheduleDepths`, in order, each iteration getting the score of the one before as
its estimate (the static evaluation for the first), no iteration starting once the abort flag
is set, followed by the end of `think`; (2) when the timer always has time left no abort
occurs and every depth of the schedule is run; (3) entered in the state BETWEEN_SEARCHES
with iterative deepening the depths are 1, 2, ..., maxPly, so there are maxPly iterations
(in general they start at the length of the principal variation plus one); (4) without
iterative deepening the schedule is the one depth maxPly; (5) an iteration is one call of
`mtd` (with the estimate) or of the full-window `search` at its depth, its score is the
result of the iteration, and unless it ends with the abort flag set its line becomes the
principal variation - so `think` ends with the line of the last iteration. -/
theorem think_depth_schedule (c : Collab B TT) (fuel : Nat) (e : Engine B TT)
    (hstate : e.searchState ≠ SearchState.DONE_SEARCHING)
    (hbook : bookMove c (thinkEnter c e) = none) :
    think c fuel e
        = (runSchedule c fuel
            (scheduleDepths e.useIterDeep (thinkEnter c e).principleVariation.length e.maxPly)
            { thinkEnter c e with searchAborted := Abort.NO_ABORT }
            (c.evaluatePosition e.board)).map (fun r => (r.1, thinkFinish r.2))
      ∧ ((∀ (col : Color) (n : Nat), c.haveTimeLeftForMove col n = true) →
          runSchedule c fuel
              (scheduleDepths e.useIterDeep (thinkEnter c e).principleVariation.length
                e.maxPly)
              { thinkEnter c e with searchAborted := Abort.NO_ABORT }
              (c.evaluatePosition e.board)
            = runAll c fuel
              (scheduleDepths e.useIterDeep (thinkEnter c e).principleVariation.length
                e.maxPly)
              { thinkEnter c e with searchAborted := Abort.NO_ABORT }
              (c.evaluatePosition e.board))
      ∧ (e.searchState = SearchState.BETWEEN_SEARCHES → e.useIterDeep = true →
          scheduleDepths e.useIterDeep (thinkEnter c e).principleVariation.length e.maxPly
              = (List.range e.maxPly.toNat).map (fun (k : Nat) => (k : Int) + 1)
            ∧ (scheduleDepths e.useIterDeep (thinkEnter c e).principleVariation.length
                e.maxPly).length = e.maxPly.toNat)
      ∧ (e.useIterDeep = false →
          scheduleDepths e.useIterDeep (thinkEnter c e).principleVariation.length e.maxPly
            = [e.maxPly])
      ∧ (∀ (e0 : Engine B TT) (result d v : Int) (e1 : Engine B TT),
          thinkIter c fuel e0 result d = some (v, e1) →
          ∃ r : SearchResult B TT,
            (if e0.useMTDF then
                mtd c fuel e0 (if e0.useIterDeep then [] else e0.principleVariation) result d
              else search c fuel e0 (if e0.useIterDeep then [] else e0.principleVariation)
                (-INFIN) INFIN 0 d false true true) = some r
              ∧ v = r.value
              ∧ (e1.searchAborted = Abort.NO_ABORT → e1.principleVariation = r.pv)) := by
  obtain ⟨hb, hm, hd⟩ := thinkEnter_fields c e
  refine ⟨?_, fun htime => runSchedule_eq_runAll c fuel htime _ _ _ rfl, fun hs hdeep => ?_,
    fun hdeep => ?_, fun e0 result d v e1 h => ?_⟩
  · have h1 : scheduleDepths (thinkEnter c e).useIterDeep
        (thinkEnter c e).principleVariation.length (thinkEnter c e).maxPly
        = scheduleDepths e.useIterDeep (thinkEnter c e).principleVariation.length
          e.maxPly := by
      rw [hd, hm]
    have h2 : c.evaluatePosition (thinkEnter c e).board = c.evaluatePosition e.board := by
      rw [hb]
    unfold think
    rw [if_neg hstate, thinkRun_eq_schedule c fuel _ hbook, h1, h2]
  · have hlen : (thinkEnter c e).principleVariation.length = 0 := by
      unfold thinkEnter
      rw [if_pos hs]
      rfl
    unfold scheduleDepths
    rw [if_pos hdeep, hlen]
    simp only [Nat.cast_zero, sub_zero, zero_add, List.length_map, List.length_range, and_true]
    congr 1
    funext k
    omega
  · unfold scheduleDepths
    rw [if_neg (by rw [hdeep]; decide)]
  · obtain ⟨r, hr, hv, -, hpv⟩ := thinkIter_run c fuel e0 result d v e1 h
    exact ⟨r, hr, hv, hpv⟩


/-- C20 on a concrete input: the engine as constructed (maxPly 2, iterative deepening and
MTD(f) on) runs the depths 1 and 2, and returns the score 2 with a line of two moves in the
state DONE_SEARCHING. -/
theorem think_depth_schedule_witness :
    scheduleDepths engine0.useIterDeep (thinkEnter toyPlain engine0).principleVariation.length
        engine0.maxPly = [1, 2]
      ∧ think toyPlain 10 engine0
        = (runAll toyPlain 10
            (scheduleDepths engine0.useIterDeep
              (thinkEnter toyPlain engine0).principleVariation.length engine0.maxPly)
            { thinkEnter toyPlain engine0 with searchAborted := Abort.NO_ABORT }
            (toyPlain.evaluatePosition engine0.board)).map
          (fun r => (r.1, thinkFinish r.2))
      ∧ (think toyPlain 10 engine0).map
          (fun r => (r.1, r.2.principleVariation.length, r.2.searchState))
        = some (2, 2, SearchState.DONE_SEARCHING) := by
  have h := think_depth_schedule toyPlain 10 engine0 (by decide) (by decide)
  have ht : ∀ (col : Color) (n : Nat), toyPlain.haveTimeLeftForMove col n = true :=
    fun _ _ => rfl
  exact ⟨by decide, h.1.trans (congrArg _ (h.2.1 ht)), by decide!⟩

/-! ### C21: getMove -/

/-- C21. For every engine state, `getMove` returns the move of the first entry of the
principal variation when there is one and the empty move `Move()` otherwise, and the engine
afterwards is the engine before with the search state BETWEEN_SEARCHES: the principal
variation and every other field are unchanged. -/
theorem getMove_first_move_or_empty (e : Engine B TT) :
    (getMove e).1 = (match e.principleVariation with
                      | [] => Move.empty
                      | x :: _ => x.move)
      ∧ (getMove e).2 = { e with searchState := SearchState.BETWEEN_SEARCHES }
      ∧ (getMove e).2.searchState = SearchState.BETWEEN_SEARCHES
      ∧ (getMove e).2.principleVariation = e.principleVariation := by
  unfold getMove
  cases h : e.principleVariation with
  | nil => simp [h]
  | cons x rest => simp [h]

/-! ### C22: unrecognized option names -/

/-- C22. For every option name that is not one of the names `optionChanged` tests for, and
every value, `optionChanged` returns the engine unchanged. -/
theorem optionChanged_unrecognized (readInt : String → Int → Int) (e : Engine B TT)
    (whatOption value : String) (h : whatOption ∉ recognizedOptions) :
    optionChanged readInt e whatOption value = e := by
  simp only [recognizedOptions, List.mem_cons, List.mem_singleton, List.not_mem_nil, or_false,
    not_or] at h
  obtain ⟨h1, h2, h3, h4, h5, h6, h7, h8, h9, h10, h11, h12, h13⟩ := h
  unfold optionChanged
  rw [if_neg h1, if_neg h2, if_neg h3, if_neg h4, if_neg h5, if_neg h6, if_neg h7, if_neg h8,
    if_neg h9, if_neg h10, if_neg h11, if_neg h12, if_neg h13]

/-- C22 on a concrete input: the option name `ponder` is not recognized and leaves the
constructed engine as it is. -/
theorem optionChanged_unrecognized_witness :
    optionChanged toyReadInt engine0 "ponder" "on" = engine0 :=
  optionChanged_unrecognized toyReadInt engine0 "ponder" "on" (by decide)

/-! ### C23: malformed option values -/

/-- C23 as stated fails for the option `search`: a value other than `mtd`, `alphabeta` and
`negascout` selects no default, it leaves the choice that was in force.  After `negascout`
was selected, the value `bogus` leaves NegaScout selected and MTD(f) off, while the choice the
constructor makes is AlphaBeta with MTD(f). -/
theorem malformed_search_value_keeps_previous_choice :
    (engineNegaScout.searchMethod = SearchMethod.SEARCH_NS ∧ engineNegaScout.useMTDF = false)
      ∧ ((optionChanged toyReadInt engineNegaScout "search" "bogus").searchMethod
            = SearchMethod.SEARCH_NS
          ∧ (optionChanged toyReadInt engineNegaScout "search" "bogus").useMTDF = false)
      ∧ (engine0.searchMethod = SearchMethod.SEARCH_AB ∧ engine0.useMTDF = true) := by
  decide

/-- C23, amended. For each of the on/off options quiescence, nullmove, verifynull, hash,
hashadjust, iterative, post, qnull and qhash, and every value string, the flag of the option
is afterwards true if the value is exactly `on` and false for any other string; and for the
option `search` every value other than `mtd`, `alphabeta` and `negascout` leaves the engine,
and so the algorithm choice in force, unchanged. -/
theorem optionChanged_on_off (readInt : String → Int → Int) (e : Engine B TT)
    (whatOption value : String) (h : whatOption ∈ onOffOptions) :
    optionFlag (optionChanged readInt e whatOption value) whatOption
        = some (decide (value = "on"))
      ∧ (value ≠ "mtd" → value ≠ "alphabeta" → value ≠ "negascout" →
          optionChanged readInt e "search" value = e) := by
  constructor
  · simp only [onOffOptions, List.mem_cons, List.mem_singleton, List.not_mem_nil,
      or_false] at h
    by_cases hv : value = "on"
    · rcases h with h | h | h | h | h | h | h | h | h <;> subst h <;>
        simp [optionChanged, optionFlag, hv]
    · rcases h with h | h | h | h | h | h | h | h | h <;> subst h <;>
        simp [optionChanged, optionFlag, hv]
  · intro h1 h2 h3
    show (if value = "mtd" then _ else if value = "alphabeta" then _
      else if value = "negascout" then _ else e) = e
    rw [if_neg h1, if_neg h2, if_neg h3]

/-- C23 amended, on a concrete input: the value `yes` switches the transposition table off,
the value `on` switches it on. -/
theorem optionChanged_on_off_witness :
    optionFlag (optionChanged toyReadInt engine0 "hash" "yes") "hash" = some false
      ∧ optionFlag (optionChanged toyReadInt engine0 "hash" "on") "hash" = some true :=
  ⟨(optionChanged_on_off toyReadInt engine0 "hash" "yes" (by decide)).1,
    (optionChanged_on_off toyReadInt engine0 "hash" "on" (by decide)).1⟩

/-! ### C28: MTD(f) is never combined with NegaScout -/

/-- What `optionChanged` can do to the algorithm choice: leave it, select AlphaBeta, or switch
MTD(f) off. -/
theorem optionChanged_method (readInt : String → Int → Int) (e : Engine B TT)
    (whatOption value : String) :
    ((optionChanged readInt e whatOption value).useMTDF = e.useMTDF
        ∧ (optionChanged readInt e whatOption value).searchMethod = e.searchMethod)
      ∨ (optionChanged readInt e whatOption value).searchMethod = SearchMethod.SEARCH_AB
      ∨ (optionChanged readInt e whatOption value).useMTDF = false := by
  unfold optionChanged
  by_cases h0 : whatOption = "searchPly"
  · rw [if_pos h0]; exact Or.inl ⟨rfl, rfl⟩
  rw [if_neg h0]
  by_cases h1 : whatOption = "quiescence"
  · rw [if_pos h1]; split <;> exact Or.inl ⟨rfl, rfl⟩
  rw [if_neg h1]
  by_cases h2 : whatOption = "useOpeningBook"
  · rw [if_pos h2]; split <;> exact Or.inl ⟨rfl, rfl⟩
  rw [if_neg h2]
  by_cases h3 : whatOption = "search"
  · rw [if_pos h3]
    by_cases v1 : value = "mtd"
    · rw [if_pos v1]; exact Or.inr (Or.inl rfl)
    rw [if_neg v1]
    by_cases v2 : value = "alphabeta"
    · rw [if_pos v2]; exact Or.inr (Or.inl rfl)
    rw [if_neg v2]
    by_cases v3 : value = "negascout"
    · rw [if_pos v3]; exact Or.inr (Or.inr rfl)
    rw [if_neg v3]; exact Or.inl ⟨rfl, rfl⟩
  rw [if_neg h3]
  by_cases h4 : whatOption = "nullmove"
  · rw [if_pos h4]; split <;> exact Or.inl ⟨rfl, rfl⟩
  rw [if_neg h4]
  by_cases h5 : whatOption = "verifynull"
  · rw [if_pos h5]; split <;> exact Or.inl ⟨rfl, rfl⟩
  rw [if_neg h5]
  by_cases h6 : whatOption = "hash"
  · rw [if_pos h6]; split <;> exact Or.inl ⟨rfl, rfl⟩
  rw [if_neg h6]
  by_cases h7 : whatOption = "hashadjust"
  · rw [if_pos h7]; split <;> exact Or.inl ⟨rfl, rfl⟩
  rw [if_neg h7]
  by_cases h8 : whatOption = "iterative"
  · rw [if_pos h8]; split <;> exact Or.inl ⟨rfl, rfl⟩
  rw [if_neg h8]
  by_cases h9 : whatOption = "post"
  · rw [if_pos h9]; split <;> exact Or.inl ⟨rfl, rfl⟩
  rw [if_neg h9]
  by_cases h10 : whatOption = "qnull"
  · rw [if_pos h10]; split <;> exact Or.inl ⟨rfl, rfl⟩
  rw [if_neg h10]
  by_cases h11 : whatOption = "qhash"
  · rw [if_pos h11]; split <;> exact Or.inl ⟨rfl, rfl⟩
  rw [if_neg h11]
  by_cases h12 : whatOption = "computerColor"
  · rw [if_pos h12]; exact Or.inl ⟨rfl, rfl⟩
  rw [if_neg h12]
  exact Or.inl ⟨rfl, rfl⟩

/-- C28. From a configuration in which MTD(f) is on only with AlphaBeta selected - such as
the one the constructor makes (MTD(f) on, AlphaBeta) - every sequence of `optionChanged`
calls, whatever the names and values, leads to a configuration in which MTD(f) is on only
with AlphaBeta selected. -/
theorem mtdf_never_with_negaScout (readInt : String → Int → Int) (e : Engine B TT)
    (h0 : e.useMTDF = true → e.searchMethod = SearchMethod.SEARCH_AB)
    (options : List (String × String)) :
    (options.foldl (fun e1 o => optionChanged readInt e1 o.1 o.2) e).useMTDF = true →
      (options.foldl (fun e1 o => optionChanged readInt e1 o.1 o.2) e).searchMethod
        = SearchMethod.SEARCH_AB := by
  have step : ∀ (e1 : Engine B TT) (name value : String),
      (e1.useMTDF = true → e1.searchMethod = SearchMethod.SEARCH_AB) →
      ((optionChanged readInt e1 name value).useMTDF = true →
        (optionChanged readInt e1 name value).searchMethod = SearchMethod.SEARCH_AB) := by
    intro e1 name value h1
    obtain h | h | h := optionChanged_method readInt e1 name value
    · rw [h.1, h.2]; exact h1
    · intro _; exact h
    · intro h2; rw [h] at h2; exact absurd h2 (by decide)
  have all : ∀ (os : List (String × String)) (e1 : Engine B TT),
      (e1.useMTDF = true → e1.searchMethod = SearchMethod.SEARCH_AB) →
      ((os.foldl (fun e2 o => optionChanged readInt e2 o.1 o.2) e1).useMTDF = true →
        (os.foldl (fun e2 o => optionChanged readInt e2 o.1 o.2) e1).searchMethod
          = SearchMethod.SEARCH_AB) := by
    intro os
    induction os with
    | nil => intro e1 h1; exact h1
    | cons o rest ih =>
      intro e1 h1
      exact ih _ (step e1 o.1 o.2 h1)
  exact all options e h0

/-- C28 on a concrete input: selecting NegaScout switches MTD(f) off, and selecting MTD(f)
afterwards selects AlphaBeta again. -/
theorem mtdf_never_with_negaScout_witness :
    (engine0.useMTDF = true ∧ engine0.searchMethod = SearchMethod.SEARCH_AB)
      ∧ (optionChanged toyReadInt engine0 "search" "negascout").useMTDF = false
      ∧ ((([("search", "negascout"), ("hash", "off"), ("search", "mtd")] :
            List (String × String)).foldl
          (fun e1 o => optionChanged toyReadInt e1 o.1 o.2) engine0).useMTDF = true →
        (([("search", "negascout"), ("hash", "off"), ("search", "mtd")] :
            List (String × String)).foldl
          (fun e1 o => optionChanged toyReadInt e1 o.1 o.2) engine0).searchMethod
          = SearchMethod.SEARCH_AB) :=
  ⟨⟨rfl, rfl⟩, by decide, mtdf_never_with_negaScout toyReadInt engine0 (fun _ => rfl)
    [("search", "negascout"), ("hash", "off"), ("search", "mtd")]⟩

/-! ### C29: alphaBeta is fail-soft negamax -/

/-- The loop of `alphaBeta` and the scan of the specification go through the same states. -/
theorem alphaBetaLoop_eq_scan (c : Collab B TT) (srch : SearchFn B TT)
    (alpha beta ply depth : Int) (verify : Bool) :
    ∀ (moves : List Move) (st : ABState B TT), alpha ≤ st.alpha →
      st.alpha ≤ max alpha st.best → -INFIN ≤ st.best →
      (alphaBetaLoop c srch beta ply depth verify moves st).map
          (fun s => (s.best, s.myPV, s.eng))
        = negamaxScan c srch alpha beta ply depth verify moves st.best st.myPV st.eng := by
  intro moves
  induction moves with
  | nil => intro st _ _ _; rfl
  | cons m rest ih =>
    intro st h1 h2 h3
    rw [alphaBetaLoop, negamaxScan]
    by_cases hb : st.best < beta
    · rw [if_pos hb, if_neg (by omega : ¬ beta ≤ st.best), abAlpha_eq st alpha h1 h2]
      cases hr : srch (doMove c st.eng m) [⟨m, Cutoff.NO_CUTOFF⟩] (-beta)
          (-(max alpha st.best)) (ply + 1) depth false true verify with
      | none => rfl
      | some r =>
        dsimp only
        have ha : abAlpha st = max alpha st.best := abAlpha_eq st alpha h1 h2
        by_cases hv : -r.value > st.best
        · have hu : abUpdate c st r = ⟨abAlpha st, -r.value, r.pv, undoMove c r.eng⟩ := by
            unfold abUpdate
            rw [if_pos ⟨by omega, hv⟩]
          rw [ih (abUpdate c st r) (by rw [hu, ha]; exact le_max_left _ _)
            (by rw [hu, ha]; show max alpha st.best ≤ max alpha (-r.value); omega)
            (by rw [hu]; show -INFIN ≤ -r.value; omega), hu, if_pos hv]
          have hm : max st.best (-r.value) = -r.value := by omega
          rw [hm]
        · have hu : abUpdate c st r = ⟨abAlpha st, st.best, st.myPV, undoMove c r.eng⟩ := by
            unfold abUpdate
            rw [if_neg (fun h => hv h.2)]
          rw [ih (abUpdate c st r) (by rw [hu, ha]; exact le_max_left _ _)
            (by rw [hu, ha]) (by rw [hu]; exact h3), hu, if_neg hv]
          have hm : max st.best (-r.value) = st.best := by omega
          rw [hm]
    · rw [if_neg hb, if_pos (by omega : beta ≤ st.best)]
      rfl

/-- C29. For every search function for the children, engine, move list and window,
`alphaBeta` is the fail-soft negamax of the specification: it makes the moves in order while
the running maximum of the negated child scores is below beta, searches each child with the
window `(-beta, -max(alpha, best so far))`, returns the maximum so far (below alpha or above
beta as it may be) and appends the line of the first move attaining it to `pv`; when the list
is empty or no child score is above `-INFIN` it returns `CHECKMATE` and leaves `pv` as it
is. -/
theorem alphaBeta_is_fail_soft_negamax (c : Collab B TT) (srch : SearchFn B TT)
    (e : Engine B TT) (pv : List PVEntry) (moveList : List Move) (alpha beta ply depth : Int)
    (legalonly nullOk verify : Bool) :
    alphaBeta c srch e pv moveList alpha beta ply depth legalonly nullOk verify
      = failSoftNegamax c srch e pv moveList alpha beta ply depth verify := by
  have h := alphaBetaLoop_eq_scan c srch alpha beta ply depth verify moveList
    ⟨alpha, -INFIN, [], e⟩ (le_refl _) (le_max_left _ _) (le_refl _)
  unfold alphaBeta failSoftNegamax
  rw [← h]
  cases alphaBetaLoop c srch beta ply depth verify moveList ⟨alpha, -INFIN, [], e⟩ with
  | none => rfl
  | some st => rfl

/-- C29 on a concrete input: at the root of `toyPlain` with depth 1 and the window (-5, -3)
the capture 3x4 is searched first and scores -2, at least beta, so the move 1-2 is not made
(one node is entered, the child reached by 3x4) and -2, above beta, is returned with the
line 3x4. -/
theorem alphaBeta_is_fail_soft_negamax_witness :
    (failSoftNegamax toyPlain (search toyPlain 1) enginePlain [] [⟨3, 4⟩, ⟨1, 2⟩] (-5) (-3) 0 1
        true).map (fun r => (r.value, r.pv, r.eng.nodeCount))
      = some (-2, [⟨⟨3, 4⟩, Cutoff.NO_CUTOFF⟩], 1) := by
  rw [← alphaBeta_is_fail_soft_negamax toyPlain (search toyPlain 1) enginePlain []
    [⟨3, 4⟩, ⟨1, 2⟩] (-5) (-3) 0 1 false true true]
  decide!

/-! ### C26: the verified null-move retry -/

/-- With `failHigh` not set, one pass through the label `research` is all there is. -/
theorem researchLoop_single (c : Collab B TT) (srch : SearchFn B TT) (pv : List PVEntry)
    (moveList : List Move) (alpha beta ply : Int) (legalonly nullOk : Bool) (n : Nat)
    (e : Engine B TT) (depth : Int) (verify : Bool) (value : Int) :
    researchLoop c srch pv moveList alpha beta ply legalonly nullOk (n + 1) e depth verify
        false value
      = (match dispatch c srch e moveList alpha beta ply depth legalonly nullOk verify
            value with
        | none => none
        | some r =>
          if r.eng.searchAborted ≠ Abort.NO_ABORT then some ⟨r.value, pv ++ r.pv, r.eng⟩
          else some (searchPost c r.eng pv r.pv alpha beta ply depth r.value)) := by
  rw [researchLoop]
  cases dispatch c srch e moveList alpha beta ply depth legalonly nullOk verify value with
  | none => rfl
  | some r =>
    dsimp only
    by_cases hab : r.eng.searchAborted ≠ Abort.NO_ABORT
    · rw [if_pos hab, if_pos hab]
    · rw [if_neg hab, if_neg hab,
        if_neg (show ¬ (false = true ∧ r.value < beta) from fun h => Bool.false_ne_true h.1)]

/-- The label `research` is passed at most twice: two passes allowed give the result of any
larger number, which is the unrolled `searchTail`. -/
theorem researchLoop_eq_searchTail (c : Collab B TT) (srch : SearchFn B TT)
    (pv : List PVEntry) (moveList : List Move) (alpha beta ply : Int)
    (legalonly nullOk : Bool) (n : Nat) (e : Engine B TT) (depth : Int)
    (verify failHigh : Bool) (value : Int) :
    researchLoop c srch pv moveList alpha beta ply legalonly nullOk (n + 2) e depth verify
        failHigh value
      = searchTail c srch e pv moveList alpha beta ply depth legalonly nullOk verify failHigh
          value := by
  rw [researchLoop, searchTail]
  cases dispatch c srch e moveList alpha beta ply depth legalonly nullOk verify value with
  | none => rfl
  | some r =>
    dsimp only
    by_cases hab : r.eng.searchAborted ≠ Abort.NO_ABORT
    · rw [if_pos hab, if_pos hab]
    · rw [if_neg hab, if_neg hab]
      by_cases hf : failHigh = true ∧ r.value < beta
      · rw [if_pos hf, if_pos hf, researchLoop_single]
      · rw [if_neg hf, if_neg hf]

/-- C26. Within one invocation of `search` the dispatch at the label `research` is executed
at most twice: (1) the loop over the label gives, with two passes allowed, the same result as
with any larger number of passes (the unrolled `searchTail` that `search` is defined with);
(2) with `failHigh` not set there is one pass; (3) with `failHigh` set, no abort and a first
value below beta, the second pass dispatches with `depth + 1` and `verify` set, and its
result is final; with an abort or a first value not below beta there is no second pass;
(4) `failHigh` is set only in the branch of the null-move code in which verification is
active (`verify && verifyNull`) and the probe scored above beta, where the first dispatch
gets `depth - 2`: when the null move is not tried, or the probe scores at most beta, the moves
are searched with `failHigh` not set, and without verification a probe above beta returns
the null cutoff without any dispatch. -/
theorem research_at_most_twice (c : Collab B TT) (srch : SearchFn B TT) :
    (∀ (pv : List PVEntry) (moveList : List Move) (alpha beta ply : Int)
        (legalonly nullOk : Bool) (n : Nat) (e : Engine B TT) (depth : Int)
        (verify failHigh : Bool) (value : Int),
        researchLoop c srch pv moveList alpha beta ply legalonly nullOk (n + 2) e depth verify
            failHigh value
          = researchLoop c srch pv moveList alpha beta ply legalonly nullOk 2 e depth verify
            failHigh value
        ∧ researchLoop c srch pv moveList alpha beta ply legalonly nullOk 2 e depth verify
            failHigh value
          = searchTail c srch e pv moveList alpha beta ply depth legalonly nullOk verify
            failHigh value)
      ∧ (∀ (pv : List PVEntry) (moveList : List Move) (alpha beta ply : Int)
          (legalonly nullOk : Bool) (n : Nat) (e : Engine B TT) (depth : Int) (verify : Bool)
          (value : Int),
          researchLoop c srch pv moveList alpha beta ply legalonly nullOk (n + 1) e depth
              verify false value
            = researchLoop c srch pv moveList alpha beta ply legalonly nullOk 1 e depth
              verify false value)
      ∧ (∀ (pv : List PVEntry) (moveList : List Move) (alpha beta ply : Int)
          (legalonly nullOk : Bool) (n : Nat) (e : Engine B TT) (depth : Int)
          (verify failHigh : Bool) (value : Int) (r : SearchResult B TT),
          dispatch c srch e moveList alpha beta ply depth legalonly nullOk verify value
            = some r →
          (r.eng.searchAborted = Abort.NO_ABORT → failHigh = true → r.value < beta →
            researchLoop c srch pv moveList alpha beta ply legalonly nullOk (n + 2) e depth
                verify failHigh value
              = (match dispatch c srch r.eng moveList alpha beta ply (depth + 1) legalonly
                    nullOk true r.value with
                | none => none
                | some r2 =>
                  if r2.eng.searchAborted ≠ Abort.NO_ABORT then
                    some ⟨r2.value, pv ++ r2.pv, r2.eng⟩
                  else some (searchPost c r2.eng pv r2.pv alpha beta ply (depth + 1)
                    r2.value)))
          ∧ (r.eng.searchAborted ≠ Abort.NO_ABORT ∨ failHigh = false ∨ beta ≤ r.value →
            researchLoop c srch pv moveList alpha beta ply legalonly nullOk (n + 1) e depth
                verify failHigh value
              = (if r.eng.searchAborted ≠ Abort.NO_ABORT then
                  some ⟨r.value, pv ++ r.pv, r.eng⟩
                else some (searchPost c r.eng pv r.pv alpha beta ply depth r.value))))
      ∧ (∀ (ts : TableSearchResult B TT) (pv : List PVEntry) (ply depth : Int)
          (legalonly verify : Bool),
          (¬ (ply > 0 ∧ legalonly = false ∧ (ts.eng.allowNull && ts.nullok) = true
              ∧ ((verify && ts.eng.verifyNull) = false ∨ depth - ply > 2)) →
            searchNull c srch ts pv ply depth legalonly verify
              = searchMoves c srch ts.eng pv ts.alpha ts.beta ply depth legalonly
                (ts.eng.allowNull && ts.nullok) (verify && ts.eng.verifyNull) false 0)
          ∧ (∀ r : SearchResult B TT,
              (ply > 0 ∧ legalonly = false ∧ (ts.eng.allowNull && ts.nullok) = true
                ∧ ((verify && ts.eng.verifyNull) = false ∨ depth - ply > 2)) →
              srch (doNullMove c ts.eng) [] (-ts.beta) (1 - ts.beta) (ply + 1)
                (depth - ts.eng.nullMoveReductionFactor) false false
                (verify && ts.eng.verifyNull) = some r →
              (-r.value ≤ ts.beta →
                searchNull c srch ts pv ply depth legalonly verify
                  = searchMoves c srch (undoMove c r.eng) pv ts.alpha ts.beta ply depth
                    legalonly (ts.eng.allowNull && ts.nullok) (verify && ts.eng.verifyNull)
                    false (-r.value))
              ∧ (-r.value > ts.beta → (verify && ts.eng.verifyNull) = false →
                searchNull c srch ts pv ply depth legalonly verify
                  = some ⟨-r.value, setLastCutoff pv Cutoff.NULL_CUTOFF, undoMove c r.eng⟩)
              ∧ (-r.value > ts.beta → (verify && ts.eng.verifyNull) = true →
                searchNull c srch ts pv ply depth legalonly verify
                  = searchMoves c srch (undoMove c r.eng) pv ts.alpha ts.beta ply (depth - 2)
                    legalonly false false true (-r.value)))) := by
  refine ⟨fun pv moveList alpha beta ply legalonly nullOk n e depth verify failHigh value => ?_,
    fun pv moveList alpha beta ply legalonly nullOk n e depth verify value => ?_,
    fun pv moveList alpha beta ply legalonly nullOk n e depth verify failHigh value r hr => ?_,
    fun ts pv ply depth legalonly verify => ?_⟩
  · rw [researchLoop_eq_searchTail, researchLoop_eq_searchTail c srch pv moveList alpha beta
      ply legalonly nullOk 0]
    exact ⟨rfl, rfl⟩
  · rw [researchLoop_single, researchLoop_single c srch pv moveList alpha beta ply legalonly
      nullOk 0]
  · constructor
    · intro hab hf hv
      rw [researchLoop, hr]
      dsimp only
      rw [if_neg (fun h => h hab), if_pos ⟨hf, hv⟩, researchLoop_single]
    · intro h
      rw [researchLoop, hr]
      dsimp only
      by_cases hab : r.eng.searchAborted ≠ Abort.NO_ABORT
      · rw [if_pos hab, if_pos hab]
      · rw [if_neg hab, if_neg hab]
        rcases h with h | h | h
        · exact absurd h hab
        · rw [if_neg (fun hh => by rw [h] at hh; exact Bool.false_ne_true hh.1)]
        · rw [if_neg (fun hh => by omega)]
  · constructor
    · intro hn
      unfold searchNull
      rw [if_neg hn]
    · intro r hc hr
      refine ⟨fun hv => ?_, fun hv hver => ?_, fun hv hver => ?_⟩
      · unfold searchNull
        rw [if_pos hc, hr]
        dsimp only
        rw [if_neg (by omega : ¬ -r.value > ts.beta)]
      · unfold searchNull
        rw [if_pos hc, hr]
        dsimp only
        rw [if_pos hv, if_neg (by rw [hver]; exact Bool.false_ne_true)]
      · unfold searchNull
        rw [if_pos hc, hr]
        dsimp only
        rw [if_pos hv, if_pos hver]

/-- C26 on a concrete input: a node of `toyPath` entered with `failHigh` set, depth 1 and the
window (-100, 100).  The first dispatch scores -9, below beta, so the label is passed a
second time at depth 2; that dispatch scores 18 and is final: three nodes are entered in all,
and allowing seven passes changes nothing. -/
theorem research_at_most_twice_witness :
    researchLoop toyPath (search toyPath 5) [] [⟨1, 2⟩] (-100) 100 0 false true 7 engine0 1
        false true 0
      = searchTail toyPath (search toyPath 5) engine0 [] [⟨1, 2⟩] (-100) 100 0 1 false true
        false true 0
      ∧ (dispatch toyPath (search toyPath 5) engine0 [⟨1, 2⟩] (-100) 100 0 1 false true false
          0).map (fun r => r.value) = some (-9)
      ∧ (searchTail toyPath (search toyPath 5) engine0 [] [⟨1, 2⟩] (-100) 100 0 1 false true
          false true 0).map (fun r => (r.value, r.eng.nodeCount)) = some (18, 3) :=
  ⟨((research_at_most_twice toyPath (search toyPath 5)).1 [] [⟨1, 2⟩] (-100) 100 0 false
      true 5 engine0 1 false true 0).1.trans
    ((research_at_most_twice toyPath (search toyPath 5)).1 [] [⟨1, 2⟩] (-100) 100 0 false
      true 5 engine0 1 false true 0).2, by decide!, by decide!⟩

/-! ### C27: a run of think does not depend on what the last run left -/

theorem eq_with_priority (e e1 : Engine B TT)
    (h : ({ e1 with priorityTable := [] } : Engine B TT) = { e with priorityTable := [] }) :
    e1 = { e with priorityTable := e1.priorityTable } := by
  have h1 : e1 = { ({ e1 with priorityTable := [] } : Engine B TT) with
      priorityTable := e1.priorityTable } := rfl
  rw [h] at h1
  exact h1

/-- The content of the priority table at the entry of `search` has no influence on its
result: the table is cleared before it is used. -/
theorem search_priority_irrelevant (c : Collab B TT) (fuel : Nat) (e : Engine B TT)
    (pt : List Move) (pv : List PVEntry) (alpha beta ply depth : Int)
    (legalonly nullOk verify : Bool) :
    (search c fuel { e with priorityTable := pt } pv alpha beta ply depth legalonly nullOk
        verify).map observedSearch
      = (search c fuel e pv alpha beta ply depth legalonly nullOk verify).map
        observedSearch := by
  cases fuel with
  | zero => rfl
  | succ n =>
    rw [search_succ]
    have hn : nodeEntered ({ e with priorityTable := pt } : Engine B TT) = nodeEntered e := rfl
    unfold searchBody
    by_cases hab : e.searchAborted ≠ Abort.NO_ABORT
    · rw [if_pos hab, if_pos (show ({ e with priorityTable := pt } : Engine B TT).searchAborted
        ≠ Abort.NO_ABORT from hab)]
      rfl
    · rw [if_neg hab, if_neg (show ¬ ({ e with priorityTable := pt } : Engine B TT).searchAborted
        ≠ Abort.NO_ABORT from hab)]
      by_cases ht : (!(c.haveTimeLeftForMove e.myTimer e.clock)) = true
      · rw [if_pos ht, if_pos (show (!(c.haveTimeLeftForMove
          ({ e with priorityTable := pt } : Engine B TT).myTimer
          ({ e with priorityTable := pt } : Engine B TT).clock)) = true from ht)]
        rfl
      · rw [if_neg ht, if_neg (show ¬ (!(c.haveTimeLeftForMove
          ({ e with priorityTable := pt } : Engine B TT).myTimer
          ({ e with priorityTable := pt } : Engine B TT).clock)) = true from ht), hn]

theorem observedSearch_eq (r r1 : SearchResult B TT)
    (h : observedSearch r1 = observedSearch r) :
    r1.value = r.value ∧ r1.pv = r.pv
      ∧ r1.eng = { r.eng with priorityTable := r1.eng.priorityTable } := by
  simp only [observedSearch, Prod.mk.injEq] at h
  exact ⟨h.1, h.2.1, eq_with_priority _ _ h.2.2⟩

theorem mtdLoop_priority_irrelevant (c : Collab B TT) (fuel : Nat) (depth : Int) :
    ∀ (n : Nat) (e : Engine B TT) (pt : List Move) (g upperbound lowerbound : Int),
      (mtdLoop c fuel depth n { e with priorityTable := pt } g upperbound lowerbound).map
          observedSearch
        = (mtdLoop c fuel depth n e g upperbound lowerbound).map observedSearch := by
  intro n
  induction n with
  | zero => intro e pt g upperbound lowerbound; rfl
  | succ n ih =>
    intro e pt g upperbound lowerbound
    have hs := search_priority_irrelevant c fuel e pt [] (mtdBeta g lowerbound - 1)
      (mtdBeta g lowerbound) 0 depth false true true
    rw [mtdLoop, mtdLoop]
    cases h1 : search c fuel { e with priorityTable := pt } [] (mtdBeta g lowerbound - 1)
        (mtdBeta g lowerbound) 0 depth false true true with
    | none =>
      cases h2 : search c fuel e [] (mtdBeta g lowerbound - 1) (mtdBeta g lowerbound) 0 depth
          false true true with
      | none => rfl
      | some r => rw [h1, h2] at hs; exact absurd hs (by simp)
    | some r1 =>
      cases h2 : search c fuel e [] (mtdBeta g lowerbound - 1) (mtdBeta g lowerbound) 0 depth
          false true true with
      | none => rw [h1, h2] at hs; exact absurd hs (by simp)
      | some r =>
        rw [h1, h2] at hs
        simp only [Option.map_some', Option.some.injEq] at hs
        obtain ⟨hv, -, he⟩ := observedSearch_eq r r1 hs
        dsimp only
        rw [hv]
        by_cases hc : mtdLower g lowerbound r.value < mtdUpper g upperbound lowerbound r.value
        · rw [if_pos hc, if_pos hc, he]
          exact ih r.eng r1.eng.priorityTable _ _ _
        · rw [if_neg hc, if_neg hc]
          simp only [Option.map_some', Option.some.injEq]
          exact hs

theorem thinkIter_priority_irrelevant (c : Collab B TT) (fuel : Nat) (e : Engine B TT)
    (pt : List Move) (result i : Int) :
    (thinkIter c fuel { e with priorityTable := pt } result i).map observed
      = (thinkIter c fuel e result i).map observed := by
  have hrun : ((if e.useMTDF then
        mtd c fuel ({ e with priorityTable := pt } : Engine B TT)
          (if e.useIterDeep then [] else e.principleVariation) result i
      else search c fuel { e with priorityTable := pt }
        (if e.useIterDeep then [] else e.principleVariation) (-INFIN) INFIN 0 i false true
        true)).map observedSearch
      = ((if e.useMTDF then
          mtd c fuel e (if e.useIterDeep then [] else e.principleVariation) result i
        else search c fuel e (if e.useIterDeep then [] else e.principleVariation) (-INFIN)
          INFIN 0 i false true true)).map observedSearch := by
    split
    · exact mtdLoop_priority_irrelevant c fuel i _ _ _ _ _ _
    · exact search_priority_irrelevant c fuel e pt _ _ _ _ _ _ _ _
  unfold thinkIter
  dsimp only
  generalize (if e.useMTDF then
        mtd c fuel ({ e with priorityTable := pt } : Engine B TT)
          (if e.useIterDeep then [] else e.principleVariation) result i
      else search c fuel { e with priorityTable := pt }
        (if e.useIterDeep then [] else e.principleVariation) (-INFIN) INFIN 0 i false true
        true) = o1 at hrun ⊢
  generalize (if e.useMTDF then
          mtd c fuel e (if e.useIterDeep then [] else e.principleVariation) result i
        else search c fuel e (if e.useIterDeep then [] else e.principleVariation) (-INFIN)
          INFIN 0 i false true true) = o at hrun ⊢
  cases o1 with
  | none =>
    cases o with
    | none => rfl
    | some r => exact absurd hrun (by simp)
  | some r1 =>
    cases o with
    | none => exact absurd hrun (by simp)
    | some r =>
      simp only [Option.map_some', Option.some.injEq] at hrun
      obtain ⟨hv, hp, he⟩ := observedSearch_eq r r1 hrun
      dsimp only
      rw [hv, hp, he]
      dsimp only
      split
      · split <;> rfl
      · rfl

theorem thinkLoop_priority_irrelevant (c : Collab B TT) (fuel : Nat) :
    ∀ (n : Nat) (e : Engine B TT) (pt : List Move) (result i : Int),
      (thinkLoop c fuel n { e with priorityTable := pt } result i).map observed
        = (thinkLoop c fuel n e result i).map observed := by
  intro n
  induction n with
  | zero =>
    intro e pt result i
    rw [thinkLoop, thinkLoop]
    by_cases hc : i ≤ e.maxPly ∧ e.searchAborted = Abort.NO_ABORT
    · rw [if_pos hc, if_pos (show i ≤ ({ e with priorityTable := pt } : Engine B TT).maxPly
        ∧ ({ e with priorityTable := pt } : Engine B TT).searchAborted = Abort.NO_ABORT from hc)]
    · rw [if_neg hc, if_neg (show ¬ (i ≤ ({ e with priorityTable := pt } : Engine B TT).maxPly
        ∧ ({ e with priorityTable := pt } : Engine B TT).searchAborted = Abort.NO_ABORT)
        from hc)]
      rfl
  | succ n ih =>
    intro e pt result i
    rw [thinkLoop, thinkLoop]
    by_cases hc : i ≤ e.maxPly ∧ e.searchAborted = Abort.NO_ABORT
    · rw [if_pos hc, if_pos (show i ≤ ({ e with priorityTable := pt } : Engine B TT).maxPly
        ∧ ({ e with priorityTable := pt } : Engine B TT).searchAborted = Abort.NO_ABORT from hc)]
      have hit := thinkIter_priority_irrelevant c fuel e pt result i
      cases h1 : thinkIter c fuel { e with priorityTable := pt } result i with
      | none =>
        cases h2 : thinkIter c fuel e result i with
        | none => rfl
        | some p => rw [h1, h2] at hit; exact absurd hit (by simp)
      | some p1 =>
        cases h2 : thinkIter c fuel e result i with
        | none => rw [h1, h2] at hit; exact absurd hit (by simp)
        | some p =>
          rw [h1, h2] at hit
          simp only [Option.map_some', Option.some.injEq, observed, Prod.mk.injEq] at hit
          obtain ⟨r1, e1⟩ := p1
          obtain ⟨r, e2⟩ := p
          dsimp only at hit ⊢
          rw [hit.1, eq_with_priority e2 e1 hit.2]
          exact ih e2 e1.priorityTable r (i + 1)
    · rw [if_neg hc, if_neg (show ¬ (i ≤ ({ e with priorityTable := pt } : Engine B TT).maxPly
        ∧ ({ e with priorityTable := pt } : Engine B TT).searchAborted = Abort.NO_ABORT)
        from hc)]
      rfl

theorem thinkFinish_pv (e : Engine B TT) :
    (thinkFinish e).principleVariation = e.principleVariation := by
  unfold thinkFinish
  split <;> rfl

/-- After the entry of `think`, the score and the principal variation do not depend on the
priority table and the abort flag the engine came with. -/
theorem thinkRun_priority_irrelevant (c : Collab B TT) (fuel : Nat) (e : Engine B TT)
    (pt : List Move) (ab : Abort) :
    (thinkRun c fuel { e with priorityTable := pt, searchAborted := ab }).map
        (fun r => (r.1, r.2.principleVariation))
      = (thinkRun c fuel e).map (fun r => (r.1, r.2.principleVariation)) := by
  have hbook : bookMove c ({ e with priorityTable := pt, searchAborted := ab } : Engine B TT)
      = bookMove c e := rfl
  unfold thinkRun
  rw [hbook]
  cases bookMove c e with
  | some m => rfl
  | none =>
    dsimp only
    have hl := thinkLoop_priority_irrelevant c fuel
      (e.maxPly + 1 - (if e.useIterDeep then (e.principleVariation.length : Int) + 1
        else e.maxPly)).toNat
      { e with searchAborted := Abort.NO_ABORT } pt (c.evaluatePosition e.board)
      (if e.useIterDeep then (e.principleVariation.length : Int) + 1 else e.maxPly)
    have hobs : ∀ o : Option (Int × Engine B TT),
        (match o with
          | none => none
          | some (result, e1) => some (result, thinkFinish e1)).map
            (fun (r : Int × Engine B TT) => (r.1, r.2.principleVariation))
          = (o.map observed).map
            (fun (r : Int × Engine B TT) => (r.1, r.2.principleVariation)) := by
      intro o
      cases o with
      | none => rfl
      | some p =>
        obtain ⟨r, e1⟩ := p
        simp only [Option.map_some', Option.some.injEq, observed, Prod.mk.injEq, true_and]
        exact thinkFinish_pv e1
    rw [hobs, hobs]
    exact congrArg _ hl

/-- C27. Two runs of `think` that start in the state BETWEEN_SEARCHES on the same position
with the same configuration, collaborators and timer answers return the same score and leave
the same principal variation, whatever the transposition table, the killer tables, the
priority table, the principal variation, the node counter, the abort flag and the timer
pointer held before - provided `flush` leaves the same table whatever the table held. -/
theorem think_deterministic (c : Collab B TT) (fuel : Nat) (e : Engine B TT)
    (hflush : ∀ t1 t2 : TT, c.flush t1 = c.flush t2)
    (hstate : e.searchState = SearchState.BETWEEN_SEARCHES)
    (t : TT) (k1 k2 pt : List Move) (pv : List PVEntry) (n : Int) (ab : Abort) (tm : Color) :
    (think c fuel
        { e with
          transposTable := t, killer1 := k1, killer2 := k2, priorityTable := pt,
          principleVariation := pv, nodeCount := n, searchAborted := ab, myTimer := tm }).map
        (fun r => (r.1, r.2.principleVariation))
      = (think c fuel e).map (fun r => (r.1, r.2.principleVariation)) := by
  unfold think
  rw [if_neg (by rw [hstate]; decide),
    if_neg (show ¬ ({ e with
          transposTable := t, killer1 := k1, killer2 := k2, priorityTable := pt,
          principleVariation := pv, nodeCount := n, searchAborted := ab, myTimer := tm } :
        Engine B TT).searchState = SearchState.DONE_SEARCHING from by
      show ¬ e.searchState = SearchState.DONE_SEARCHING
      rw [hstate]; decide)]
  have hent : thinkEnter c ({ e with
          transposTable := t, killer1 := k1, killer2 := k2, priorityTable := pt,
          principleVariation := pv, nodeCount := n, searchAborted := ab, myTimer := tm } :
        Engine B TT)
      = { thinkEnter c e with priorityTable := pt, searchAborted := ab } := by
    unfold thinkEnter
    rw [if_pos hstate, if_pos (show ({ e with
          transposTable := t, killer1 := k1, killer2 := k2, priorityTable := pt,
          principleVariation := pv, nodeCount := n, searchAborted := ab, myTimer := tm } :
        Engine B TT).searchState = SearchState.BETWEEN_SEARCHES from hstate)]
    dsimp only
    rw [hflush t e.transposTable]
  rw [hent]
  exact thinkRun_priority_irrelevant c fuel (thinkEnter c e) pt ab

/-- C27 on a concrete input: the engine that still holds a table entry, killers, a line and
a node count from the last search returns the same score and line as the freshly constructed
one, score 2 with the line 3x4, 1x2. -/
theorem think_deterministic_witness :
    (think toyPlain 10 engineUsed).map (fun r => (r.1, r.2.principleVariation))
        = (think toyPlain 10 engine0).map (fun r => (r.1, r.2.principleVariation))
      ∧ (think toyPlain 10 engine0).map (fun r => (r.1, r.2.principleVariation))
        = some (2, [⟨⟨3, 4⟩, Cutoff.NO_CUTOFF⟩, ⟨⟨1, 2⟩, Cutoff.NO_CUTOFF⟩]) :=
  ⟨think_deterministic toyPlain 10 engine0 (fun _ _ => rfl) rfl
      [⟨[], ⟨1, 2⟩, 777, 5, Flag.EXACT_SCORE⟩] [⟨1, 2⟩] [⟨3, 4⟩] []
      [⟨⟨3, 4⟩, Cutoff.NO_CUTOFF⟩] 7 Abort.NO_ABORT Color.RED, by decide!⟩

/-! ### C24: every move made is unmade -/

/-- When `unmakeMove` undoes `makeMove` and `makeNullMove`, every step of the search keeps
the board: moves and null moves are made and unmade in pairs around the recursive calls. -/
theorem boardKept_stepClosed (c : Collab B TT)
    (hundo : ∀ (b : B) (m : Move), c.unmakeMove (c.makeMove b m) = b)
    (hnull : ∀ b : B, c.unmakeMove (c.makeNullMove b) = b) :
    StepClosed c BoardKept where
  refl _ := rfl
  trans _ _ _ h1 h2 := Eq.trans h2 h1
  timedOut _ _ := rfl
  timerPolled _ := rfl
  nodeEntered _ := rfl
  move e m r h := by
    show c.unmakeMove r.board = e.board
    rw [show r.board = c.makeMove e.board m from h]
    exact hundo _ _
  nullMove e r h := by
    show c.unmakeMove r.board = e.board
    rw [show r.board = c.makeNullMove e.board from h]
    exact hnull _
  quiesc _ _ := rfl
  priority _ _ := rfl
  newKiller e m ply := board_newKiller e m ply
  store _ _ := rfl

/-- C24. When `unmakeMove` undoes `makeMove` and `makeNullMove`, every invocation of
`search`, `mtd`, `quiescence`, `alphaBeta` and `negaScout` that returns - with or without the
abort flag set - returns with the board it was entered with: every move and null move made
has been unmade. -/
theorem board_restored (c : Collab B TT) (fuel : Nat)
    (hundo : ∀ (b : B) (m : Move), c.unmakeMove (c.makeMove b m) = b)
    (hnull : ∀ b : B, c.unmakeMove (c.makeNullMove b) = b) :
    (∀ (e : Engine B TT) (pv : List PVEntry) (alpha beta ply depth : Int)
        (legalonly nullOk verify : Bool) (r : SearchResult B TT),
        search c fuel e pv alpha beta ply depth legalonly nullOk verify = some r →
        r.eng.board = e.board)
      ∧ (∀ (e : Engine B TT) (pv : List PVEntry) (guess depth : Int) (r : SearchResult B TT),
          mtd c fuel e pv guess depth = some r → r.eng.board = e.board)
      ∧ (∀ (e : Engine B TT) (alpha beta ply depth : Int) (nullOk : Bool) (v : Int)
          (e1 : Engine B TT),
          quiescence c (search c fuel) e alpha beta ply depth nullOk = some (v, e1) →
          e1.board = e.board)
      ∧ (∀ (e : Engine B TT) (pv : List PVEntry) (moveList : List Move)
          (alpha beta ply depth : Int) (legalonly nullOk verify : Bool)
          (r : SearchResult B TT),
          (alphaBeta c (search c fuel) e pv moveList alpha beta ply depth legalonly nullOk
              verify = some r
            ∨ negaScout c (search c fuel) e pv moveList alpha beta ply depth legalonly nullOk
              verify = some r) →
          r.eng.board = e.board) := by
  have hR := boardKept_stepClosed c hundo hnull
  have hs := search_steps c _ hR fuel
  refine ⟨hs, fun e pv guess depth r h => mtd_steps c _ hR fuel _ _ _ _ _ h,
    fun e alpha beta ply depth nullOk v e1 h =>
      quiescence_steps c _ hR _ hs _ _ _ _ _ _ _ _ h,
    fun e pv moveList alpha beta ply depth legalonly nullOk verify r h => ?_⟩
  rcases h with h | h
  · exact alphaBeta_steps c _ hR _ hs _ _ _ _ _ _ _ _ _ _ _ h
  · exact negaScout_steps c _ hR _ hs _ _ _ _ _ _ _ _ _ _ _ h

/-- C24 on a concrete input, where the board is the stack of the moves made: a search of
depth 2 that is cut short by the timer at its second poll returns with the abort flag set and
with the empty stack it started from; so does an MTD(f) search of depth 4 with null moves. -/
theorem board_restored_witness :
    (search toyOnePoll 5 engine0 [] (-INFIN) INFIN 0 2 false true true).map
        (fun r => (r.eng.searchAborted, r.eng.board)) = some (Abort.ABORT_TIME, [])
      ∧ (mtd toyPath 10 engine0 [] 0 4).map (fun r => r.eng.board) = some [] := by
  have h := board_restored toyOnePoll 5 (fun _ _ => rfl) (fun _ => rfl)
  have h2 := board_restored toyPath 10 (fun _ _ => rfl) (fun _ => rfl)
  constructor
  · cases hs : search toyOnePoll 5 engine0 [] (-INFIN) INFIN 0 2 false true true with
    | none =>
      have : (search toyOnePoll 5 engine0 [] (-INFIN) INFIN 0 2 false true true).isSome
          = true := by decide!
      rw [hs] at this
      exact absurd this (by decide)
    | some r =>
      have hb := h.1 _ _ _ _ _ _ _ _ _ r hs
      have ha : (search toyOnePoll 5 engine0 [] (-INFIN) INFIN 0 2 false true true).map
          (fun r => r.eng.searchAborted) = some Abort.ABORT_TIME := by decide!
      rw [hs] at ha
      simp only [Option.map_some', Option.some.injEq] at ha
      simp only [Option.map_some', Option.some.injEq, Prod.mk.injEq]
      exact ⟨ha, hb⟩
  · cases hs : mtd toyPath 10 engine0 [] 0 4 with
    | none =>
      have : (mtd toyPath 10 engine0 [] 0 4).isSome = true := by decide!
      rw [hs] at this
      exact absurd this (by decide)
    | some r =>
      simp only [Option.map_some', Option.some.injEq]
      exact h2.2.1 _ _ _ _ r hs

/-! ### C25: windows are never empty -/

theorem abAlpha_lt (st : ABState B TT) (beta : Int) (h1 : st.alpha < beta)
    (h2 : st.best < beta) : abAlpha st < beta := by
  unfold abAlpha
  split <;> omega

theorem alphaBetaLoop_congr (c : Collab B TT) (s1 s2 : SearchFn B TT)
    (h : AgreeOnWindows s1 s2) (beta ply depth : Int) (verify : Bool) :
    ∀ (moves : List Move) (st : ABState B TT), st.alpha < beta →
      alphaBetaLoop c s1 beta ply depth verify moves st
        = alphaBetaLoop c s2 beta ply depth verify moves st := by
  intro moves
  induction moves with
  | nil => intro st _; rfl
  | cons m rest ih =>
    intro st ha
    rw [alphaBetaLoop, alphaBetaLoop]
    by_cases hb : st.best < beta
    · rw [if_pos hb, if_pos hb]
      have hw : -beta < -abAlpha st := by
        have := abAlpha_lt st beta ha hb
        omega
      rw [h _ _ _ _ _ _ _ _ _ hw]
      cases s2 (doMove c st.eng m) [⟨m, Cutoff.NO_CUTOFF⟩] (-beta) (-abAlpha st) (ply + 1)
          depth false true verify with
      | none => rfl
      | some r =>
        dsimp only
        exact ih _ (by rw [abUpdate_alpha]; exact abAlpha_lt st beta ha hb)
    · rw [if_neg hb, if_neg hb]

theorem alphaBeta_congr (c : Collab B TT) (s1 s2 : SearchFn B TT) (h : AgreeOnWindows s1 s2)
    (e : Engine B TT) (pv : List PVEntry) (moveList : List Move) (alpha beta ply depth : Int)
    (legalonly nullOk verify : Bool) (hw : alpha < beta) :
    alphaBeta c s1 e pv moveList alpha beta ply depth legalonly nullOk verify
      = alphaBeta c s2 e pv moveList alpha beta ply depth legalonly nullOk verify := by
  unfold alphaBeta
  rw [alphaBetaLoop_congr c s1 s2 h beta ply depth verify moveList ⟨alpha, -INFIN, [], e⟩ hw]

theorem nsUpdate_window (c : Collab B TT) (st : NSState B TT) (r : SearchResult B TT) :
    (nsUpdate c st r).a < (nsUpdate c st r).b := by
  rw [nsUpdate_b]
  omega

theorem nsUpdateResearch_window (c : Collab B TT) (st : NSState B TT) (t : Int)
    (r2 : SearchResult B TT) :
    (nsUpdateResearch c st t r2).a < (nsUpdateResearch c st t r2).b := by
  rw [nsUpdateResearch_b]
  omega

theorem negaScoutLoop_congr (c : Collab B TT) (s1 s2 : SearchFn B TT)
    (h : AgreeOnWindows s1 s2) (beta ply depth : Int) (verify : Bool) :
    ∀ (moves : List Move) (first : Bool) (st : NSState B TT), st.a < st.b →
      negaScoutLoop c s1 beta ply depth verify moves first st
        = negaScoutLoop c s2 beta ply depth verify moves first st := by
  intro moves
  induction moves with
  | nil => intro first st _; rfl
  | cons m rest ih =>
    intro first st hab
    rw [negaScoutLoop, negaScoutLoop]
    by_cases hb : st.a < beta
    · rw [if_pos hb, if_pos hb]
      rw [h _ _ _ _ _ _ _ _ _ (by omega : -st.b < -st.a)]
      cases s2 (doMove c st.eng m) [⟨m, Cutoff.NO_CUTOFF⟩] (-st.b) (-st.a) (ply + 1) depth
          false true verify with
      | none => rfl
      | some r =>
        dsimp only
        by_cases hre : -r.value > st.a ∧ -r.value < beta ∧ first = false ∧ ply < depth - 1
        · rw [if_pos hre, if_pos hre]
          rw [h _ _ _ _ _ _ _ _ _ (by omega : -beta < - -r.value)]
          cases s2 r.eng [⟨m, Cutoff.NO_CUTOFF⟩] (-beta) (- -r.value) (ply + 1) depth
              false true verify with
          | none => rfl
          | some r2 =>
            dsimp only
            exact ih _ _ (nsUpdateResearch_window c st (-r.value) r2)
        · rw [if_neg hre, if_neg hre]
          exact ih _ _ (nsUpdate_window c st r)
    · rw [if_neg hb, if_neg hb]

theorem negaScout_congr (c : Collab B TT) (s1 s2 : SearchFn B TT) (h : AgreeOnWindows s1 s2)
    (e : Engine B TT) (pv : List PVEntry) (moveList : List Move) (alpha beta ply depth : Int)
    (legalonly nullOk verify : Bool) (hw : alpha < beta) :
    negaScout c s1 e pv moveList alpha beta ply depth legalonly nullOk verify
      = negaScout c s2 e pv moveList alpha beta ply depth legalonly nullOk verify := by
  unfold negaScout
  rw [negaScoutLoop_congr c s1 s2 h beta ply depth verify moveList true ⟨alpha, beta, [], e⟩
    hw]

theorem dispatch_congr (c : Collab B TT) (s1 s2 : SearchFn B TT) (h : AgreeOnWindows s1 s2)
    (e : Engine B TT) (moveList : List Move) (alpha beta ply depth : Int)
    (legalonly nullOk verify : Bool) (value : Int) (hw : alpha < beta) :
    dispatch c s1 e moveList alpha beta ply depth legalonly nullOk verify value
      = dispatch c s2 e moveList alpha beta ply depth legalonly nullOk verify value := by
  unfold dispatch
  split
  · exact alphaBeta_congr c s1 s2 h _ _ _ _ _ _ _ _ _ _ hw
  · rfl
  · exact negaScout_congr c s1 s2 h _ _ _ _ _ _ _ _ _ _ hw

theorem searchTail_congr (c : Collab B TT) (s1 s2 : SearchFn B TT) (h : AgreeOnWindows s1 s2)
    (e : Engine B TT) (pv : List PVEntry) (moveList : List Move) (alpha beta ply depth : Int)
    (legalonly nullOk verify failHigh : Bool) (value : Int) (hw : alpha < beta) :
    searchTail c s1 e pv moveList alpha beta ply depth legalonly nullOk verify failHigh value
      = searchTail c s2 e pv moveList alpha beta ply depth legalonly nullOk verify failHigh
        value := by
  unfold searchTail
  rw [dispatch_congr c s1 s2 h e moveList alpha beta ply depth legalonly nullOk verify value
    hw]
  cases dispatch c s2 e moveList alpha beta ply depth legalonly nullOk verify value with
  | none => rfl
  | some r =>
    dsimp only
    rw [dispatch_congr c s1 s2 h r.eng moveList alpha beta ply (depth + 1) legalonly nullOk
      true r.value hw]

theorem searchMoves_congr (c : Collab B TT) (s1 s2 : SearchFn B TT) (h : AgreeOnWindows s1 s2)
    (e : Engine B TT) (pv : List PVEntry) (alpha beta ply depth : Int)
    (legalonly nullOk verify failHigh : Bool) (value : Int) (hw : alpha < beta) :
    searchMoves c s1 e pv alpha beta ply depth legalonly nullOk verify failHigh value
      = searchMoves c s2 e pv alpha beta ply depth legalonly nullOk verify failHigh value := by
  unfold searchMoves
  rw [searchTail_congr c s1 s2 h _ _ _ _ _ _ _ _ _ _ _ _ hw]

theorem quiescenceMoves_congr (c : Collab B TT) (s1 s2 : SearchFn B TT)
    (h : AgreeOnWindows s1 s2) (e : Engine B TT) (alpha beta ply depth : Int) (nullOk : Bool)
    (value : Int) (hw : alpha < beta) :
    quiescenceMoves c s1 e alpha beta ply depth nullOk value
      = quiescenceMoves c s2 e alpha beta ply depth nullOk value := by
  unfold quiescenceMoves
  rw [dispatch_congr c s1 s2 h _ _ _ _ _ _ _ _ _ _ hw]

theorem quiescenceNull_congr (c : Collab B TT) (s1 s2 : SearchFn B TT)
    (h : AgreeOnWindows s1 s2) (ts : TableSearchResult B TT) (ply depth : Int)
    (hw : ts.alpha < ts.beta) :
    quiescenceNull c s1 ts ply depth = quiescenceNull c s2 ts ply depth := by
  unfold quiescenceNull
  rw [h _ _ _ _ _ _ _ _ _ (by omega : -ts.beta < 1 - ts.beta)]
  cases s2 { doNullMove c ts.eng with quiesc := false } [] (-ts.beta) (1 - ts.beta) 0 1 false
      false false with
  | none =>
    dsimp only
    rw [quiescenceMoves_congr c s1 s2 h _ _ _ _ _ _ _ hw]
  | some r =>
    dsimp only
    rw [quiescenceMoves_congr c s1 s2 h _ _ _ _ _ _ _ hw,
      quiescenceMoves_congr c s1 s2 h _ _ _ _ _ _ _ hw]

theorem tableWindow_valid (adjust : Bool) (flag : Flag) (score1 alpha beta : Int)
    (nullok : Bool) (hw : alpha < beta) :
    (tableWindow adjust flag score1 alpha beta nullok).1
      < (tableWindow adjust flag score1 alpha beta nullok).2.1 := by
  unfold tableWindow
  split
  · split
    · split
      · rename_i hc; exact hc.2
      · exact hw
    · split
      · rename_i hc; exact hc.2
      · exact hw
    · exact hw
  · exact hw

theorem tableSearch_window (c : Collab B TT) (e : Engine B TT) (ply depth alpha beta : Int)
    (m : Move) (score : Int) (nullok : Bool) (hw : alpha < beta) :
    (tableSearch c e ply depth alpha beta m score nullok).alpha
      < (tableSearch c e ply depth alpha beta m score nullok).beta := by
  unfold tableSearch
  split
  · exact hw
  · dsimp only
    split
    · exact tableWindow_valid _ _ _ _ _ _ hw
    · exact hw

theorem quiescenceProbe_window (c : Collab B TT) (e : Engine B TT)
    (ply depth alpha beta : Int) (nullOk : Bool) (hw : alpha < beta) :
    (quiescenceProbe c e ply depth alpha beta nullOk).alpha
      < (quiescenceProbe c e ply depth alpha beta nullOk).beta := by
  unfold quiescenceProbe
  split
  · exact tableSearch_window _ _ _ _ _ _ _ _ _ hw
  · exact hw

theorem quiescence_congr (c : Collab B TT) (s1 s2 : SearchFn B TT) (h : AgreeOnWindows s1 s2)
    (e : Engine B TT) (alpha beta ply depth : Int) (nullOk : Bool) (hw : alpha < beta) :
    quiescence c s1 e alpha beta ply depth nullOk
      = quiescence c s2 e alpha beta ply depth nullOk := by
  unfold quiescence
  rw [quiescenceNull_congr c s1 s2 h _ _ _ (quiescenceProbe_window c _ _ _ _ _ _ hw)]

theorem searchNull_congr (c : Collab B TT) (s1 s2 : SearchFn B TT) (h : AgreeOnWindows s1 s2)
    (ts : TableSearchResult B TT) (pv : List PVEntry) (ply depth : Int)
    (legalonly verify : Bool) (hw : ts.alpha < ts.beta) :
    searchNull c s1 ts pv ply depth legalonly verify
      = searchNull c s2 ts pv ply depth legalonly verify := by
  unfold searchNull
  rw [h _ _ _ _ _ _ _ _ _ (by omega : -ts.beta < 1 - ts.beta)]
  cases s2 (doNullMove c ts.eng) [] (-ts.beta) (1 - ts.beta) (ply + 1)
      (depth - ts.eng.nullMoveReductionFactor) false false (verify && ts.eng.verifyNull) with
  | none =>
    dsimp only
    rw [searchMoves_congr c s1 s2 h _ _ _ _ _ _ _ _ _ _ _ hw]
  | some r =>
    dsimp only
    rw [searchMoves_congr c s1 s2 h _ _ _ _ _ _ _ _ _ _ _ hw,
      searchMoves_congr c s1 s2 h _ _ _ _ _ _ _ _ _ _ _ hw,
      searchMoves_congr c s1 s2 h _ _ _ _ _ _ _ _ _ _ _ hw]

theorem searchBody_congr (c : Collab B TT) (s1 s2 : SearchFn B TT)
    (h : AgreeOnWindows s1 s2) : AgreeOnWindows (searchBody c s1) (searchBody c s2) := by
  intro e pv alpha beta ply depth legalonly nullOk verify hw
  unfold searchBody
  rw [quiescence_congr c s1 s2 h _ _ _ _ _ _ hw,
    searchNull_congr c s1 s2 h _ _ _ _ _ _ (tableSearch_window c _ _ _ _ _ _ _ _ hw)]

/-- Every call of `search`, at any depth of the recursion, from a call with `alpha < beta` is
entered with `alpha < beta`: the search with the check at every entry gives the same. -/
theorem search_eq_searchChecked (c : Collab B TT) (fuel : Nat) :
    AgreeOnWindows (search c fuel) (searchChecked c fuel) := by
  induction fuel with
  | zero => intro e pv alpha beta ply depth legalonly nullOk verify _; rfl
  | succ n ih =>
    intro e pv alpha beta ply depth legalonly nullOk verify hw
    rw [search_succ]
    show _ = windowChecked (searchBody c (searchChecked c n)) e pv alpha beta ply depth
      legalonly nullOk verify
    unfold windowChecked
    rw [if_pos hw]
    exact searchBody_congr c _ _ ih e pv alpha beta ply depth legalonly nullOk verify hw

/-- C25. (1) From a call of `search` with `alpha < beta`, every call of `search` reached from
it - the children of AlphaBeta, the probes and re-searches of NegaScout, the null-move
probes of `search` and of `quiescence` - is entered with `alpha < beta`: the search that
refuses an empty window at every entry returns the same.  (2) The window that a node entered
with `alpha < beta` hands to `alphaBeta` or `negaScout` is the one the table probe leaves,
and it still has `alpha < beta`, in `search` and in `quiescence`; `quiescence` itself is
called with the window of the node.  (3) Every call that `mtd` makes to `search` has the
window `(beta - 1, beta)`, and all calls below it pass the check. -/
theorem windows_never_empty (c : Collab B TT) (fuel : Nat) :
    (∀ (e : Engine B TT) (pv : List PVEntry) (alpha beta ply depth : Int)
        (legalonly nullOk verify : Bool), alpha < beta →
        search c fuel e pv alpha beta ply depth legalonly nullOk verify
          = searchChecked c fuel e pv alpha beta ply depth legalonly nullOk verify)
      ∧ (∀ (e : Engine B TT) (ply depth alpha beta : Int) (m : Move) (score : Int)
          (nullok : Bool), alpha < beta →
          (tableSearch c e ply depth alpha beta m score nullok).alpha
              < (tableSearch c e ply depth alpha beta m score nullok).beta
            ∧ (quiescenceProbe c e ply depth alpha beta nullok).alpha
              < (quiescenceProbe c e ply depth alpha beta nullok).beta)
      ∧ (∀ (depth : Int) (n : Nat) (e : Engine B TT) (g upperbound lowerbound : Int),
          mtdLoop c fuel depth (n + 1) e g upperbound lowerbound
            = (match searchChecked c fuel e [] (mtdBeta g lowerbound - 1)
                  (mtdBeta g lowerbound) 0 depth false true true with
              | none => none
              | some r =>
                if mtdLower g lowerbound r.value < mtdUpper g upperbound lowerbound r.value
                then
                  mtdLoop c fuel depth n r.eng r.value
                    (mtdUpper g upperbound lowerbound r.value) (mtdLower g lowerbound r.value)
                else some r)) := by
  refine ⟨search_eq_searchChecked c fuel, fun e ply depth alpha beta m score nullok hw =>
    ⟨tableSearch_window c e ply depth alpha beta m score nullok hw,
      quiescenceProbe_window c e ply depth alpha beta nullok hw⟩,
    fun depth n e g upperbound lowerbound => ?_⟩
  rw [mtdLoop, search_eq_searchChecked c fuel _ _ _ _ _ _ _ _ _ (mtdBeta_window g lowerbound)]

/-- C25 on a concrete input: the full-window searches of depth 2 with AlphaBeta and with
NegaScout pass the window check at every call and return the score 2; a call with an empty
window is refused by the checked search. -/
theorem windows_never_empty_witness :
    (searchChecked toyPlain 5 engine0 [] (-INFIN) INFIN 0 2 false true true).map
        (fun r => r.value) = some 2
      ∧ (searchChecked toyPlain 5 engineNegaScout [] (-INFIN) INFIN 0 2 false true true).map
        (fun r => r.value) = some 2
      ∧ (searchChecked toyPlain 5 engine0 [] 0 0 0 2 false true true).map
        (fun r => r.value) = none := by
  rw [← (windows_never_empty toyPlain 5).1 engine0 [] (-INFIN) INFIN 0 2 false true true
      (by decide),
    ← (windows_never_empty toyPlain 5).1 engineNegaScout [] (-INFIN) INFIN 0 2 false true true
      (by decide)]
  decide!

/-! ### C30: the hash move at the time of the sort -/

/-- C30, the code at the failing input: the node of ply 1 of a depth-4 search in the default
configuration, on a position with the table entry (move 1-2, remaining depth 1).  The probe
finds the entry without cutting off and seeds 1-2 into the priority table.  The null move is
tried (ply > 0, depth - ply > 2); its call of `search` clears the priority table at its
entry, so that after the probe, when the killers are set up and the moves are sorted, the
table is empty and the generated moves are ordered 3x4, 1x2: the hash move 1-2 is not
first.  With the null move switched off the table still holds 1-2 at that moment and the
order is 1x2, 3x4. -/
theorem hash_move_lost_by_null_move_probe :
    ((tableSearch toyPlain (nodeEntered engineHashed) 1 4 (-INFIN) INFIN Move.empty 0
          true).cut = false
        ∧ (tableSearch toyPlain (nodeEntered engineHashed) 1 4 (-INFIN) INFIN Move.empty 0
          true).eng.priorityTable = [⟨1, 2⟩])
      ∧ (search toyPlain 3
            (doNullMove toyPlain
              (tableSearch toyPlain (nodeEntered engineHashed) 1 4 (-INFIN) INFIN Move.empty 0
                true).eng)
            [] (-INFIN) (1 - INFIN) (1 + 1) (4 - 3) false false true).map
          (fun r => (-r.value, (setUpKillers (undoMove toyPlain r.eng) 1).priorityTable))
        = some (1, [])
      ∧ (searchNull toyPlain (search toyPlain 3)
          (tableSearch toyPlain (nodeEntered engineHashed) 1 4 (-INFIN) INFIN Move.empty 0
            true) [] 1 4 false true).map (fun r => (r.value, r.pv, r.eng.nodeCount))
        = ((search toyPlain 3
            (doNullMove toyPlain
              (tableSearch toyPlain (nodeEntered engineHashed) 1 4 (-INFIN) INFIN Move.empty 0
                true).eng)
            [] (-INFIN) (1 - INFIN) (1 + 1) (4 - 3) false false true).bind
          (fun r => searchMoves toyPlain (search toyPlain 3) (undoMove toyPlain r.eng) []
            (-INFIN) INFIN 1 4 false true true false (-r.value))).map
          (fun r => (r.value, r.pv, r.eng.nodeCount))
      ∧ toyPlain.sort (compareMoves toyPlain [⟨1, 2⟩] [])
          (toyPlain.generateMoves [⟨1, 2⟩] false) = [⟨3, 4⟩, ⟨1, 2⟩]
      ∧ toyPlain.sort (compareMoves toyPlain [⟨1, 2⟩] [⟨1, 2⟩])
          (toyPlain.generateMoves [⟨1, 2⟩] false) = [⟨1, 2⟩, ⟨3, 4⟩]
      ∧ (setUpKillers
          (tableSearch toyPlain (nodeEntered { engineHashed with allowNull := false }) 1 4
            (-INFIN) INFIN Move.empty 0 true).eng 1).priorityTable = [⟨1, 2⟩] := by
  decide!

/-! ### C32: the loop of `mtd` ends -/

/-- The loop of `mtd` is `mtdLoopOn` at the search of the engine. -/
theorem mtdLoop_eq_mtdLoopOn (c : Collab B TT) (fuel : Nat) (depth : Int) :
    ∀ (n : Nat) (e : Engine B TT) (g upper lower : Int),
      mtdLoop c fuel depth n e g upper lower
        = mtdLoopOn (search c fuel) depth n e g upper lower := by
  intro n
  induction n with
  | zero => intro e g upper lower; rfl
  | succ k ih =>
    intro e g upper lower
    rw [mtdLoop, mtdLoopOn]
    cases search c fuel e [] (mtdBeta g lower - 1) (mtdBeta g lower) 0 depth false true true with
    | none => rfl
    | some r =>
      dsimp only
      rw [ih]

/-- One iteration of the loop of `mtd` from bounds `lower < upper` with the last score `g`
equal to one of them: either the upper bound drops, or the lower bound rises, or the bounds
meet; the new score is again one of the new bounds. -/
theorem mtd_progress (g upper lower v : Int) (hlt : lower < upper)
    (hg : g = lower ∨ g = upper) :
    ((mtdUpper g upper lower v < upper ∧ mtdLower g lower v = lower)
        ∨ (lower < mtdLower g lower v ∧ mtdUpper g upper lower v = upper)
        ∨ mtdUpper g upper lower v ≤ mtdLower g lower v)
      ∧ (v = mtdLower g lower v ∨ v = mtdUpper g upper lower v) := by
  unfold mtdUpper mtdLower mtdBeta
  split_ifs <;> omega

/-- The gap between the bounds after an iteration that does not end the loop is smaller than
before. -/
theorem mtd_gap_shrinks (g upper lower v : Int) (hlt : lower < upper)
    (hg : g = lower ∨ g = upper)
    (hcont : mtdLower g lower v < mtdUpper g upper lower v) :
    mtdUpper g upper lower v - mtdLower g lower v < upper - lower := by
  obtain ⟨h, _⟩ := mtd_progress g upper lower v hlt hg
  rcases h with ⟨h1, h2⟩ | ⟨h1, h2⟩ | h
  · omega
  · omega
  · omega

/-- The gap between the bounds after the first iteration, when it does not end the loop. -/
theorem mtd_first_gap (guess v : Int)
    (hcont : mtdLower guess (-INFIN) v < mtdUpper guess INFIN (-INFIN) v) :
    mtdUpper guess INFIN (-INFIN) v - mtdLower guess (-INFIN) v ≤ (guess.natAbs : Int) + 3000 := by
  unfold mtdUpper mtdLower mtdBeta INFIN at *
  split_ifs at hcont ⊢ <;> omega

/-- The iterations of `mtd` after the first, for any search function that returns: from
bounds `lower < upper` with the last score equal to one of them, the loop ends within
`upper - lower` iterations. -/
theorem mtdLoopOn_ends (srch : SearchFn B TT) (depth : Int) (I : Engine B TT → Prop)
    (hret : ∀ (e : Engine B TT) (beta : Int), I e →
      ∃ r : SearchResult B TT,
        srch e [] (beta - 1) beta 0 depth false true true = some r ∧ I r.eng) :
    ∀ (d n : Nat), d < n → ∀ (e : Engine B TT) (g upper lower : Int),
      I e → lower < upper → (g = lower ∨ g = upper) → upper - lower ≤ d →
      ∃ r : SearchResult B TT, mtdLoopOn srch depth n e g upper lower = some r ∧ I r.eng := by
  intro d
  induction d with
  | zero =>
    intro n _ e g upper lower _ hlt _ hd
    exact absurd hd (by push_cast; omega)
  | succ k ih =>
    intro n hn e g upper lower hI hlt hg hd
    obtain ⟨n1, rfl⟩ : ∃ n1, n = n1 + 1 := ⟨n - 1, by omega⟩
    obtain ⟨r, hr, hrI⟩ := hret e (mtdBeta g lower) hI
    rw [mtdLoopOn, hr]
    dsimp only
    by_cases hl : mtdLower g lower r.value < mtdUpper g upper lower r.value
    · rw [if_pos hl]
      have hgap := mtd_gap_shrinks g upper lower r.value hlt hg hl
      exact ih n1 (by omega) r.eng r.value _ _ hrI hl
        (mtd_progress g upper lower r.value hlt hg).2
        (by push_cast at hd; omega)
    · rw [if_neg hl]
      exact ⟨r, rfl, hrI⟩

/-- C32. The loop of `mtd` ends whatever scores the search returns: for every function in the
place of `search` that returns from the zero-width calls of `mtd` (on the engines of a set `I`
that these calls do not leave), every guess and every bound `n` of at least `|guess| + 3002`
iterations, the loop started by `mtd` (bounds `INFIN` and `-INFIN`) exits with a result; and
an iteration after the first, which starts with `lower < upper` and the last score equal to
one of the bounds, strictly lowers the upper bound, or strictly raises the lower bound, or
leaves `upper <= lower`, its score being again one of the new bounds. -/
theorem mtd_loop_terminates (srch : SearchFn B TT) (depth : Int) (I : Engine B TT → Prop)
    (hret : ∀ (e : Engine B TT) (beta : Int), I e →
      ∃ r : SearchResult B TT,
        srch e [] (beta - 1) beta 0 depth false true true = some r ∧ I r.eng)
    (e : Engine B TT) (hI : I e) (guess : Int) (n : Nat) (hn : guess.natAbs + 3002 ≤ n) :
    (∃ r : SearchResult B TT, mtdLoopOn srch depth n e guess INFIN (-INFIN) = some r ∧ I r.eng)
      ∧ ∀ (g upper lower v : Int), lower < upper → (g = lower ∨ g = upper) →
          ((mtdUpper g upper lower v < upper ∧ mtdLower g lower v = lower)
              ∨ (lower < mtdLower g lower v ∧ mtdUpper g upper lower v = upper)
              ∨ mtdUpper g upper lower v ≤ mtdLower g lower v)
            ∧ (v = mtdLower g lower v ∨ v = mtdUpper g upper lower v) := by
  refine ⟨?_, fun g upper lower v hlt hg => mtd_progress g upper lower v hlt hg⟩
  obtain ⟨n1, rfl⟩ : ∃ n1, n = n1 + 1 := ⟨n - 1, by omega⟩
  obtain ⟨r, hr, hrI⟩ := hret e (mtdBeta guess (-INFIN)) hI
  rw [mtdLoopOn, hr]
  dsimp only
  by_cases hl : mtdLower guess (-INFIN) r.value < mtdUpper guess INFIN (-INFIN) r.value
  · rw [if_pos hl]
    have hgap := mtd_first_gap guess r.value hl
    have hv : r.value = mtdLower guess (-INFIN) r.value
        ∨ r.value = mtdUpper guess INFIN (-INFIN) r.value := by
      unfold mtdUpper mtdLower
      split_ifs <;> simp
    exact mtdLoopOn_ends srch depth I hret (guess.natAbs + 3000) n1 (by omega) r.eng r.value _ _
      hrI hl hv (by simp only [Nat.cast_add, Nat.cast_ofNat]; exact hgap)
  · rw [if_neg hl]
    exact ⟨r, rfl, hrI⟩

/-- C32 on concrete inputs: on the bounded instance in the plain configuration the search
returns from every zero-width call, so `mtd` with guess 0 at depth 3 returns; and with the
counting search in the place of `search`, whose scores 0, 1, 2, ... ignore the window, the
loop started with guess 5 ends as well. -/
theorem mtd_loop_terminates_witness :
    (∃ r : SearchResult Pos Table, mtd toyBounded 3002 enginePlain [] 0 3 = some r)
      ∧ (∃ r : SearchResult Pos Table,
          mtdLoopOn countingSearch 3 3007 engine0 5 INFIN (-INFIN) = some r) := by
  constructor
  · obtain ⟨⟨r, hr, -⟩, -⟩ :=
      mtd_loop_terminates (search toyBounded 3002) 3
        (fun e => Plain e ∧ e.searchMethod = SearchMethod.SEARCH_AB)
        (fun e beta he => by
          obtain ⟨r, h1, h2, h3, -, -⟩ :=
            search_sound toyBounded 3 (toyBounded_regular 3 (by decide)) 3 3002 (by decide)
              e [] (beta - 1) beta 0 true true he.1 he.2 (by omega) (le_refl 0) (by decide)
              (by decide)
          exact ⟨r, h1, h2, (settings_method e r.eng h3).trans he.2⟩)
        enginePlain ⟨enginePlain_plain, rfl⟩ 0 3002 (by decide)
    exact ⟨r, by rw [mtd, mtdLoop_eq_mtdLoopOn]; exact hr⟩
  · obtain ⟨⟨r, hr, -⟩, -⟩ :=
      mtd_loop_terminates countingSearch 3 (fun _ => True)
        (fun e _ _ => ⟨_, rfl, trivial⟩) engine0 trivial 5 3007 (by decide)
    exact ⟨r, hr⟩

/-! ### C31: the score returned by think after an aborted iteration -/

/-- C31 fails on the code: in the default configuration with the timer running out after six
polls, the first iteration (depth 1) completes with score 0 and line 1-2; the second iteration
is aborted at its first poll and returns -3000, the value `search` returns when no time is
left.  `think` returns -3000 while the principal variation it holds is still the line 1-2 of
the first iteration, whose score was 0. -/
theorem think_returns_score_of_aborted_iteration :
    (thinkIter toySixPolls 9 (thinkEnter toySixPolls engine0) 0 1).map
        (fun r => (r.1, r.2.principleVariation, r.2.searchAborted))
      = some (0, [⟨⟨1, 2⟩, Cutoff.NO_CUTOFF⟩], Abort.NO_ABORT)
    ∧ ((thinkIter toySixPolls 9 (thinkEnter toySixPolls engine0) 0 1).bind
        (fun r => thinkIter toySixPolls 9 r.2 r.1 2)).map
        (fun r => (r.1, r.2.principleVariation, r.2.searchAborted))
      = some (-3000, [⟨⟨1, 2⟩, Cutoff.NO_CUTOFF⟩], Abort.ABORT_TIME)
    ∧ (think toySixPolls 9 engine0).map
        (fun r => (r.1, r.2.principleVariation, r.2.searchAborted, r.2.searchState))
      = some (-3000, [⟨⟨1, 2⟩, Cutoff.NO_CUTOFF⟩], Abort.ABORT_TIME,
          SearchState.DONE_SEARCHING) := by
  decide!

/-! ### C33: the line returned by negaScout -/

/-- C33 fails on the code: at the root of a depth-3 search of the two-move instance in the
plain configuration, the sorted move list is 3-4, 1-2.  The move 3-4 is searched first and has
the value -4; the move 1-2 is probed with the zero-width window, exceeds the bound and is
searched again, with value -2.  That value is assigned to `a` directly, so the test `t > a`
fails and the local line stays the one of 3-4: `negaScout` returns the score -2 of the move
1-2 together with the line 3-4 3-4 1-2, and so does `search`, where `alphaBeta` returns -2 with
the line 1-2 3-4 1-2.  With the window (-3, INFIN) the move 3-4 does not exceed the bound, and
`negaScout` returns -2, above the bound -3, with an empty line. -/
theorem negaScout_keeps_line_of_other_move_after_research :
    toyPlain.sort (compareMoves toyPlain enginePlainNS.board enginePlainNS.priorityTable)
        (toyPlain.generateMoves enginePlainNS.board false) = [⟨3, 4⟩, ⟨1, 2⟩]
    ∧ (negaScout toyPlain (search toyPlain 5) enginePlainNS [] [⟨3, 4⟩, ⟨1, 2⟩] (-INFIN) INFIN
          0 3 false true true).map (fun r => (r.value, r.pv.map (fun x => x.move)))
        = some (-2, [⟨3, 4⟩, ⟨3, 4⟩, ⟨1, 2⟩])
    ∧ (search toyPlain 5 (doMove toyPlain enginePlainNS ⟨3, 4⟩) [⟨⟨3, 4⟩, Cutoff.NO_CUTOFF⟩]
          (-INFIN) INFIN 1 3 false true true).map (fun r => -r.value) = some (-4)
    ∧ (search toyPlain 5 (doMove toyPlain enginePlainNS ⟨1, 2⟩) [⟨⟨1, 2⟩, Cutoff.NO_CUTOFF⟩]
          (-INFIN) INFIN 1 3 false true true).map (fun r => -r.value) = some (-2)
    ∧ (search toyPlain 6 enginePlainNS [] (-INFIN) INFIN 0 3 false true true).map
          (fun r => (r.value, r.pv.map (fun x => x.move)))
        = some (-2, [⟨3, 4⟩, ⟨3, 4⟩, ⟨1, 2⟩])
    ∧ (alphaBeta toyPlain (search toyPlain 5) enginePlainNS [] [⟨3, 4⟩, ⟨1, 2⟩] (-INFIN) INFIN
          0 3 false true true).map (fun r => (r.value, r.pv.map (fun x => x.move)))
        = some (-2, [⟨1, 2⟩, ⟨3, 4⟩, ⟨1, 2⟩])
    ∧ (negaScout toyPlain (search toyPlain 5) enginePlainNS [] [⟨3, 4⟩, ⟨1, 2⟩] (-3) INFIN
          0 3 false true true).map (fun r => (r.value, r.pv.map (fun x => x.move)))
        = some (-2, []) := by
  decide!

end Tsito
